import Mathlib

/-!
# Round synchronisation of a peer (network/sync.go)

A shallow embedding of the catch-up engine of `network/sync.go`: the round
graph comparison, the batch streaming pass, the head-round top-up and the
wait for a sync point, followed by theorems about them.

Conventions of the embedding

* `uint64` values are natural numbers; every addition the source performs on
  them is reduced modulo `2^64`, as Go does.
* A Go call returning `(value, error)` is a pair whose second component is
  `none` for a `nil` error.
* Calls that leave the peer (`SendSnapshotFinalizationMessage`, ledger reads)
  are answered by the fields of `Peer` and `Handle`; every such call is also
  recorded in a trace so that theorems can speak about what was sent or read.
-/

namespace Mixin.Network

/-- Modulus of Go's `uint64` arithmetic. -/
def u64 : Nat := 2 ^ 64

/-- Modelled from the spec: `crypto.Hash`, the fixed-size node identifier declared
outside the shown files; only equality of identifiers is used. -/
abbrev Hash := Nat

/-- Modelled from the spec: `network.SyncPoint`, declared outside the shown files:
a claim that node `NodeId` has reached round `Number`. -/
structure SyncPoint where
  NodeId : Hash
  Number : Nat
deriving DecidableEq, Repr

/-- Modelled from the spec: `common.Snapshot`, declared outside the shown files;
the fields the synchronisation code reads, and the rest as `Payload`. -/
structure Snapshot where
  NodeId : Hash
  RoundNumber : Nat
  Payload : Nat
deriving DecidableEq, Repr

/-- Modelled from the spec: `common.SnapshotWithTopologicalOrder`, declared outside
the shown files: a snapshot (embedded struct) and its place in the global log. -/
structure SnapshotWithTopologicalOrder where
  Snapshot : Snapshot
  TopologicalOrder : Nat
deriving DecidableEq, Repr

/-- Modelled from the spec: the constants of package `config` the code reads. -/
structure Config where
  SnapshotReferenceThreshold : Nat
  SnapshotRoundGap : Nat

/-- Result of a ledger read: the snapshots and the error (`none` for `nil`). -/
abbrev ReadResult := List SnapshotWithTopologicalOrder × Option String

/-- Modelled from the spec: the ledger accessor `me.handle`, an interface
implemented outside the shown files. -/
structure Handle where
  ReadSnapshotsForNodeRound : Hash → Nat → ReadResult
  ReadSnapshotsSinceTopology : Nat → Nat → ReadResult
  BuildGraph : List SyncPoint
  ReadAllNodes : List Hash

/-- Modelled from the spec: the part of `Peer`, declared outside the shown files, that
the synchronisation code uses as `me`: the ledger handle and the answer of
`SendSnapshotFinalizationMessage`, which may depend on the snapshots handed to it
earlier in the same call (`none` for a `nil` error). -/
structure Peer where
  handle : Handle
  SendSnapshotFinalizationMessage : List Snapshot → Snapshot → Option String

/-- A round graph as the Go map `map[crypto.Hash]*SyncPoint`. -/
abbrev RoundGraph := Hash → Option SyncPoint

/-- The map built by `for _, p := range points { m[p.NodeId] = p }`:
a later entry for the same node replaces an earlier one. -/
def graphOf (points : List SyncPoint) : RoundGraph :=
  points.foldl (fun m p => fun id => if id = p.NodeId then some p else m id) (fun _ => none)

/-- Embedding of `cacheReadSnapshotsForNodeRound`; the flag `final` is not used by the source. -/
def cacheReadSnapshotsForNodeRound (me : Peer) (nodeId : Hash) (number : Nat)
    (_final : Bool) : ReadResult :=
  me.handle.ReadSnapshotsForNodeRound nodeId number

/-- Embedding of `cacheReadSnapshotsSinceTopology`. -/
def cacheReadSnapshotsSinceTopology (me : Peer) (offset limit : Nat) : ReadResult :=
  me.handle.ReadSnapshotsSinceTopology offset limit

/-- The loop `for _, l := range local` of `compareRoundGraphAndGetTopologicalOffset`,
started with the current value of `offset`. -/
def compareLoop (me : Peer) (remoteFilter : RoundGraph) :
    List SyncPoint → Nat → Nat × Option String
  | [], offset => (offset, none)
  | l :: rest, offset =>
    match remoteFilter l.NodeId with
    | none => compareLoop me remoteFilter rest offset
    | some r =>
      if r.Number > l.Number then compareLoop me remoteFilter rest offset
      else
        let number := (r.Number + 2) % u64
        match cacheReadSnapshotsForNodeRound me l.NodeId number (decide (number ≤ l.Number)) with
        | (_, some err) => (offset, some err)
        | ([], none) => compareLoop me remoteFilter rest offset
        | (s :: _, none) =>
          let topo := s.TopologicalOrder
          if offset = 0 ∨ topo < offset then compareLoop me remoteFilter rest topo
          else compareLoop me remoteFilter rest offset

/-- Embedding of `compareRoundGraphAndGetTopologicalOffset`. -/
def compareRoundGraphAndGetTopologicalOffset (me : Peer) (local_ remote : List SyncPoint) :
    Nat × Option String :=
  compareLoop me (graphOf remote) local_ 0

/-- The errors `syncToNeighborSince` returns: the two it creates itself with
`fmt.Errorf` and those handed back by the ledger or by the sender. -/
inductive SyncError where
  | EOF
  | FUTURE (nodeId : Hash) (roundNumber remoteRound : Nat)
  | external (msg : String)
deriving DecidableEq, Repr

/-- One call of `SendSnapshotFinalizationMessage` made by `syncToNeighborSince`:
the fetched snapshot whose `Snapshot` is passed, and the value the variable
`offset` holds when the call is made. -/
structure SendCall where
  snapshot : SnapshotWithTopologicalOrder
  offset : Nat
deriving DecidableEq, Repr

/-- State of the loop of `syncToNeighborSince`: the variable `offset`, the calls of
the sender made so far and the snapshots for which the loop body was entered. -/
structure PassState where
  offset : Nat
  sends : List SendCall
  considered : List SnapshotWithTopologicalOrder
deriving DecidableEq, Repr

/-- The snapshots handed to the sender by a list of calls, in order. -/
def sentSnapshots (sends : List SendCall) : List Snapshot :=
  sends.map (fun c => c.snapshot.Snapshot)

/-- The round a graph holds for a node, zero when it has no entry for it: lines 62-65
of `syncToNeighborSince` and lines 87-93 of `syncHeadRoundToRemote`. -/
def remoteRoundOf (graph : RoundGraph) (nodeId : Hash) : Nat :=
  match graph nodeId with
  | some r => r.Number
  | none => 0

/-- The loop `for _, s := range snapshots` of `syncToNeighborSince`. The second
component is the error of an early `return`, `none` when the loop ran to its end. -/
def sinceLoop (cfg : Config) (me : Peer) (graph : RoundGraph) :
    List SnapshotWithTopologicalOrder → PassState → PassState × Option SyncError
  | [], st => (st, none)
  | s :: rest, st =>
    let st1 : PassState := { st with considered := st.considered ++ [s] }
    let remoteRound := remoteRoundOf graph s.Snapshot.NodeId
    if s.Snapshot.RoundNumber < remoteRound then
      sinceLoop cfg me graph rest { st1 with offset := s.TopologicalOrder }
    else if s.Snapshot.RoundNumber ≥ (remoteRound + cfg.SnapshotReferenceThreshold * 2) % u64 then
      (st1, some (SyncError.FUTURE s.Snapshot.NodeId s.Snapshot.RoundNumber remoteRound))
    else
      let st2 : PassState := { st1 with sends := st1.sends ++ [⟨s, st.offset⟩] }
      match me.SendSnapshotFinalizationMessage (sentSnapshots st.sends) s.Snapshot with
      | some err => (st2, some (SyncError.external err))
      | none => sinceLoop cfg me graph rest { st2 with offset := s.TopologicalOrder }

/-- What one call of `syncToNeighborSince` returns and does. -/
structure PassResult where
  offset : Nat
  err : Option SyncError
  sends : List SendCall
  considered : List SnapshotWithTopologicalOrder
deriving DecidableEq, Repr

/-- The batch limit of `syncToNeighborSince`. -/
def syncLimit : Nat := 200

/-- Embedding of `syncToNeighborSince` (the sleep before the length test is not modelled). -/
def syncToNeighborSince (cfg : Config) (me : Peer) (graph : RoundGraph) (offset : Nat) :
    PassResult :=
  match cacheReadSnapshotsSinceTopology me offset syncLimit with
  | (_, some err) => ⟨offset, some (SyncError.external err), [], []⟩
  | (snapshots, none) =>
    match sinceLoop cfg me graph snapshots ⟨offset, [], []⟩ with
    | (st, some err) => ⟨st.offset, some err, st.sends, st.considered⟩
    | (st, none) =>
      if snapshots.length < syncLimit then ⟨st.offset, some SyncError.EOF, st.sends, st.considered⟩
      else ⟨st.offset, none, st.sends, st.considered⟩

/-- What one evaluation of the condition and body of the streaming loop of
`syncToNeighborLoop` observes: the two shutdown flags and the peer (ledger and
sender) as they are at that moment. -/
structure LoopEnv where
  meClosing : Bool
  pClosing : Bool
  me : Peer

/-- What the streaming loop of `syncToNeighborLoop` has done: the value of the
variable `offset`, the results of the calls of `syncToNeighborSince` in order, and
whether the loop has ended. -/
structure StreamResult where
  offset : Nat
  calls : List PassResult
  finished : Bool
deriving DecidableEq, Repr

/-- The loop `for !me.closing && !p.closing && offset > 0` of `syncToNeighborLoop`
(lines 120-127), one element of the list per evaluation of the loop condition; when
the list ends before the loop does, the result is the state reached, not finished. -/
def streamingLoop (cfg : Config) (graph : RoundGraph) :
    List LoopEnv → Nat → List PassResult → StreamResult
  | [], offset, calls => ⟨offset, calls, false⟩
  | e :: rest, offset, calls =>
    if !e.meClosing && !e.pClosing && decide (offset > 0) then
      let r := syncToNeighborSince cfg e.me graph offset
      match r.err with
      | some _ => ⟨offset, calls ++ [r], true⟩
      | none => streamingLoop cfg graph rest r.offset (calls ++ [r])
    else ⟨offset, calls, true⟩

/-- One call of `cacheReadSnapshotsForNodeRound` made by `syncHeadRoundToRemote`. -/
structure ReadCall where
  nodeId : Hash
  number : Nat
  final : Bool
deriving DecidableEq, Repr

/-- What `syncHeadRoundToRemote` does: its ledger reads and the snapshots it hands
to `SendSnapshotFinalizationMessage`, each in order. -/
structure HeadTrace where
  requests : List ReadCall
  sent : List Snapshot
deriving DecidableEq, Repr

/-- The loop `for i := remoteFinal; i <= bound; i++` of `syncHeadRoundToRemote`,
with `bound` the value of `remoteFinal+config.SnapshotReferenceThreshold+2`.
The first argument bounds the number of evaluations of the loop condition;
`none` when it is used up before the loop ends. -/
def headRoundLoop (me : Peer) (nodeId : Hash) (localFinal bound : Nat) :
    Nat → Nat → HeadTrace → Option HeadTrace
  | 0, _, _ => none
  | fuel + 1, i, tr =>
    if i ≤ bound then
      let final := decide (i ≤ localFinal)
      let ss := (cacheReadSnapshotsForNodeRound me nodeId i final).1
      headRoundLoop me nodeId localFinal bound fuel ((i + 1) % u64)
        ⟨tr.requests ++ [⟨nodeId, i, final⟩], tr.sent ++ ss.map (fun s => s.Snapshot)⟩
    else some tr

/-- Embedding of `syncHeadRoundToRemote`. -/
def syncHeadRoundToRemote (cfg : Config) (me : Peer) (local_ remote : RoundGraph)
    (nodeId : Hash) (fuel : Nat) : Option HeadTrace :=
  let remoteFinal := remoteRoundOf remote nodeId
  let localFinal := remoteRoundOf local_ nodeId
  if remoteFinal > localFinal then some ⟨[], []⟩
  else
    headRoundLoop me nodeId localFinal ((remoteFinal + cfg.SnapshotReferenceThreshold + 2) % u64)
      fuel remoteFinal ⟨[], []⟩

/-- What the loop of `getSyncPointOffset` meets at one iteration: a shutdown flag
found set at the loop head, a graph `g` received from `p.sync` (with the peer as
it is then), or the timer firing. -/
inductive SyncEvent where
  | closing
  | push (me : Peer) (g : List SyncPoint)
  | timeout

/-- The branch `case g := <-p.sync` of `getSyncPointOffset`, acting on the
variables `graph` and `offset`. -/
def getSyncPointOffsetPush (me : Peer) (g : List SyncPoint)
    (st : Option RoundGraph × Nat) : Option RoundGraph × Nat :=
  let graph := graphOf g
  let off := (compareRoundGraphAndGetTopologicalOffset me me.handle.BuildGraph g).1
  (some graph, if off > 0 then off else st.2)

/-- The loop of `getSyncPointOffset`; `none` when the events end before it returns. -/
def getSyncPointOffsetLoop :
    List SyncEvent → Option RoundGraph × Nat → Option (Option RoundGraph × Nat)
  | [], _ => none
  | SyncEvent.closing :: _, _ => some (none, 0)
  | SyncEvent.push me g :: rest, st => getSyncPointOffsetLoop rest (getSyncPointOffsetPush me g st)
  | SyncEvent.timeout :: _, st => some st

/-- Embedding of `getSyncPointOffset`. -/
def getSyncPointOffset (events : List SyncEvent) : Option (Option RoundGraph × Nat) :=
  getSyncPointOffsetLoop events (none, 0)

/-! ## Predicates and the statements of the specification, as definitions -/

/-- The candidate of a local node, in the words of the specification: the node yields
one when the remote graph has an entry for it whose round does not exceed the local
round and the ledger has a snapshot at that round plus two (the sum as the code forms
it, in `uint64`); it is the `TopologicalOrder` of the first such snapshot. -/
def candidateOf (me : Peer) (remote : List SyncPoint) (l : SyncPoint) : Option Nat :=
  match graphOf remote l.NodeId with
  | none => none
  | some r =>
    if r.Number ≤ l.Number then
      ((me.handle.ReadSnapshotsForNodeRound l.NodeId ((r.Number + 2) % u64)).1.head?).map
        (fun s => s.TopologicalOrder)
    else none

/-- The candidates of the local nodes, in the order of the local graph. -/
def candidates (me : Peer) (local_ remote : List SyncPoint) : List Nat :=
  local_.filterMap (candidateOf me remote)

/-- The minimum of a list of candidates, zero for the empty list. -/
def minimumOrZero : List Nat → Nat
  | [] => 0
  | c :: cs => cs.foldl min c

/-- Every ledger lookup the comparison can make for a local node succeeds. -/
def lookupsSucceed (me : Peer) (local_ remote : List SyncPoint) : Prop :=
  ∀ l ∈ local_, ∀ r, graphOf remote l.NodeId = some r → r.Number ≤ l.Number →
    (me.handle.ReadSnapshotsForNodeRound l.NodeId ((r.Number + 2) % u64)).2 = none

/-- The update `if offset == 0 || topo < offset { offset = topo }` of the comparison. -/
def pickOffset (offset topo : Nat) : Nat :=
  if offset = 0 ∨ topo < offset then topo else offset

/-- The test of line 66: the snapshot's round is below the remote round of its node. -/
def isStale (graph : RoundGraph) (s : SnapshotWithTopologicalOrder) : Prop :=
  s.Snapshot.RoundNumber < remoteRoundOf graph s.Snapshot.NodeId

/-- The test of line 70: the snapshot's round is at or beyond the remote round plus
twice the threshold, the sum formed in `uint64`. -/
def isFuture (cfg : Config) (graph : RoundGraph) (s : SnapshotWithTopologicalOrder) : Prop :=
  s.Snapshot.RoundNumber
    ≥ (remoteRoundOf graph s.Snapshot.NodeId + cfg.SnapshotReferenceThreshold * 2) % u64

instance (graph : RoundGraph) (s : SnapshotWithTopologicalOrder) : Decidable (isStale graph s) := by
  unfold isStale; infer_instance

instance (cfg : Config) (graph : RoundGraph) (s : SnapshotWithTopologicalOrder) :
    Decidable (isFuture cfg graph s) := by
  unfold isFuture; infer_instance

/-- The `FUTURE` error the pass returns at snapshot `s`. -/
def futureError (graph : RoundGraph) (s : SnapshotWithTopologicalOrder) : SyncError :=
  SyncError.FUTURE s.Snapshot.NodeId s.Snapshot.RoundNumber
    (remoteRoundOf graph s.Snapshot.NodeId)

/-- The contract of `ReadSnapshotsSinceTopology` on one answer: every snapshot lies
strictly after the requested offset and the `TopologicalOrder` increases along the list. -/
def strictlyAfter (offset : Nat) (ss : List SnapshotWithTopologicalOrder) : Prop :=
  (∀ s ∈ ss, offset < s.TopologicalOrder)
    ∧ ss.Pairwise (fun a b => a.TopologicalOrder < b.TopologicalOrder)

/-- The ledger of the peer keeps the contract of `ReadSnapshotsSinceTopology`. -/
def readsStrictlyAfter (me : Peer) : Prop :=
  ∀ offset limit, strictlyAfter offset (me.handle.ReadSnapshotsSinceTopology offset limit).1

/-- The `TopologicalOrder` of the last snapshot of a list, `offset` for the empty list. -/
def lastOrderOr (offset : Nat) (ss : List SnapshotWithTopologicalOrder) : Nat :=
  match ss.getLast? with
  | some s => s.TopologicalOrder
  | none => offset

/-- All calls of the sender made by a sequence of calls of `syncToNeighborSince`. -/
def allSends : List PassResult → List SendCall
  | [] => []
  | r :: rs => r.sends ++ allSends rs

/-- The head-round top-up of a node in the words of the specification: the rounds
`remoteFinal`, ..., `remoteFinal + threshold + 2` are read once each in increasing order
(the read marked final when the round is at most `localFinal`), and every snapshot the
reads return is sent, in that order. -/
def headRoundTrace (me : Peer) (nodeId : Hash) (localFinal remoteFinal threshold : Nat) :
    HeadTrace :=
  ⟨(List.range' remoteFinal (threshold + 3)).map
      (fun i => ⟨nodeId, i, decide (i ≤ localFinal)⟩),
    (List.range' remoteFinal (threshold + 3)).flatMap
      (fun i => (me.handle.ReadSnapshotsForNodeRound nodeId i).1.map (fun s => s.Snapshot))⟩

/-! ## Concrete ledgers and peers used to evaluate the code -/

/-- A sender that always succeeds. -/
def sendOk : List Snapshot → Snapshot → Option String := fun _ _ => none

/-- A ledger answering reads by node and round from `byRound`, empty since-reads. -/
def handleOfRounds (byRound : Hash → Nat → ReadResult) : Handle :=
  ⟨byRound, fun _ _ => ([], none), [], []⟩

/-- Ledger of the zero-order example: node 1 has at round 9 a snapshot of
`TopologicalOrder` 0, node 2 has at round 9 a snapshot of `TopologicalOrder` 5. -/
def zeroOrderPeer : Peer :=
  ⟨handleOfRounds (fun n k =>
      if n = 1 ∧ k = 9 then ([⟨⟨1, 9, 0⟩, 0⟩], none)
      else if n = 2 ∧ k = 9 then ([⟨⟨2, 9, 0⟩, 5⟩], none)
      else ([], none)), sendOk⟩

/-- Ledger of the scenario of the specification: node 1 (A) has at round 9 a snapshot
of `TopologicalOrder` 142; no other round of any node holds a snapshot. -/
def scenarioPeer : Peer :=
  ⟨handleOfRounds (fun n k =>
      if n = 1 ∧ k = 9 then ([⟨⟨1, 9, 0⟩, 142⟩], none) else ([], none)), sendOk⟩

/-- Ledger of the failing-lookup example: local graph {1:10, 2:10}; node 1 has at
round 9 a snapshot of `TopologicalOrder` 142; the read of node 2 at round 9 fails. -/
def failingPeer : Peer :=
  ⟨⟨fun n k =>
      if n = 1 ∧ k = 9 then ([⟨⟨1, 9, 0⟩, 142⟩], none)
      else if n = 2 ∧ k = 9 then ([], some "lookup failed")
      else ([], none),
    fun _ _ => ([], none), [⟨1, 10⟩, ⟨2, 10⟩], [1, 2]⟩, sendOk⟩

/-- Configuration of the scenario of the specification: threshold 3. -/
def cfg3 : Config := ⟨3, 0⟩

/-- Remote graph of the scenario of the specification: node 1 (A) at round 7. -/
def graphA7 : RoundGraph := graphOf [⟨1, 7⟩]

/-- A peer whose ledger answers every since-read with the batch `ss` and whose sends
succeed. -/
def peerOfBatch (ss : List SnapshotWithTopologicalOrder) : Peer :=
  ⟨⟨fun _ _ => ([], none), fun _ _ => (ss, none), [], []⟩, sendOk⟩

/-- Snapshot of node 1 at round 8, `TopologicalOrder` 143. -/
def snapA8 : SnapshotWithTopologicalOrder := ⟨⟨1, 8, 0⟩, 143⟩

/-- Snapshot of node 1 at round 5, `TopologicalOrder` 144. -/
def snapA5 : SnapshotWithTopologicalOrder := ⟨⟨1, 5, 0⟩, 144⟩

/-- Snapshot of node 1 at round 20, `TopologicalOrder` 150. -/
def snapA20 : SnapshotWithTopologicalOrder := ⟨⟨1, 20, 0⟩, 150⟩

/-- Remote graph of the overflow example: node 1 at round `2^64 - 1`. -/
def graphAMax : RoundGraph := graphOf [⟨1, 18446744073709551615⟩]

/-- Snapshot of node 1 at round `2^64 - 1`, `TopologicalOrder` 143. -/
def snapAMax : SnapshotWithTopologicalOrder := ⟨⟨1, 18446744073709551615, 0⟩, 143⟩

/-- A ledger holding the log `log`: a since-read returns the first `limit` snapshots of
the log whose `TopologicalOrder` exceeds the offset. -/
def peerOfLog (log : List SnapshotWithTopologicalOrder) : Peer :=
  ⟨⟨fun _ _ => ([], none),
    fun offset limit => ((log.filter (fun s => decide (offset < s.TopologicalOrder))).take limit,
      none), [], []⟩, sendOk⟩

/-- The log of the streaming example: node 1 at round 8 (order 143), then node 1 at
round 5 (order 144). -/
def exampleLog : List SnapshotWithTopologicalOrder := [snapA8, snapA5]

/-- Two evaluations of the streaming loop against `exampleLog`, no shutdown requested. -/
def exampleEnvs : List LoopEnv :=
  [⟨false, false, peerOfLog exampleLog⟩, ⟨false, false, peerOfLog exampleLog⟩]

/-- Ledger of the overflow example of the top-up: node 1 has a snapshot at round
`2^64 - 1`. -/
def maxRoundPeer : Peer :=
  ⟨handleOfRounds (fun n k =>
      if n = 1 ∧ k = 18446744073709551615 then ([snapAMax], none) else ([], none)), sendOk⟩

/-! ## Definitions for the wait for a sync point and the comparison of equal rounds -/

/-- The events of `getSyncPointOffset` for a sequence of pushes, each given with the
peer as it is when the push arrives. -/
def pushEvents (pushes : List (Peer × List SyncPoint)) : List SyncEvent :=
  pushes.map (fun p => SyncEvent.push p.1 p.2)

/-- The offset `compareRoundGraphAndGetTopologicalOffset` computes for a pushed graph
against the local graph `BuildGraph()` of that moment. -/
def pushOffset (p : Peer × List SyncPoint) : Nat :=
  (compareRoundGraphAndGetTopologicalOffset p.1 p.1.handle.BuildGraph p.2).1

/-- The most recent positive entry of a list of offsets, zero when there is none. -/
def lastPositive (offsets : List Nat) : Nat :=
  match offsets.reverse.find? (fun o => decide (0 < o)) with
  | some o => o
  | none => 0

/-- The remote graph holds for the local node `l` exactly the round of `l`. -/
def equalRound (remote : List SyncPoint) (l : SyncPoint) : Bool :=
  match graphOf remote l.NodeId with
  | some r => r.Number == l.Number
  | none => false

/-- Ledger and local graph of the scenario of the specification: local graph
{1:10, 2:5}, node 1 (A) has at round 9 a snapshot of `TopologicalOrder` 142. -/
def scenarioLocalPeer : Peer :=
  ⟨⟨fun n k => if n = 1 ∧ k = 9 then ([⟨⟨1, 9, 0⟩, 142⟩], none) else ([], none),
    fun _ _ => ([], none), [⟨1, 10⟩, ⟨2, 5⟩], [1, 2]⟩, sendOk⟩

/-- The ledger of the scenario with, in addition, a snapshot of node 2 (B) at round 7 of
`TopologicalOrder` 100. -/
def equalRoundPeer : Peer :=
  ⟨⟨fun n k =>
      if n = 1 ∧ k = 9 then ([⟨⟨1, 9, 0⟩, 142⟩], none)
      else if n = 2 ∧ k = 7 then ([⟨⟨2, 7, 0⟩, 100⟩], none)
      else ([], none),
    fun _ _ => ([], none), [⟨1, 10⟩, ⟨2, 5⟩], [1, 2]⟩, sendOk⟩

/-- Snapshot of node 1 at round 10, `TopologicalOrder` 146. -/
def snapA10 : SnapshotWithTopologicalOrder := ⟨⟨1, 10, 0⟩, 146⟩

/-- A peer whose ledger answers every since-read with the batch `ss` and whose sender
fails at its second call of a pass. -/
def peerFailingSecondSend (ss : List SnapshotWithTopologicalOrder) : Peer :=
  ⟨⟨fun _ _ => ([], none), fun _ _ => (ss, none), [], []⟩,
    fun hist _ => if hist.length = 1 then some "send failed" else none⟩

/-! ## Definitions for the progress of the streaming loop -/

/-- The accessor contract of `ReadSnapshotsSinceTopology` on a peer: every read returns,
without error, at most `limit` snapshots, strictly after the offset and in increasing
`TopologicalOrder`. -/
def accessorContract (me : Peer) : Prop :=
  ∀ offset limit,
    (me.handle.ReadSnapshotsSinceTopology offset limit).2 = none
    ∧ (me.handle.ReadSnapshotsSinceTopology offset limit).1.length ≤ limit
    ∧ strictlyAfter offset (me.handle.ReadSnapshotsSinceTopology offset limit).1

/-- The ledger of the peer reads from the finite log `log`: every snapshot a since-read
returns is a snapshot of the log. -/
def readsFromLog (log : List SnapshotWithTopologicalOrder) (me : Peer) : Prop :=
  ∀ offset limit, ∀ s ∈ (me.handle.ReadSnapshotsSinceTopology offset limit).1, s ∈ log

/-- The number of snapshots of the log that lie after an offset. -/
def remainingAfter (log : List SnapshotWithTopologicalOrder) (offset : Nat) : Nat :=
  log.countP (fun s => decide (offset < s.TopologicalOrder))

/-- The errors that end a pass whose read succeeds: `EOF`, `FUTURE` for some snapshot, or
the error of a failed send of one of the peers of the run. -/
def passError (envs : List LoopEnv) (graph : RoundGraph) (e : SyncError) : Prop :=
  e = SyncError.EOF
    ∨ (∃ s, e = futureError graph s)
    ∨ (∃ msg, e = SyncError.external msg
        ∧ ∃ en ∈ envs, ∃ hist x, en.me.SendSnapshotFinalizationMessage hist x = some msg)

/-- Three evaluations of the streaming loop against `exampleLog`, no shutdown requested. -/
def exampleEnvs3 : List LoopEnv :=
  [⟨false, false, peerOfLog exampleLog⟩, ⟨false, false, peerOfLog exampleLog⟩,
    ⟨false, false, peerOfLog exampleLog⟩]

/-! ## The per-peer loop `syncToNeighborLoop` -/

/-- The effects of `syncToNeighborLoop` that the theorems speak about: a snapshot handed
to `SendSnapshotFinalizationMessage`, the deferred `timer.Stop()` and the deferred
`close(p.stn)`. -/
inductive Effect where
  | send (s : Snapshot)
  | timerStop
  | closeStn
deriving DecidableEq, Repr

/-- The loop `for _, n := range nodes` of the top-up step (lines 136-138): the traces of
the calls of `syncHeadRoundToRemote` that returned, in order, and whether the loop ran to
its end (it does not when the call for a node does not return within `fuel`). -/
def toppingUpLoop (cfg : Config) (me : Peer) (local_ graph : RoundGraph) (fuel : Nat) :
    List Hash → List HeadTrace → List HeadTrace × Bool
  | [], done => (done, true)
  | n :: rest, done =>
    match syncHeadRoundToRemote cfg me local_ graph n fuel with
    | none => (done, false)
    | some tr => toppingUpLoop cfg me local_ graph fuel rest (done ++ [tr])

/-- The body of `if graph != nil` of `syncToNeighborLoop` (lines 130-138). -/
def toppingUp (cfg : Config) (me : Peer) (graph : RoundGraph) (fuel : Nat) :
    List HeadTrace × Bool :=
  let points := me.handle.BuildGraph
  let nodes := me.handle.ReadAllNodes
  let local_ := graphOf points
  toppingUpLoop cfg me local_ graph fuel nodes []

/-- What one iteration of the loop of `syncToNeighborLoop` observes: the shutdown flags
at the loop head, the events met by `getSyncPointOffset`, whether
`me.gossipRound.Get(p.IdForNetwork)` is present, the evaluations of the streaming loop
(the first one always happens when the cycle gets there) and the peer as it is during
the top-up. -/
structure Cycle where
  meClosing : Bool
  pClosing : Bool
  events : List SyncEvent
  gossip : Bool
  streamFirst : LoopEnv
  streamRest : List LoopEnv
  top : Peer

/-- The sends of the calls of `syncToNeighborSince`, as effects. -/
def streamEffects (calls : List PassResult) : List Effect :=
  (allSends calls).map (fun c => Effect.send c.snapshot.Snapshot)

/-- The sends of the calls of `syncHeadRoundToRemote`, as effects. -/
def topEffects (traces : List HeadTrace) : List Effect :=
  traces.flatMap (fun tr => tr.sent.map Effect.send)

/-- The body of the loop of `syncToNeighborLoop` (lines 113-139): its effects and whether
control returns to the loop head (it does not when `getSyncPointOffset`, the streaming
loop or the top-up does not return within the observations given). A nil `graph` map is
read as the empty map. -/
def syncCycle (cfg : Config) (fuel : Nat) (c : Cycle) : List Effect × Bool :=
  match getSyncPointOffset c.events with
  | none => ([], false)
  | some (graph, offset) =>
    if !c.gossip then ([], true)
    else
      let sr := streamingLoop cfg (graph.getD (fun _ => none))
        (c.streamFirst :: c.streamRest) offset []
      if !sr.finished then (streamEffects sr.calls, false)
      else
        match graph with
        | none => (streamEffects sr.calls, true)
        | some g =>
          let t := toppingUp cfg c.top g fuel
          (streamEffects sr.calls ++ topEffects t.1, t.2)

/-- What a run of `syncToNeighborLoop` has done: its effects in order and whether the
function has returned. -/
structure LoopRun where
  effects : List Effect
  exited : Bool
deriving DecidableEq, Repr

/-- Embedding of `syncToNeighborLoop`, one `Cycle` per evaluation of the loop condition;
the two deferred calls run, last deferred first, when the loop ends. -/
def syncToNeighborLoop (cfg : Config) (fuel : Nat) : List Cycle → List Effect → LoopRun
  | [], eff => ⟨eff, false⟩
  | c :: rest, eff =>
    if !c.meClosing && !c.pClosing then
      match syncCycle cfg fuel c with
      | (e, true) => syncToNeighborLoop cfg fuel rest (eff ++ e)
      | (e, false) => ⟨eff ++ e, false⟩
    else ⟨eff ++ [Effect.timerStop, Effect.closeStn], true⟩

/-- The peer with the errors of `ReadSnapshotsForNodeRound` removed: every read returns
the same snapshots and a nil error. -/
def withoutReadErrors (me : Peer) : Peer :=
  ⟨⟨fun n k => ((me.handle.ReadSnapshotsForNodeRound n k).1, none),
      me.handle.ReadSnapshotsSinceTopology, me.handle.BuildGraph, me.handle.ReadAllNodes⟩,
    me.SendSnapshotFinalizationMessage⟩

/-- What the top-up of one node does, in the words of the specification: nothing when
the remote round exceeds the local one, the window of rounds otherwise. -/
def topUpTrace (cfg : Config) (me : Peer) (local_ remote : RoundGraph) (nodeId : Hash) :
    HeadTrace :=
  if remoteRoundOf remote nodeId > remoteRoundOf local_ nodeId then ⟨[], []⟩
  else headRoundTrace me nodeId (remoteRoundOf local_ nodeId) (remoteRoundOf remote nodeId)
    cfg.SnapshotReferenceThreshold

/-- A cycle of the scenario with no shutdown requested: the peer pushes {1:7}, the timer
fires, a gossip session exists, the streaming loop reads `exampleLog` and the top-up reads
the ledger of the scenario. -/
def exampleCycle : Cycle :=
  ⟨false, false, [SyncEvent.push scenarioLocalPeer [⟨1, 7⟩], SyncEvent.timeout], true,
    ⟨false, false, peerOfLog exampleLog⟩, [], scenarioLocalPeer⟩

/-- A cycle that finds the local shutdown flag set at the loop head. -/
def closingCycle : Cycle :=
  ⟨true, false, [], true, ⟨true, false, peerOfLog exampleLog⟩, [], scenarioLocalPeer⟩

/-- A cycle in which the peer pushes {1:7} and the shutdown flag is then found set
inside `getSyncPointOffset`. -/
def closingInsideCycle : Cycle :=
  ⟨false, false, [SyncEvent.push scenarioLocalPeer [⟨1, 7⟩], SyncEvent.closing], true,
    ⟨true, false, peerOfLog exampleLog⟩, [], scenarioLocalPeer⟩

/-- A cycle in which the peer pushes {1:7}, the timer fires, and the local shutdown flag
is first found set at the condition of the streaming loop. -/
def flagAtStreamCycle : Cycle :=
  ⟨false, false, [SyncEvent.push scenarioLocalPeer [⟨1, 7⟩], SyncEvent.timeout], true,
    ⟨true, false, peerOfLog exampleLog⟩, [], scenarioLocalPeer⟩

/-- Ledger of the failed-read example: local graph {1:10}, member 1; the read of node 1
at round 9 returns a snapshot of `TopologicalOrder` 142 together with an error. -/
def errorWithSnapshotPeer : Peer :=
  ⟨⟨fun n k =>
      if n = 1 ∧ k = 9 then ([⟨⟨1, 9, 0⟩, 142⟩], some "read failed") else ([], none),
    fun _ _ => ([], none), [⟨1, 10⟩], [1]⟩, sendOk⟩

/-- Remote graph of the wrap example of the top-up: node 1 at round `2^64 - 6`. -/
def wrapGraph : RoundGraph := graphOf [⟨1, 18446744073709551610⟩]

/-- Ledger of the wrap example of the top-up: local graph {1: 2^64-6, 2: 5}, members 1
and 2; the read of node 1 at round `2^64 - 6` fails. -/
def wrapPeer : Peer :=
  ⟨⟨fun n k =>
      if n = 1 ∧ k = 18446744073709551610 then ([], some "read failed") else ([], none),
    fun _ _ => ([], none), [⟨1, 18446744073709551610⟩, ⟨2, 5⟩], [1, 2]⟩, sendOk⟩

end Mixin.Network

namespace Mixin.Polygon

/-!
# Polygon identifiers (domains/polygon/validation.go)

A Go `string` or `[]byte` is the list of its bytes, each a natural number below 256.
Functions of other packages are answered by the fields of `Externals`.
-/

/-- The bytes of an ASCII literal. -/
def bytesOf (s : String) : List Nat := s.toList.map Char.toNat

/-- The functions of other packages the validator calls. `NewHash` is `crypto.NewHash`,
`md5Sum` the MD5 digest of the bytes written (16 bytes), `uuidString` the call
`uuid.FromBytesOrNil(sum).String()`, `keccak256` the legacy Keccak-256 digest (32 bytes);
`toLowerUnicode`, `trimFuncSpace` and `trimRightFuncSpace` are the paths of
`strings.ToLower` and `strings.TrimSpace` for strings holding a non-ASCII byte. -/
structure Externals where
  NewHash : List Nat → Mixin.Network.Hash
  md5Sum : List Nat → List Nat
  md5Sum_length : ∀ x, (md5Sum x).length = 16
  uuidString : List Nat → List Nat
  keccak256 : List Nat → List Nat
  keccak256_length : ∀ x, (keccak256 x).length = 32
  toLowerUnicode : List Nat → List Nat
  trimFuncSpace : List Nat → List Nat
  trimRightFuncSpace : List Nat → List Nat

/-- A panic of the Go runtime or of the code: `panic(v)` with a string, an index out of
range, or slice bounds out of range. -/
inductive Panic where
  | value (v : List Nat)
  | indexOutOfRange
  | sliceOutOfRange
deriving DecidableEq, Repr

/-- The errors of `encoding/hex`: `InvalidByteError(b)` and `ErrLength`. -/
inductive HexError where
  | invalidByte (b : Nat)
  | errLength
deriving DecidableEq, Repr

/-- The errors the validators build with `fmt.Errorf`: the plain message and the one
that carries the error of `hex.DecodeString`. -/
inductive VerifyError where
  | invalid
  | invalidHex (e : HexError)
deriving DecidableEq, Repr

/-- The value of a hexadecimal digit, `none` for any other byte: `fromHexChar` of
`encoding/hex`. -/
def fromHexChar (c : Nat) : Option Nat :=
  if 48 ≤ c ∧ c ≤ 57 then some (c - 48)
  else if 97 ≤ c ∧ c ≤ 102 then some (c - 97 + 10)
  else if 65 ≤ c ∧ c ≤ 70 then some (c - 65 + 10)
  else none

/-- The function `hex.DecodeString`: the bytes decoded so far and the error. -/
def hexDecodeString : List Nat → List Nat × Option HexError
  | [] => ([], none)
  | [p] =>
    match fromHexChar p with
    | none => ([], some (HexError.invalidByte p))
    | some _ => ([], some HexError.errLength)
  | p :: q :: rest =>
    match fromHexChar p with
    | none => ([], some (HexError.invalidByte p))
    | some a =>
      match fromHexChar q with
      | none => ([], some (HexError.invalidByte q))
      | some b => ((a * 16 + b) :: (hexDecodeString rest).1, (hexDecodeString rest).2)

/-- The table `hextable` of `encoding/hex`. -/
def hextable : List Nat := bytesOf "0123456789abcdef"

/-- The function `hex.Encode`: two lower-case digits per byte. -/
def hexEncode : List Nat → List Nat
  | [] => []
  | v :: rest => hextable.getD (v / 16) 0 :: hextable.getD (v % 16) 0 :: hexEncode rest

/-- The function `strings.HasPrefix`. -/
def HasPrefix (s p : List Nat) : Bool := decide (s.take p.length = p)

/-- The ASCII mapping of `strings.ToLower` on one byte. -/
def lowerByte (c : Nat) : Nat := if 65 ≤ c ∧ c ≤ 90 then c + 32 else c

/-- The function `strings.ToLower`: the ASCII path in full, the other path from
`Externals`. -/
def ToLower (x : Externals) (s : List Nat) : List Nat :=
  if s.all (fun c => decide (c < 128)) then
    if s.any (fun c => decide (65 ≤ c ∧ c ≤ 90)) then s.map lowerByte else s
  else x.toLowerUnicode s

/-- The table `asciiSpace` of package `strings`: tab, line feed, vertical tab, form
feed, carriage return and space. -/
def asciiSpace (c : Nat) : Bool :=
  decide (c = 9 ∨ c = 10 ∨ c = 11 ∨ c = 12 ∨ c = 13 ∨ c = 32)

/-- The second loop of `strings.TrimSpace`, on the reversed string. -/
def trimSpaceRight (x : Externals) : List Nat → List Nat
  | [] => []
  | c :: rest =>
    if c ≥ 128 then x.trimRightFuncSpace (c :: rest).reverse
    else if asciiSpace c then trimSpaceRight x rest
    else (c :: rest).reverse

/-- The function `strings.TrimSpace`: the ASCII path in full, the other paths from
`Externals`. -/
def TrimSpace (x : Externals) : List Nat → List Nat
  | [] => []
  | c :: rest =>
    if c ≥ 128 then x.trimFuncSpace (c :: rest)
    else if asciiSpace c then TrimSpace x rest
    else trimSpaceRight x (c :: rest).reverse

/-- The constant `PolygonChainBase`. -/
def PolygonChainBase : List Nat := bytesOf "b7938396-3f94-4e0a-9179-d3440718156f"

/-- The variable `PolygonChainId` as `init` sets it. -/
def PolygonChainId (x : Externals) : Mixin.Network.Hash := x.NewHash PolygonChainBase

/-- The asset key of the native asset, compared with at line 98. -/
def nativeAssetKey : List Nat := bytesOf "0x0000000000000000000000000000000000001010"

/-- Embedding of `VerifyAssetKey`; `none` is the `nil` error. -/
def VerifyAssetKey (x : Externals) (assetKey : List Nat) : Option VerifyError :=
  if assetKey.length ≠ 42 then some VerifyError.invalid
  else if !HasPrefix assetKey (bytesOf "0x") then some VerifyError.invalid
  else if assetKey ≠ ToLower x assetKey then some VerifyError.invalid
  else
    match hexDecodeString (assetKey.drop 2) with
    | (_, some e) => some (VerifyError.invalidHex e)
    | (k, none) => if k.length ≠ 20 then some VerifyError.invalid else none

/-- Embedding of `GenerateAssetId`: the hash returned, or the panic that halts it. -/
def GenerateAssetId (x : Externals) (assetKey : List Nat) : Except Panic Mixin.Network.Hash :=
  match VerifyAssetKey x assetKey with
  | some _ => Except.error (Panic.value assetKey)
  | none =>
    if assetKey = nativeAssetKey then Except.ok (PolygonChainId x)
    else
      let sum := x.md5Sum (PolygonChainBase ++ assetKey)
      match sum[6]? with
      | none => Except.error Panic.indexOutOfRange
      | some b6 =>
        let sum1 := sum.set 6 ((b6 &&& 0x0f) ||| 0x30)
        match sum1[8]? with
        | none => Except.error Panic.indexOutOfRange
        | some b8 =>
          let sum2 := sum1.set 8 ((b8 &&& 0x3f) ||| 0x80)
          let id := x.uuidString sum2
          Except.ok (x.NewHash id)

/-- The constant `AddressLength`. -/
def AddressLength : Nat := 20

/-- Embedding of `Address.hex`: "0x" and the lower-case digits of the address. -/
def addressHex (a : List Nat) : List Nat := bytesOf "0x" ++ hexEncode a

/-- The loop of `Address.checksumHex` from index `i` on, over the bytes of `buf` from
that index: a letter whose nibble of the digest exceeds 7 is made upper case. The
digest has 32 bytes and `i` stays below 42, so the index `(i-2)/2` is in range. -/
def checksumLoop (hash : List Nat) : Nat → List Nat → List Nat
  | _, [] => []
  | i, c :: rest =>
    let hashByte := hash.getD ((i - 2) / 2) 0
    let nibble := if i % 2 = 0 then hashByte / 16 else hashByte % 16
    (if c > 57 ∧ nibble > 7 then c - 32 else c) :: checksumLoop hash (i + 1) rest

/-- Embedding of `Address.checksumHex`. -/
def checksumHex (x : Externals) (a : List Nat) : List Nat :=
  let buf := addressHex a
  buf.take 2 ++ checksumLoop (x.keccak256 (buf.drop 2)) 2 (buf.drop 2)

/-- Embedding of `Address.Hex`. -/
def Hex (x : Externals) (a : List Nat) : List Nat := checksumHex x a

/-- The conversion `copy(bytesto[:], _bytesto)` into a zeroed `[20]byte`. -/
def copyToAddress (b : List Nat) : List Nat :=
  (b ++ List.replicate AddressLength 0).take AddressLength

/-- Embedding of `formatAddress`; the slice `to[2:]` panics on a string shorter than
two bytes. -/
def formatAddress (x : Externals) (to_ : List Nat) :
    Except Panic (List Nat × Option HexError) :=
  if to_.length < 2 then Except.error Panic.sliceOutOfRange
  else
    match hexDecodeString (to_.drop 2) with
    | (_, some e) => Except.ok ([], some e)
    | (b, none) => Except.ok (Hex x (copyToAddress b), none)

/-- Embedding of `VerifyAddress`; `Except.ok none` is the `nil` error. -/
def VerifyAddress (x : Externals) (address : List Nat) : Except Panic (Option VerifyError) :=
  if TrimSpace x address ≠ address then Except.ok (some VerifyError.invalid)
  else if address.length ≠ 42 then Except.ok (some VerifyError.invalid)
  else if !HasPrefix address (bytesOf "0x") then Except.ok (some VerifyError.invalid)
  else
    match formatAddress x address with
    | Except.error p => Except.error p
    | Except.ok (_, some _) => Except.ok (some VerifyError.invalid)
    | Except.ok (form, none) =>
      if form ≠ address then Except.ok (some VerifyError.invalid)
      else
        match hexDecodeString (address.drop 2) with
        | (_, some e) => Except.ok (some (VerifyError.invalidHex e))
        | (a, none) =>
          if a.length ≠ 20 then Except.ok (some VerifyError.invalid) else Except.ok none

/-! ## The statements about the validator, as definitions -/

/-- A lower-case hexadecimal digit: `0`-`9` or `a`-`f`. -/
def isLowerHex (c : Nat) : Prop := (48 ≤ c ∧ c ≤ 57) ∨ (97 ≤ c ∧ c ≤ 102)

/-- An upper-case hexadecimal digit: `A`-`F`. -/
def isUpperHex (c : Nat) : Prop := 65 ≤ c ∧ c ≤ 70

/-- A hexadecimal digit of either case. -/
def isHex (c : Nat) : Prop := isLowerHex c ∨ isUpperHex c

/-- The form of an accepted asset key: 42 bytes, "0x", then 40 lower-case digits. -/
def lowerHexKey (k : List Nat) : Prop :=
  k.length = 42 ∧ k.take 2 = bytesOf "0x" ∧ ∀ c ∈ k.drop 2, isLowerHex c

/-- Externals used to evaluate the code: constant digests of the right length and
identity for the paths of the string functions that are not modelled. -/
def sampleExternals : Externals :=
  ⟨fun b => b.length, fun _ => List.replicate 16 0, fun _ => rfl, fun b => b,
    fun _ => List.replicate 32 255, fun _ => rfl, fun s => s, fun s => s, fun s => s⟩

end Mixin.Polygon

/-! ## Theorems -/

namespace Mixin.Network

theorem compareLoop_append (me : Peer) (remote after : List SyncPoint) :
    ∀ (local_ : List SyncPoint) (offset : Nat), lookupsSucceed me local_ remote →
      compareLoop me (graphOf remote) (local_ ++ after) offset
        = compareLoop me (graphOf remote) after
            ((candidates me local_ remote).foldl pickOffset offset) := by
  intro local_
  induction local_ with
  | nil => intro offset _; rfl
  | cons l rest ih =>
    intro offset h
    have hrest : lookupsSucceed me rest remote := fun x hx => h x (List.mem_cons_of_mem _ hx)
    have hl := h l (List.mem_cons_self _ _)
    rw [List.cons_append]
    conv_lhs => rw [compareLoop]
    cases hr : graphOf remote l.NodeId with
    | none =>
      simp only [candidates, List.filterMap_cons, candidateOf, hr]
      exact ih offset hrest
    | some r =>
      by_cases hgt : r.Number > l.Number
      · have hle : ¬ r.Number ≤ l.Number := by omega
        simp only [candidates, List.filterMap_cons, candidateOf, hr, hgt, hle, if_true, if_false]
        exact ih offset hrest
      · have hle : r.Number ≤ l.Number := by omega
        have herr := hl r hr hle
        simp only [candidates, List.filterMap_cons, candidateOf, hr, hgt, hle, if_true, if_false,
          cacheReadSnapshotsForNodeRound]
        rcases hread : me.handle.ReadSnapshotsForNodeRound l.NodeId ((r.Number + 2) % u64)
          with ⟨ss, e⟩
        rw [hread] at herr
        simp only at herr
        subst herr
        cases ss with
        | nil =>
          simp only [List.head?_nil, Option.map_none']
          exact ih offset hrest
        | cons s tl =>
          simp only [List.head?_cons, Option.map_some', List.foldl_cons]
          by_cases hp : offset = 0 ∨ s.TopologicalOrder < offset
          · simp only [pickOffset, hp, if_true]
            exact ih _ hrest
          · simp only [pickOffset, hp, if_false]
            exact ih _ hrest

theorem compareLoop_eq_foldl (me : Peer) (remote : List SyncPoint)
    (local_ : List SyncPoint) (offset : Nat) (h : lookupsSucceed me local_ remote) :
    compareLoop me (graphOf remote) local_ offset
      = ((candidates me local_ remote).foldl pickOffset offset, none) := by
  have := compareLoop_append me remote [] local_ offset h
  rw [List.append_nil] at this
  rw [this]
  rfl

theorem foldl_pickOffset_pos :
    ∀ (cs : List Nat) (o : Nat), 0 < o → (∀ c ∈ cs, 0 < c) →
      cs.foldl pickOffset o = cs.foldl min o := by
  intro cs
  induction cs with
  | nil => intro o _ _; rfl
  | cons c tl ih =>
    intro o ho h
    have hc : 0 < c := h c (List.mem_cons_self _ _)
    have htl : ∀ x ∈ tl, 0 < x := fun x hx => h x (List.mem_cons_of_mem _ hx)
    simp only [List.foldl_cons]
    have hstep : pickOffset o c = min o c := by
      unfold pickOffset
      by_cases hlt : c < o
      · rw [if_pos (Or.inr hlt)]; omega
      · rw [if_neg (by omega)]; omega
    rw [hstep]
    exact ih (min o c) (by omega) htl

theorem foldl_min_le :
    ∀ (cs : List Nat) (o : Nat), cs.foldl min o ≤ o ∧ ∀ c ∈ cs, cs.foldl min o ≤ c := by
  intro cs
  induction cs with
  | nil => intro o; exact ⟨Nat.le_refl _, fun c hc => absurd hc (List.not_mem_nil c)⟩
  | cons c tl ih =>
    intro o
    simp only [List.foldl_cons]
    obtain ⟨h1, h2⟩ := ih (min o c)
    refine ⟨by omega, ?_⟩
    intro x hx
    rcases List.mem_cons.1 hx with rfl | hx
    · omega
    · exact h2 x hx

theorem foldl_pickOffset_zero (cs : List Nat) (h : ∀ c ∈ cs, 0 < c) :
    cs.foldl pickOffset 0 = minimumOrZero cs := by
  cases cs with
  | nil => rfl
  | cons c tl =>
    have hc : 0 < c := h c (List.mem_cons_self _ _)
    have htl : ∀ x ∈ tl, 0 < x := fun x hx => h x (List.mem_cons_of_mem _ hx)
    simp only [List.foldl_cons, minimumOrZero]
    have : pickOffset 0 c = c := by simp [pickOffset]
    rw [this]
    exact foldl_pickOffset_pos tl c hc htl

theorem minimumOrZero_le (cs : List Nat) : ∀ c ∈ cs, minimumOrZero cs ≤ c := by
  cases cs with
  | nil => intro c hc; exact absurd hc (List.not_mem_nil c)
  | cons a tl =>
    intro c hc
    obtain ⟨h1, h2⟩ := foldl_min_le tl a
    rcases List.mem_cons.1 hc with rfl | hc
    · exact h1
    · exact h2 c hc

/-- Claim C1, as the code has it: when every ledger lookup of the comparison succeeds
and every candidate `TopologicalOrder` is positive, `compareRoundGraphAndGetTopologicalOffset`
returns, without error, the minimum of the candidates of the local nodes (zero when no
node yields one), and so a value at most the candidate of every qualifying node. -/
theorem compare_returns_minimum_candidate (me : Peer) (local_ remote : List SyncPoint)
    (hok : lookupsSucceed me local_ remote)
    (hpos : ∀ c ∈ candidates me local_ remote, 0 < c) :
    compareRoundGraphAndGetTopologicalOffset me local_ remote
        = (minimumOrZero (candidates me local_ remote), none)
      ∧ (candidates me local_ remote = [] →
          (compareRoundGraphAndGetTopologicalOffset me local_ remote).1 = 0)
      ∧ ∀ c ∈ candidates me local_ remote,
          (compareRoundGraphAndGetTopologicalOffset me local_ remote).1 ≤ c := by
  have h : compareRoundGraphAndGetTopologicalOffset me local_ remote
      = (minimumOrZero (candidates me local_ remote), none) := by
    unfold compareRoundGraphAndGetTopologicalOffset
    rw [compareLoop_eq_foldl me remote local_ 0 hok, foldl_pickOffset_zero _ hpos]
  refine ⟨h, ?_, ?_⟩
  · intro hnil
    rw [h, hnil]
    rfl
  · intro c hc
    rw [h]
    exact minimumOrZero_le _ c hc

/-- Claim C1 fails as stated: with local graph {1:10, 2:10}, remote graph {1:7, 2:7},
every lookup succeeding, the first snapshot of node 1 at round 9 of `TopologicalOrder` 0
and that of node 2 at round 9 of `TopologicalOrder` 5, the candidates are 0 and 5 but the
code returns 5, which is neither their minimum nor at most the candidate of node 1. -/
theorem compare_zero_order_not_minimum :
    lookupsSucceed zeroOrderPeer [⟨1, 10⟩, ⟨2, 10⟩] [⟨1, 7⟩, ⟨2, 7⟩]
      ∧ candidates zeroOrderPeer [⟨1, 10⟩, ⟨2, 10⟩] [⟨1, 7⟩, ⟨2, 7⟩] = [0, 5]
      ∧ compareRoundGraphAndGetTopologicalOffset zeroOrderPeer [⟨1, 10⟩, ⟨2, 10⟩] [⟨1, 7⟩, ⟨2, 7⟩]
          = (5, none)
      ∧ minimumOrZero [0, 5] = 0
      ∧ ¬ (compareRoundGraphAndGetTopologicalOffset zeroOrderPeer
            [⟨1, 10⟩, ⟨2, 10⟩] [⟨1, 7⟩, ⟨2, 7⟩]).1 ≤ 0 := by
  refine ⟨?_, by decide, by decide, by decide, by decide⟩
  intro l _ r _ _
  simp only [zeroOrderPeer, handleOfRounds]
  split_ifs <;> rfl

theorem compare_returns_minimum_candidate_witness :
    lookupsSucceed scenarioPeer [⟨1, 10⟩, ⟨2, 5⟩] [⟨1, 7⟩, ⟨2, 5⟩]
      ∧ (∀ c ∈ candidates scenarioPeer [⟨1, 10⟩, ⟨2, 5⟩] [⟨1, 7⟩, ⟨2, 5⟩], 0 < c)
      ∧ compareRoundGraphAndGetTopologicalOffset scenarioPeer [⟨1, 10⟩, ⟨2, 5⟩] [⟨1, 7⟩, ⟨2, 5⟩]
          = (142, none) := by
  have hok : lookupsSucceed scenarioPeer [⟨1, 10⟩, ⟨2, 5⟩] [⟨1, 7⟩, ⟨2, 5⟩] := by
    intro l _ r _ _
    simp only [scenarioPeer, handleOfRounds]
    split_ifs <;> rfl
  have hpos : ∀ c ∈ candidates scenarioPeer [⟨1, 10⟩, ⟨2, 5⟩] [⟨1, 7⟩, ⟨2, 5⟩], 0 < c := by
    decide
  exact ⟨hok, hpos,
    (compare_returns_minimum_candidate scenarioPeer [⟨1, 10⟩, ⟨2, 5⟩] [⟨1, 7⟩, ⟨2, 5⟩]
      hok hpos).1.trans (by decide)⟩

theorem compareLoop_fails_at (me : Peer) (rf : RoundGraph) (l r : SyncPoint)
    (post : List SyncPoint) (offset : Nat) (err : String)
    (hr : rf l.NodeId = some r) (hle : r.Number ≤ l.Number)
    (hfail : (me.handle.ReadSnapshotsForNodeRound l.NodeId ((r.Number + 2) % u64)).2 = some err) :
    compareLoop me rf (l :: post) offset = (offset, some err) := by
  rw [compareLoop]
  have hgt : ¬ r.Number > l.Number := by omega
  simp only [hr, hgt, if_false, cacheReadSnapshotsForNodeRound]
  rcases hread : me.handle.ReadSnapshotsForNodeRound l.NodeId ((r.Number + 2) % u64)
    with ⟨ss, e⟩
  rw [hread] at hfail
  simp only at hfail
  subst hfail
  cases ss <;> rfl

/-- Claim C2, as the code has it: when the lookup for a local node fails, after the
lookups for the nodes before it succeeded, `compareRoundGraphAndGetTopologicalOffset`
stops at that node and returns the error together with the offset accumulated from the
nodes before it (the result of the comparison on those nodes alone, whatever follows the
failing node); `getSyncPointOffset` then takes that offset over when it is positive and
keeps its previous offset otherwise; in particular when none of the earlier nodes yields
a candidate the returned offset is 0 and the held offset is unchanged. -/
theorem compare_failure_returns_accumulated_offset (me : Peer)
    (pre post remote : List SyncPoint) (l r : SyncPoint) (err : String)
    (st : Option RoundGraph × Nat)
    (hpre : lookupsSucceed me pre remote)
    (hr : graphOf remote l.NodeId = some r) (hle : r.Number ≤ l.Number)
    (hfail : (me.handle.ReadSnapshotsForNodeRound l.NodeId ((r.Number + 2) % u64)).2 = some err)
    (hlocal : me.handle.BuildGraph = pre ++ l :: post) :
    compareRoundGraphAndGetTopologicalOffset me (pre ++ l :: post) remote
        = ((compareRoundGraphAndGetTopologicalOffset me pre remote).1, some err)
      ∧ (getSyncPointOffsetPush me remote st).2
          = (if 0 < (compareRoundGraphAndGetTopologicalOffset me pre remote).1
              then (compareRoundGraphAndGetTopologicalOffset me pre remote).1 else st.2)
      ∧ (candidates me pre remote = [] →
          compareRoundGraphAndGetTopologicalOffset me (pre ++ l :: post) remote = (0, some err)
            ∧ (getSyncPointOffsetPush me remote st).2 = st.2) := by
  have hacc : (compareRoundGraphAndGetTopologicalOffset me pre remote).1
      = (candidates me pre remote).foldl pickOffset 0 := by
    unfold compareRoundGraphAndGetTopologicalOffset
    rw [compareLoop_eq_foldl me remote pre 0 hpre]
  have hall : compareRoundGraphAndGetTopologicalOffset me (pre ++ l :: post) remote
      = ((compareRoundGraphAndGetTopologicalOffset me pre remote).1, some err) := by
    rw [hacc]
    unfold compareRoundGraphAndGetTopologicalOffset
    rw [compareLoop_append me remote (l :: post) pre 0 hpre]
    exact compareLoop_fails_at me (graphOf remote) l r post _ err hr hle hfail
  have hpush : (getSyncPointOffsetPush me remote st).2
      = (if 0 < (compareRoundGraphAndGetTopologicalOffset me pre remote).1
          then (compareRoundGraphAndGetTopologicalOffset me pre remote).1 else st.2) := by
    unfold getSyncPointOffsetPush
    simp only [hlocal, hall, gt_iff_lt]
  refine ⟨hall, hpush, ?_⟩
  intro hnil
  have hzero : (compareRoundGraphAndGetTopologicalOffset me pre remote).1 = 0 := by
    rw [hacc, hnil]
    rfl
  refine ⟨?_, ?_⟩
  · rw [hall, hzero]
  · rw [hpush, hzero]
    simp

theorem compare_failure_returns_accumulated_offset_witness :
    lookupsSucceed failingPeer [⟨1, 10⟩] [⟨1, 7⟩, ⟨2, 7⟩]
      ∧ graphOf [⟨1, 7⟩, ⟨2, 7⟩] 2 = some ⟨2, 7⟩
      ∧ (failingPeer.handle.ReadSnapshotsForNodeRound 2 ((7 + 2) % u64)).2 = some "lookup failed"
      ∧ compareRoundGraphAndGetTopologicalOffset failingPeer ([⟨1, 10⟩] ++ ⟨2, 10⟩ :: [])
          [⟨1, 7⟩, ⟨2, 7⟩]
          = ((compareRoundGraphAndGetTopologicalOffset failingPeer [⟨1, 10⟩]
              [⟨1, 7⟩, ⟨2, 7⟩]).1, some "lookup failed") := by
  have hok : lookupsSucceed failingPeer [⟨1, 10⟩] [⟨1, 7⟩, ⟨2, 7⟩] := by
    intro l hl r hr _
    rcases List.mem_singleton.1 hl with rfl
    have : r = ⟨1, 7⟩ := by
      have h2 : graphOf [⟨1, 7⟩, ⟨2, 7⟩] 1 = some ⟨1, 7⟩ := by decide
      exact (Option.some.inj (hr.symm.trans h2))
    subst this
    decide
  exact ⟨hok, by decide, by decide,
    (compare_failure_returns_accumulated_offset failingPeer [⟨1, 10⟩] [] [⟨1, 7⟩, ⟨2, 7⟩]
      ⟨2, 10⟩ ⟨2, 7⟩ "lookup failed" (none, 77) hok (by decide) (by decide) (by decide) rfl).1⟩

/-- Claim C2 fails as stated: with local graph {1:10, 2:10}, remote graph {1:7, 2:7},
node 1 having at round 9 a snapshot of `TopologicalOrder` 142 and the lookup of node 2 at
round 9 failing, the comparison returns the error together with the offset 142 recorded
from node 1, not 0, and `getSyncPointOffset`, which held offset 0 before that push,
returns 142 after it. -/
theorem compare_failure_offset_applied :
    compareRoundGraphAndGetTopologicalOffset failingPeer [⟨1, 10⟩, ⟨2, 10⟩] [⟨1, 7⟩, ⟨2, 7⟩]
        = (142, some "lookup failed")
      ∧ (getSyncPointOffset [SyncEvent.timeout]).map Prod.snd = some 0
      ∧ (getSyncPointOffset [SyncEvent.push failingPeer [⟨1, 7⟩, ⟨2, 7⟩],
            SyncEvent.timeout]).map Prod.snd = some 142 := by
  refine ⟨by decide, by decide, by decide⟩

/-! ### The loop of `syncToNeighborSince` -/

theorem sinceLoop_cons_cases (cfg : Config) (me : Peer) (graph : RoundGraph)
    (s : SnapshotWithTopologicalOrder) (rest : List SnapshotWithTopologicalOrder)
    (st : PassState) :
    (isStale graph s ∧ sinceLoop cfg me graph (s :: rest) st
        = sinceLoop cfg me graph rest ⟨s.TopologicalOrder, st.sends, st.considered ++ [s]⟩)
    ∨ (¬ isStale graph s ∧ isFuture cfg graph s ∧ sinceLoop cfg me graph (s :: rest) st
        = (⟨st.offset, st.sends, st.considered ++ [s]⟩, some (futureError graph s)))
    ∨ (¬ isStale graph s ∧ ¬ isFuture cfg graph s
        ∧ ∃ err, me.SendSnapshotFinalizationMessage (sentSnapshots st.sends) s.Snapshot = some err
        ∧ sinceLoop cfg me graph (s :: rest) st
          = (⟨st.offset, st.sends ++ [⟨s, st.offset⟩], st.considered ++ [s]⟩,
              some (SyncError.external err)))
    ∨ (¬ isStale graph s ∧ ¬ isFuture cfg graph s
        ∧ me.SendSnapshotFinalizationMessage (sentSnapshots st.sends) s.Snapshot = none
        ∧ sinceLoop cfg me graph (s :: rest) st
          = sinceLoop cfg me graph rest
              ⟨s.TopologicalOrder, st.sends ++ [⟨s, st.offset⟩], st.considered ++ [s]⟩) := by
  rw [sinceLoop]
  by_cases h1 : isStale graph s
  · left
    refine ⟨h1, ?_⟩
    have h1' := h1
    unfold isStale at h1'
    simp only [h1', if_true]
  · right
    have h1' := h1
    unfold isStale at h1'
    by_cases h2 : isFuture cfg graph s
    · left
      have h2' := h2
      unfold isFuture at h2'
      refine ⟨h1, h2, ?_⟩
      simp only [h1', h2', if_true, if_false, futureError]
    · right
      have h2' := h2
      unfold isFuture at h2'
      cases hs : me.SendSnapshotFinalizationMessage (sentSnapshots st.sends) s.Snapshot with
      | some err =>
        left
        refine ⟨h1, h2, err, rfl, ?_⟩
        simp only [h1', h2', if_false, hs]
      | none =>
        right
        refine ⟨h1, h2, rfl, ?_⟩
        simp only [h1', h2', if_false, hs]

theorem lastOrderOr_cons (offset : Nat) (s : SnapshotWithTopologicalOrder)
    (rest : List SnapshotWithTopologicalOrder) :
    lastOrderOr offset (s :: rest) = lastOrderOr s.TopologicalOrder rest := by
  cases rest with
  | nil => simp [lastOrderOr]
  | cons a tl =>
    cases h : (a :: tl).getLast? with
    | none => simp at h
    | some x => simp [lastOrderOr, List.getLast?_cons_cons, h]

theorem strictlyAfter_tail (offset : Nat) (s : SnapshotWithTopologicalOrder)
    (rest : List SnapshotWithTopologicalOrder) (h : strictlyAfter offset (s :: rest)) :
    offset < s.TopologicalOrder ∧ strictlyAfter s.TopologicalOrder rest := by
  obtain ⟨h1, h2⟩ := h
  rw [List.pairwise_cons] at h2
  exact ⟨h1 s (List.mem_cons_self _ _), h2.1, h2.2⟩

/-- What the loop of `syncToNeighborSince` does on a batch, started in state `st`:
it enters the body for a prefix `pre` of the batch and adds the calls `new` of the
sender, which pick out a subsequence of `pre` made of snapshots that are neither stale
nor beyond the bound; when it runs to the end the prefix is the whole batch and the
offset is the order of its last snapshot. Under the contract of the ledger the offset
does not decrease, stays at or below the order of the last snapshot entered, and every
call of the sender is made with an offset below the order of the snapshot it passes. -/
theorem sinceLoop_trace (cfg : Config) (me : Peer) (graph : RoundGraph) :
    ∀ (ss : List SnapshotWithTopologicalOrder) (st : PassState),
      ∃ (pre : List SnapshotWithTopologicalOrder) (new : List SendCall),
        pre <+: ss
        ∧ (sinceLoop cfg me graph ss st).1.considered = st.considered ++ pre
        ∧ (sinceLoop cfg me graph ss st).1.sends = st.sends ++ new
        ∧ (new.map (fun c => c.snapshot)).Sublist pre
        ∧ (∀ c ∈ new, ¬ isStale graph c.snapshot ∧ ¬ isFuture cfg graph c.snapshot)
        ∧ ((sinceLoop cfg me graph ss st).2 = none →
            pre = ss ∧ (sinceLoop cfg me graph ss st).1.offset = lastOrderOr st.offset ss)
        ∧ (pre = [] → (sinceLoop cfg me graph ss st).1.offset = st.offset)
        ∧ (strictlyAfter st.offset ss →
            st.offset ≤ (sinceLoop cfg me graph ss st).1.offset
            ∧ (∀ x, pre.getLast? = some x →
                (sinceLoop cfg me graph ss st).1.offset ≤ x.TopologicalOrder)
            ∧ (∀ c ∈ new, st.offset ≤ c.offset ∧ c.offset < c.snapshot.TopologicalOrder)
            ∧ ((sinceLoop cfg me graph ss st).2 = none →
                ∀ c ∈ new, c.snapshot.TopologicalOrder
                  ≤ (sinceLoop cfg me graph ss st).1.offset)) := by
  intro ss
  induction ss with
  | nil =>
    intro st
    refine ⟨[], [], List.prefix_refl _, by simp [sinceLoop], by simp [sinceLoop],
      List.Sublist.refl _, by simp, ?_, ?_, ?_⟩
    · intro _; exact ⟨rfl, by simp [sinceLoop, lastOrderOr]⟩
    · intro _; simp [sinceLoop]
    · intro _
      refine ⟨by simp [sinceLoop], by simp, by simp, by simp⟩
  | cons s rest ih =>
    intro st
    rcases sinceLoop_cons_cases cfg me graph s rest st with
      ⟨_, heq⟩ | ⟨_, _, heq⟩ | ⟨hns, hnf, err, _, heq⟩ | ⟨hns, hnf, _, heq⟩
    · -- stale: skipped, offset advanced
      obtain ⟨pre, new, hp, hc, hs, hsub, hsend, hdone, hempty, hcond⟩ :=
        ih ⟨s.TopologicalOrder, st.sends, st.considered ++ [s]⟩
      rw [heq]
      refine ⟨s :: pre, new, List.cons_prefix_cons.2 ⟨rfl, hp⟩, ?_, hs,
        List.Sublist.cons _ hsub, hsend, ?_, ?_, ?_⟩
      · rw [hc]; simp
      · intro hn
        obtain ⟨h1, h2⟩ := hdone hn
        exact ⟨by rw [h1], by rw [h2, lastOrderOr_cons]⟩
      · intro hnil; exact absurd hnil (List.cons_ne_nil _ _)
      · intro hctr
        obtain ⟨hlt, htail⟩ := strictlyAfter_tail _ _ _ hctr
        obtain ⟨hmono, hlast, hcalls, hfin⟩ := hcond htail
        simp only at hmono hcalls
        refine ⟨by omega, ?_, ?_, hfin⟩
        · intro x hx
          cases pre with
          | nil =>
            simp only [List.getLast?_singleton, Option.some.injEq] at hx
            subst hx
            have := hempty rfl
            simp only at this
            omega
          | cons a tl =>
            rw [List.getLast?_cons_cons] at hx
            exact hlast x hx
        · intro c hcm
          have := hcalls c hcm
          exact ⟨by omega, this.2⟩
    · -- beyond the bound: FUTURE
      rw [heq]
      refine ⟨[s], [], List.cons_prefix_cons.2 ⟨rfl, List.nil_prefix⟩, rfl, by simp,
        List.nil_sublist _, by simp, ?_, ?_, ?_⟩
      · intro hn; simp at hn
      · intro hnil; exact absurd hnil (List.cons_ne_nil _ _)
      · intro hctr
        obtain ⟨hlt, _⟩ := strictlyAfter_tail _ _ _ hctr
        refine ⟨Nat.le_refl _, ?_, by simp, by simp⟩
        intro x hx
        simp only [List.getLast?_singleton, Option.some.injEq] at hx
        subst hx
        simp only
        omega
    · -- the send fails
      rw [heq]
      refine ⟨[s], [⟨s, st.offset⟩], List.cons_prefix_cons.2 ⟨rfl, List.nil_prefix⟩, rfl, rfl,
        by simp, ?_, ?_, ?_, ?_⟩
      · intro c hcm
        rcases List.mem_singleton.1 hcm with rfl
        exact ⟨hns, hnf⟩
      · intro hn; simp at hn
      · intro hnil; exact absurd hnil (List.cons_ne_nil _ _)
      · intro hctr
        obtain ⟨hlt, _⟩ := strictlyAfter_tail _ _ _ hctr
        refine ⟨Nat.le_refl _, ?_, ?_, by simp⟩
        · intro x hx
          simp only [List.getLast?_singleton, Option.some.injEq] at hx
          subst hx
          simp only
          omega
        · intro c hcm
          rcases List.mem_singleton.1 hcm with rfl
          exact ⟨Nat.le_refl _, hlt⟩
    · -- the send succeeds, offset advanced
      obtain ⟨pre, new, hp, hc, hs, hsub, hsend, hdone, hempty, hcond⟩ :=
        ih ⟨s.TopologicalOrder, st.sends ++ [⟨s, st.offset⟩], st.considered ++ [s]⟩
      rw [heq]
      refine ⟨s :: pre, ⟨s, st.offset⟩ :: new, List.cons_prefix_cons.2 ⟨rfl, hp⟩, ?_, ?_,
        ?_, ?_, ?_, ?_, ?_⟩
      · rw [hc]; simp
      · rw [hs]; simp
      · simpa using hsub
      · intro c hcm
        rcases List.mem_cons.1 hcm with rfl | hcm
        · exact ⟨hns, hnf⟩
        · exact hsend c hcm
      · intro hn
        obtain ⟨h1, h2⟩ := hdone hn
        exact ⟨by rw [h1], by rw [h2, lastOrderOr_cons]⟩
      · intro hnil; exact absurd hnil (List.cons_ne_nil _ _)
      · intro hctr
        obtain ⟨hlt, htail⟩ := strictlyAfter_tail _ _ _ hctr
        obtain ⟨hmono, hlast, hcalls, hfin⟩ := hcond htail
        simp only at hmono hcalls
        refine ⟨by omega, ?_, ?_, ?_⟩
        · intro x hx
          cases pre with
          | nil =>
            simp only [List.getLast?_singleton, Option.some.injEq] at hx
            subst hx
            have := hempty rfl
            simp only at this
            omega
          | cons a tl =>
            rw [List.getLast?_cons_cons] at hx
            exact hlast x hx
        · intro c hcm
          rcases List.mem_cons.1 hcm with rfl | hcm
          · exact ⟨Nat.le_refl _, hlt⟩
          · have := hcalls c hcm
            exact ⟨by omega, this.2⟩
        · intro hn c hcm
          rcases List.mem_cons.1 hcm with rfl | hcm
          · simpa using hmono
          · exact hfin hn c hcm

theorem sinceLoop_append (cfg : Config) (me : Peer) (graph : RoundGraph)
    (post : List SnapshotWithTopologicalOrder) :
    ∀ (pre : List SnapshotWithTopologicalOrder) (st : PassState),
      (sinceLoop cfg me graph pre st).2 = none →
        sinceLoop cfg me graph (pre ++ post) st
          = sinceLoop cfg me graph post (sinceLoop cfg me graph pre st).1 := by
  intro pre
  induction pre with
  | nil => intro st _; rfl
  | cons s rest ih =>
    intro st h
    rw [List.cons_append]
    rcases sinceLoop_cons_cases cfg me graph s rest st with
      ⟨_, heq⟩ | ⟨_, _, heq⟩ | ⟨_, _, err, _, heq⟩ | ⟨_, _, _, heq⟩
    · rcases sinceLoop_cons_cases cfg me graph s (rest ++ post) st with
        ⟨_, heq2⟩ | ⟨hn, _⟩ | ⟨hn, _⟩ | ⟨hn, _⟩
      · rw [heq] at h ⊢
        rw [heq2]
        exact ih _ h
      all_goals exact absurd (by assumption) hn
    · rw [heq] at h; simp at h
    · rw [heq] at h; simp at h
    · rename_i hns hnf hsend
      rcases sinceLoop_cons_cases cfg me graph s (rest ++ post) st with
        ⟨hst, _⟩ | ⟨_, hf, _⟩ | ⟨_, _, err, he, _⟩ | ⟨_, _, _, heq2⟩
      · exact absurd hst hns
      · exact absurd hf hnf
      · rw [hsend] at he; simp at he
      · rw [heq] at h ⊢
        rw [heq2]
        exact ih _ h

theorem since_of_fetch (cfg : Config) (me : Peer) (graph : RoundGraph) (offset : Nat)
    (ss : List SnapshotWithTopologicalOrder)
    (hfetch : cacheReadSnapshotsSinceTopology me offset syncLimit = (ss, none)) :
    (syncToNeighborSince cfg me graph offset).offset
        = (sinceLoop cfg me graph ss ⟨offset, [], []⟩).1.offset
      ∧ (syncToNeighborSince cfg me graph offset).sends
        = (sinceLoop cfg me graph ss ⟨offset, [], []⟩).1.sends
      ∧ (syncToNeighborSince cfg me graph offset).considered
        = (sinceLoop cfg me graph ss ⟨offset, [], []⟩).1.considered
      ∧ (syncToNeighborSince cfg me graph offset).err
        = (match (sinceLoop cfg me graph ss ⟨offset, [], []⟩).2 with
            | some e => some e
            | none => if ss.length < syncLimit then some SyncError.EOF else none) := by
  unfold syncToNeighborSince
  rw [hfetch]
  simp only
  rcases hloop : sinceLoop cfg me graph ss ⟨offset, [], []⟩ with ⟨st, e⟩
  cases e with
  | some e => simp
  | none =>
    by_cases hlen : ss.length < syncLimit
    · simp [hlen]
    · simp [hlen]

theorem since_of_fetch_error (cfg : Config) (me : Peer) (graph : RoundGraph) (offset : Nat)
    (ss : List SnapshotWithTopologicalOrder) (msg : String)
    (hfetch : cacheReadSnapshotsSinceTopology me offset syncLimit = (ss, some msg)) :
    syncToNeighborSince cfg me graph offset = ⟨offset, some (SyncError.external msg), [], []⟩ := by
  unfold syncToNeighborSince
  rw [hfetch]

theorem since_sends_sendable (cfg : Config) (me : Peer) (graph : RoundGraph) (offset : Nat) :
    ∀ c ∈ (syncToNeighborSince cfg me graph offset).sends,
      ¬ isStale graph c.snapshot ∧ ¬ isFuture cfg graph c.snapshot := by
  rcases hfetch : cacheReadSnapshotsSinceTopology me offset syncLimit with ⟨ss, e⟩
  cases e with
  | some msg =>
    rw [since_of_fetch_error cfg me graph offset ss msg hfetch]
    intro c hc
    exact absurd hc (List.not_mem_nil c)
  | none =>
    obtain ⟨_, hs, _, _⟩ := since_of_fetch cfg me graph offset ss hfetch
    obtain ⟨pre, new, _, _, hsends, _, hsendable, _⟩ :=
      sinceLoop_trace cfg me graph ss ⟨offset, [], []⟩
    rw [hs, hsends]
    intro c hc
    simp only [List.nil_append] at hc
    exact hsendable c hc

/-- Claim C3, as the code has it: in `syncToNeighborSince` no snapshot whose `RoundNumber`
is below the remote round of its node (0 for an unknown node) is ever passed to
`SendSnapshotFinalizationMessage`; and when the loop reaches such a snapshot `s` of the
fetched batch (no earlier snapshot having ended the pass), it makes no call of the sender
for it and sets `offset` to the `TopologicalOrder` of `s`, then goes on with the rest of
the batch (so the returned offset is that order when `s` is the last snapshot of the
batch). -/
theorem stale_snapshot_not_sent_offset_advanced (cfg : Config) (me : Peer)
    (graph : RoundGraph) (offset : Nat) (pre post : List SnapshotWithTopologicalOrder)
    (s : SnapshotWithTopologicalOrder)
    (hfetch : cacheReadSnapshotsSinceTopology me offset syncLimit = (pre ++ s :: post, none))
    (hstale : s.Snapshot.RoundNumber < remoteRoundOf graph s.Snapshot.NodeId)
    (hreach : (sinceLoop cfg me graph pre ⟨offset, [], []⟩).2 = none) :
    (∀ c ∈ (syncToNeighborSince cfg me graph offset).sends,
        ¬ c.snapshot.Snapshot.RoundNumber < remoteRoundOf graph c.snapshot.Snapshot.NodeId)
      ∧ sinceLoop cfg me graph (pre ++ [s]) ⟨offset, [], []⟩
          = (⟨s.TopologicalOrder, (sinceLoop cfg me graph pre ⟨offset, [], []⟩).1.sends,
              (sinceLoop cfg me graph pre ⟨offset, [], []⟩).1.considered ++ [s]⟩, none)
      ∧ sinceLoop cfg me graph (pre ++ s :: post) ⟨offset, [], []⟩
          = sinceLoop cfg me graph post
              ⟨s.TopologicalOrder, (sinceLoop cfg me graph pre ⟨offset, [], []⟩).1.sends,
                (sinceLoop cfg me graph pre ⟨offset, [], []⟩).1.considered ++ [s]⟩
      ∧ (post = [] → (syncToNeighborSince cfg me graph offset).offset = s.TopologicalOrder
          ∧ (syncToNeighborSince cfg me graph offset).sends
              = (sinceLoop cfg me graph pre ⟨offset, [], []⟩).1.sends) := by
  have hst : isStale graph s := hstale
  have hstep : ∀ rest, sinceLoop cfg me graph (pre ++ s :: rest) ⟨offset, [], []⟩
      = sinceLoop cfg me graph rest
          ⟨s.TopologicalOrder, (sinceLoop cfg me graph pre ⟨offset, [], []⟩).1.sends,
            (sinceLoop cfg me graph pre ⟨offset, [], []⟩).1.considered ++ [s]⟩ := by
    intro rest
    rw [sinceLoop_append cfg me graph (s :: rest) pre _ hreach]
    rcases sinceLoop_cons_cases cfg me graph s rest
        (sinceLoop cfg me graph pre ⟨offset, [], []⟩).1 with
      ⟨_, heq⟩ | ⟨hn, _⟩ | ⟨hn, _⟩ | ⟨hn, _⟩
    · exact heq
    all_goals exact absurd hst hn
  refine ⟨?_, ?_, hstep post, ?_⟩
  · intro c hc
    exact (since_sends_sendable cfg me graph offset c hc).1
  · rw [hstep []]
    rfl
  · intro hpost
    subst hpost
    obtain ⟨ho, hs, _, _⟩ := since_of_fetch cfg me graph offset _ hfetch
    rw [ho, hs, hstep []]
    exact ⟨rfl, rfl⟩

theorem stale_snapshot_not_sent_offset_advanced_witness :
    cacheReadSnapshotsSinceTopology (peerOfBatch [snapA8, snapA5]) 142 syncLimit
        = ([snapA8] ++ snapA5 :: [], none)
      ∧ snapA5.Snapshot.RoundNumber < remoteRoundOf graphA7 snapA5.Snapshot.NodeId
      ∧ (sinceLoop cfg3 (peerOfBatch [snapA8, snapA5]) graphA7 [snapA8] ⟨142, [], []⟩).2 = none
      ∧ (syncToNeighborSince cfg3 (peerOfBatch [snapA8, snapA5]) graphA7 142).offset = 144
      ∧ (syncToNeighborSince cfg3 (peerOfBatch [snapA8, snapA5]) graphA7 142).sends
          = [⟨snapA8, 142⟩] := by
  have h := stale_snapshot_not_sent_offset_advanced cfg3 (peerOfBatch [snapA8, snapA5])
    graphA7 142 [snapA8] [] snapA5 rfl (by decide) (by decide)
  exact ⟨rfl, by decide, by decide, (h.2.2.2 rfl).1, (h.2.2.2 rfl).2.trans (by decide)⟩

/-- Claim C3 fails as stated: with threshold 3 and remote round 7 for node 1, the fetch
holds a snapshot of node 1 at round 20 (order 150) followed by one at round 5 (order 144);
the second is below the remote round, but the pass returns `FUTURE` at the first, with
the input offset 142: the loop never enters the stale snapshot and the offset is not
advanced to its order 144. -/
theorem stale_snapshot_after_future_not_advanced :
    cacheReadSnapshotsSinceTopology (peerOfBatch [snapA20, snapA5]) 142 syncLimit
        = ([snapA20, snapA5], none)
      ∧ snapA5.Snapshot.RoundNumber < remoteRoundOf graphA7 snapA5.Snapshot.NodeId
      ∧ snapA5.TopologicalOrder = 144
      ∧ syncToNeighborSince cfg3 (peerOfBatch [snapA20, snapA5]) graphA7 142
          = ⟨142, some (SyncError.FUTURE 1 20 7), [], [snapA20]⟩
      ∧ (syncToNeighborSince cfg3 (peerOfBatch [snapA20, snapA5]) graphA7 142).offset
          ≠ snapA5.TopologicalOrder := by
  refine ⟨rfl, by decide, by decide, by decide, by decide⟩

/-- Claim C4: in `syncToNeighborSince` a fetched snapshot `s` whose `RoundNumber` is at
least the remote round of its node (0 for an unknown node) plus twice
`SnapshotReferenceThreshold` is never sent; when the loop reaches it the pass returns the
`FUTURE` error, the calls of the sender are those made for the snapshots before `s`
(none for `s` or for a later snapshot), and the returned offset is the one reached after
the preceding snapshot, the input offset when `s` is the first. -/
theorem future_snapshot_aborts_pass (cfg : Config) (me : Peer)
    (graph : RoundGraph) (offset : Nat) (pre post : List SnapshotWithTopologicalOrder)
    (s : SnapshotWithTopologicalOrder)
    (hfetch : cacheReadSnapshotsSinceTopology me offset syncLimit = (pre ++ s :: post, none))
    (hfuture : s.Snapshot.RoundNumber
      ≥ remoteRoundOf graph s.Snapshot.NodeId + 2 * cfg.SnapshotReferenceThreshold)
    (hreach : (sinceLoop cfg me graph pre ⟨offset, [], []⟩).2 = none) :
    (syncToNeighborSince cfg me graph offset).err
        = some (SyncError.FUTURE s.Snapshot.NodeId s.Snapshot.RoundNumber
            (remoteRoundOf graph s.Snapshot.NodeId))
      ∧ (syncToNeighborSince cfg me graph offset).sends
          = (sinceLoop cfg me graph pre ⟨offset, [], []⟩).1.sends
      ∧ ((syncToNeighborSince cfg me graph offset).sends.map (fun c => c.snapshot)).Sublist pre
      ∧ (syncToNeighborSince cfg me graph offset).offset
          = (sinceLoop cfg me graph pre ⟨offset, [], []⟩).1.offset
      ∧ (syncToNeighborSince cfg me graph offset).offset = lastOrderOr offset pre
      ∧ (pre = [] → (syncToNeighborSince cfg me graph offset).offset = offset
          ∧ (syncToNeighborSince cfg me graph offset).sends = [])
      ∧ (∀ c ∈ (syncToNeighborSince cfg me graph offset).sends,
          c.snapshot.Snapshot.RoundNumber
            < remoteRoundOf graph c.snapshot.Snapshot.NodeId
                + 2 * cfg.SnapshotReferenceThreshold) := by
  have hmod : (remoteRoundOf graph s.Snapshot.NodeId + cfg.SnapshotReferenceThreshold * 2) % u64
      ≤ remoteRoundOf graph s.Snapshot.NodeId + cfg.SnapshotReferenceThreshold * 2 :=
    Nat.mod_le _ _
  have hns : ¬ isStale graph s := by unfold isStale; omega
  have hf : isFuture cfg graph s := by unfold isFuture; omega
  have hloop : sinceLoop cfg me graph (pre ++ s :: post) ⟨offset, [], []⟩
      = (⟨(sinceLoop cfg me graph pre ⟨offset, [], []⟩).1.offset,
          (sinceLoop cfg me graph pre ⟨offset, [], []⟩).1.sends,
          (sinceLoop cfg me graph pre ⟨offset, [], []⟩).1.considered ++ [s]⟩,
          some (futureError graph s)) := by
    rw [sinceLoop_append cfg me graph (s :: post) pre _ hreach]
    rcases sinceLoop_cons_cases cfg me graph s post
        (sinceLoop cfg me graph pre ⟨offset, [], []⟩).1 with
      ⟨hst, _⟩ | ⟨_, _, heq⟩ | ⟨_, hn, _⟩ | ⟨_, hn, _⟩
    · exact absurd hst hns
    · exact heq
    all_goals exact absurd hf hn
  obtain ⟨ho, hs, _, he⟩ := since_of_fetch cfg me graph offset _ hfetch
  obtain ⟨pre2, new, hp, _, hsends, hsub, _, hdone, _, _⟩ :=
    sinceLoop_trace cfg me graph pre ⟨offset, [], []⟩
  obtain ⟨hpre2, hoff⟩ := hdone hreach
  subst hpre2
  simp only at hoff
  refine ⟨?_, ?_, ?_, ?_, ?_, ?_, ?_⟩
  · rw [he, hloop]; rfl
  · rw [hs, hloop]
  · rw [hs, hloop]
    simp only [hsends, List.nil_append]
    exact hsub
  · rw [ho, hloop]
  · rw [ho, hloop]; exact hoff
  · intro hnil
    subst hnil
    rw [ho, hs, hloop]
    exact ⟨rfl, rfl⟩
  · intro c hc
    have hnfc := (since_sends_sendable cfg me graph offset c hc).2
    unfold isFuture at hnfc
    have hle : (remoteRoundOf graph c.snapshot.Snapshot.NodeId
        + cfg.SnapshotReferenceThreshold * 2) % u64
        ≤ remoteRoundOf graph c.snapshot.Snapshot.NodeId + cfg.SnapshotReferenceThreshold * 2 :=
      Nat.mod_le _ _
    omega

theorem future_snapshot_aborts_pass_witness :
    cacheReadSnapshotsSinceTopology (peerOfBatch [snapA8, snapA20, snapA5]) 142 syncLimit
        = ([snapA8] ++ snapA20 :: [snapA5], none)
      ∧ snapA20.Snapshot.RoundNumber
          ≥ remoteRoundOf graphA7 snapA20.Snapshot.NodeId + 2 * cfg3.SnapshotReferenceThreshold
      ∧ (sinceLoop cfg3 (peerOfBatch [snapA8, snapA20, snapA5]) graphA7 [snapA8]
          ⟨142, [], []⟩).2 = none
      ∧ (syncToNeighborSince cfg3 (peerOfBatch [snapA8, snapA20, snapA5]) graphA7 142).err
          = some (SyncError.FUTURE 1 20 7)
      ∧ (syncToNeighborSince cfg3 (peerOfBatch [snapA8, snapA20, snapA5]) graphA7 142).offset
          = 143 := by
  have h := future_snapshot_aborts_pass cfg3 (peerOfBatch [snapA8, snapA20, snapA5])
    graphA7 142 [snapA8] [snapA5] snapA20 rfl (by decide) (by decide)
  exact ⟨rfl, by decide, by decide, h.1.trans (by decide), h.2.2.2.2.1.trans (by decide)⟩

/-- Claim C5, as the code has it: when the remote round plus twice the threshold is below
`2^64`, a fetched snapshot `s` with remoteRound <= RoundNumber < remoteRound + 2*Threshold
is, when the loop reaches it, passed to `SendSnapshotFinalizationMessage` (with the offset
reached after the preceding snapshot); if the send succeeds `offset` becomes the
`TopologicalOrder` of `s` and the loop goes on, and if it fails the pass returns that
error. -/
theorem in_window_snapshot_sent (cfg : Config) (me : Peer)
    (graph : RoundGraph) (offset : Nat) (pre post : List SnapshotWithTopologicalOrder)
    (s : SnapshotWithTopologicalOrder)
    (hfetch : cacheReadSnapshotsSinceTopology me offset syncLimit = (pre ++ s :: post, none))
    (hlow : remoteRoundOf graph s.Snapshot.NodeId ≤ s.Snapshot.RoundNumber)
    (hhigh : s.Snapshot.RoundNumber
      < remoteRoundOf graph s.Snapshot.NodeId + 2 * cfg.SnapshotReferenceThreshold)
    (hfits : remoteRoundOf graph s.Snapshot.NodeId + 2 * cfg.SnapshotReferenceThreshold < u64)
    (hreach : (sinceLoop cfg me graph pre ⟨offset, [], []⟩).2 = none) :
    (sinceLoop cfg me graph (pre ++ [s]) ⟨offset, [], []⟩).1.sends
        = (sinceLoop cfg me graph pre ⟨offset, [], []⟩).1.sends ++ [⟨s, lastOrderOr offset pre⟩]
      ∧ (me.SendSnapshotFinalizationMessage
            (sentSnapshots (sinceLoop cfg me graph pre ⟨offset, [], []⟩).1.sends) s.Snapshot = none →
          sinceLoop cfg me graph (pre ++ [s]) ⟨offset, [], []⟩
              = (⟨s.TopologicalOrder,
                  (sinceLoop cfg me graph pre ⟨offset, [], []⟩).1.sends
                    ++ [⟨s, lastOrderOr offset pre⟩],
                  (sinceLoop cfg me graph pre ⟨offset, [], []⟩).1.considered ++ [s]⟩, none)
            ∧ sinceLoop cfg me graph (pre ++ s :: post) ⟨offset, [], []⟩
              = sinceLoop cfg me graph post
                  ⟨s.TopologicalOrder,
                    (sinceLoop cfg me graph pre ⟨offset, [], []⟩).1.sends
                      ++ [⟨s, lastOrderOr offset pre⟩],
                    (sinceLoop cfg me graph pre ⟨offset, [], []⟩).1.considered ++ [s]⟩)
      ∧ (∀ err, me.SendSnapshotFinalizationMessage
            (sentSnapshots (sinceLoop cfg me graph pre ⟨offset, [], []⟩).1.sends) s.Snapshot
              = some err →
          syncToNeighborSince cfg me graph offset
            = ⟨lastOrderOr offset pre, some (SyncError.external err),
                (sinceLoop cfg me graph pre ⟨offset, [], []⟩).1.sends
                  ++ [⟨s, lastOrderOr offset pre⟩],
                (sinceLoop cfg me graph pre ⟨offset, [], []⟩).1.considered ++ [s]⟩) := by
  have hmod : (remoteRoundOf graph s.Snapshot.NodeId + cfg.SnapshotReferenceThreshold * 2) % u64
      = remoteRoundOf graph s.Snapshot.NodeId + cfg.SnapshotReferenceThreshold * 2 :=
    Nat.mod_eq_of_lt (by omega)
  have hns : ¬ isStale graph s := by unfold isStale; omega
  have hnf : ¬ isFuture cfg graph s := by unfold isFuture; rw [hmod]; omega
  obtain ⟨pre2, new, _, _, _, _, _, hdone, _, _⟩ :=
    sinceLoop_trace cfg me graph pre ⟨offset, [], []⟩
  obtain ⟨_, hoff⟩ := hdone hreach
  simp only at hoff
  have hcases := fun rest => sinceLoop_cons_cases cfg me graph s rest
    (sinceLoop cfg me graph pre ⟨offset, [], []⟩).1
  have hok : me.SendSnapshotFinalizationMessage
        (sentSnapshots (sinceLoop cfg me graph pre ⟨offset, [], []⟩).1.sends) s.Snapshot = none →
      ∀ rest, sinceLoop cfg me graph (pre ++ s :: rest) ⟨offset, [], []⟩
        = sinceLoop cfg me graph rest
            ⟨s.TopologicalOrder,
              (sinceLoop cfg me graph pre ⟨offset, [], []⟩).1.sends
                ++ [⟨s, lastOrderOr offset pre⟩],
              (sinceLoop cfg me graph pre ⟨offset, [], []⟩).1.considered ++ [s]⟩ := by
    intro hsend rest
    rw [sinceLoop_append cfg me graph (s :: rest) pre _ hreach]
    rcases hcases rest with ⟨hst, _⟩ | ⟨_, hf, _⟩ | ⟨_, _, err, he, _⟩ | ⟨_, _, _, heq⟩
    · exact absurd hst hns
    · exact absurd hf hnf
    · rw [hsend] at he; simp at he
    · rw [heq, hoff]
  have hfail : ∀ err, me.SendSnapshotFinalizationMessage
        (sentSnapshots (sinceLoop cfg me graph pre ⟨offset, [], []⟩).1.sends) s.Snapshot
          = some err →
      ∀ rest, sinceLoop cfg me graph (pre ++ s :: rest) ⟨offset, [], []⟩
        = (⟨lastOrderOr offset pre,
              (sinceLoop cfg me graph pre ⟨offset, [], []⟩).1.sends
                ++ [⟨s, lastOrderOr offset pre⟩],
              (sinceLoop cfg me graph pre ⟨offset, [], []⟩).1.considered ++ [s]⟩,
            some (SyncError.external err)) := by
    intro err hsend rest
    rw [sinceLoop_append cfg me graph (s :: rest) pre _ hreach]
    rcases hcases rest with ⟨hst, _⟩ | ⟨_, hf, _⟩ | ⟨_, _, err2, he, heq⟩ | ⟨_, _, he, _⟩
    · exact absurd hst hns
    · exact absurd hf hnf
    · rw [hsend] at he
      have : err = err2 := Option.some.inj he
      subst this
      rw [heq, hoff]
    · rw [hsend] at he; simp at he
  refine ⟨?_, ?_, ?_⟩
  · cases hsend : me.SendSnapshotFinalizationMessage
        (sentSnapshots (sinceLoop cfg me graph pre ⟨offset, [], []⟩).1.sends) s.Snapshot with
    | none => rw [hok hsend []]; rfl
    | some err => rw [hfail err hsend []]
  · intro hsend
    refine ⟨?_, hok hsend post⟩
    rw [hok hsend []]
    rfl
  · intro err hsend
    obtain ⟨ho, hs, hc, he⟩ := since_of_fetch cfg me graph offset _ hfetch
    have hl := hfail err hsend post
    rw [hl] at ho hs hc he
    simp only at ho hs hc he
    cases hr : syncToNeighborSince cfg me graph offset with
    | mk o e sd cd =>
      rw [hr] at ho hs hc he
      simp only at ho hs hc he
      rw [ho, hs, hc, he]

/-- The witness of the specification for claim C5, threshold 3 and remote round 7 for
node 1: a snapshot of node 1 at round 8 is sent and the offset becomes its order 143; the
next one, at round 20, ends the pass with `FUTURE`. -/
theorem in_window_snapshot_sent_witness :
    cacheReadSnapshotsSinceTopology (peerOfBatch [snapA8, snapA20]) 142 syncLimit
        = ([] ++ snapA8 :: [snapA20], none)
      ∧ remoteRoundOf graphA7 snapA8.Snapshot.NodeId ≤ snapA8.Snapshot.RoundNumber
      ∧ snapA8.Snapshot.RoundNumber
          < remoteRoundOf graphA7 snapA8.Snapshot.NodeId + 2 * cfg3.SnapshotReferenceThreshold
      ∧ remoteRoundOf graphA7 snapA8.Snapshot.NodeId + 2 * cfg3.SnapshotReferenceThreshold < u64
      ∧ sinceLoop cfg3 (peerOfBatch [snapA8, snapA20]) graphA7 ([] ++ [snapA8]) ⟨142, [], []⟩
          = (⟨143, [⟨snapA8, 142⟩], [snapA8]⟩, none)
      ∧ syncToNeighborSince cfg3 (peerOfBatch [snapA8, snapA20]) graphA7 142
          = ⟨143, some (SyncError.FUTURE 1 20 7), [⟨snapA8, 142⟩], [snapA8, snapA20]⟩ := by
  have h := in_window_snapshot_sent cfg3 (peerOfBatch [snapA8, snapA20])
    graphA7 142 [] [snapA20] snapA8 rfl (by decide) (by decide) (by decide) rfl
  exact ⟨rfl, by decide, by decide, by decide, (h.2.1 rfl).1.trans (by decide), by decide⟩

/-- Claim C5 fails as stated: with threshold 3 and remote round `2^64 - 1` for node 1, a
snapshot of node 1 at round `2^64 - 1` satisfies remoteRound <= RoundNumber <
remoteRound + 6 as integers, but the code forms the sum in `uint64`, where it is 5, and
the pass returns `FUTURE` without sending the snapshot or advancing the offset. -/
theorem in_window_not_sent_on_overflow :
    remoteRoundOf graphAMax snapAMax.Snapshot.NodeId ≤ snapAMax.Snapshot.RoundNumber
      ∧ snapAMax.Snapshot.RoundNumber
          < remoteRoundOf graphAMax snapAMax.Snapshot.NodeId + 2 * cfg3.SnapshotReferenceThreshold
      ∧ syncToNeighborSince cfg3 (peerOfBatch [snapAMax]) graphAMax 142
          = ⟨142, some (SyncError.FUTURE 1 18446744073709551615 18446744073709551615), [],
              [snapAMax]⟩ := by
  refine ⟨by decide, by decide, by decide⟩

theorem sinceLoop_error (cfg : Config) (me : Peer) (graph : RoundGraph) :
    ∀ (ss : List SnapshotWithTopologicalOrder) (st : PassState) (e : SyncError),
      (sinceLoop cfg me graph ss st).2 = some e →
        (∃ s ∈ ss, ¬ isStale graph s ∧ isFuture cfg graph s ∧ e = futureError graph s)
        ∨ (∃ s ∈ ss, ∃ hist msg, me.SendSnapshotFinalizationMessage hist s.Snapshot = some msg
            ∧ e = SyncError.external msg) := by
  intro ss
  induction ss with
  | nil => intro st e h; simp [sinceLoop] at h
  | cons s rest ih =>
    intro st e h
    have lift : ((∃ x ∈ rest, ¬ isStale graph x ∧ isFuture cfg graph x ∧ e = futureError graph x)
        ∨ (∃ x ∈ rest, ∃ hist msg, me.SendSnapshotFinalizationMessage hist x.Snapshot = some msg
            ∧ e = SyncError.external msg)) →
        ((∃ x ∈ s :: rest, ¬ isStale graph x ∧ isFuture cfg graph x ∧ e = futureError graph x)
        ∨ (∃ x ∈ s :: rest, ∃ hist msg,
            me.SendSnapshotFinalizationMessage hist x.Snapshot = some msg
            ∧ e = SyncError.external msg)) := by
      rintro (⟨x, hx, hrest⟩ | ⟨x, hx, hrest⟩)
      · exact Or.inl ⟨x, List.mem_cons_of_mem _ hx, hrest⟩
      · exact Or.inr ⟨x, List.mem_cons_of_mem _ hx, hrest⟩
    rcases sinceLoop_cons_cases cfg me graph s rest st with
      ⟨_, heq⟩ | ⟨hns, hf, heq⟩ | ⟨_, _, err, hsend, heq⟩ | ⟨_, _, _, heq⟩
    · rw [heq] at h
      exact lift (ih _ e h)
    · rw [heq] at h
      simp only [Option.some.injEq] at h
      exact Or.inl ⟨s, List.mem_cons_self _ _, hns, hf, h.symm⟩
    · rw [heq] at h
      simp only [Option.some.injEq] at h
      exact Or.inr ⟨s, List.mem_cons_self _ _, _, err, hsend, h.symm⟩
    · rw [heq] at h
      exact lift (ih _ e h)

theorem sinceLoop_completes (cfg : Config) (me : Peer) (graph : RoundGraph)
    (ss : List SnapshotWithTopologicalOrder) (st : PassState)
    (hbound : ∀ s ∈ ss, isStale graph s ∨ ¬ isFuture cfg graph s)
    (hsend : ∀ hist x, me.SendSnapshotFinalizationMessage hist x = none) :
    (sinceLoop cfg me graph ss st).2 = none := by
  cases h : (sinceLoop cfg me graph ss st).2 with
  | none => rfl
  | some e =>
    rcases sinceLoop_error cfg me graph ss st e h with
      ⟨s, hs, hns, hf, _⟩ | ⟨s, _, hist, msg, hm, _⟩
    · rcases hbound s hs with h1 | h1
      · exact absurd h1 hns
      · exact absurd hf h1
    · rw [hsend] at hm; simp at hm

/-- Claim C6, as the code has it: a call of `syncToNeighborSince` whose fetch succeeds with
fewer than 200 snapshots ends with `EOF`, unless a fetched snapshot at or beyond the
`FUTURE` bound or a failed send ends it first; it does end with `EOF` when no fetched
snapshot is at or beyond the bound (unless stale) and the sender does not fail; and when
it ends with `EOF` the loop has entered every fetched snapshot and the returned offset is
the `TopologicalOrder` of the last snapshot of the fetch, the input offset for an empty
fetch. -/
theorem short_batch_ends_with_eof (cfg : Config) (me : Peer) (graph : RoundGraph)
    (offset : Nat) (ss : List SnapshotWithTopologicalOrder)
    (hfetch : cacheReadSnapshotsSinceTopology me offset syncLimit = (ss, none))
    (hshort : ss.length < syncLimit) :
    (((syncToNeighborSince cfg me graph offset).err = some SyncError.EOF)
        ∨ (∃ s ∈ ss, ¬ isStale graph s ∧ isFuture cfg graph s
            ∧ (syncToNeighborSince cfg me graph offset).err = some (futureError graph s))
        ∨ (∃ s ∈ ss, ∃ hist msg, me.SendSnapshotFinalizationMessage hist s.Snapshot = some msg
            ∧ (syncToNeighborSince cfg me graph offset).err = some (SyncError.external msg)))
      ∧ ((syncToNeighborSince cfg me graph offset).err = some SyncError.EOF →
          (syncToNeighborSince cfg me graph offset).offset = lastOrderOr offset ss
            ∧ (syncToNeighborSince cfg me graph offset).considered = ss)
      ∧ ((∀ s ∈ ss, isStale graph s ∨ ¬ isFuture cfg graph s) →
          (∀ hist x, me.SendSnapshotFinalizationMessage hist x = none) →
          (syncToNeighborSince cfg me graph offset).err = some SyncError.EOF
            ∧ (syncToNeighborSince cfg me graph offset).offset = lastOrderOr offset ss) := by
  obtain ⟨ho, _, hc, he⟩ := since_of_fetch cfg me graph offset ss hfetch
  obtain ⟨pre, new, _, hcons, _, _, _, hdone, _, _⟩ :=
    sinceLoop_trace cfg me graph ss ⟨offset, [], []⟩
  have hend : (sinceLoop cfg me graph ss ⟨offset, [], []⟩).2 = none →
      (syncToNeighborSince cfg me graph offset).err = some SyncError.EOF
        ∧ (syncToNeighborSince cfg me graph offset).offset = lastOrderOr offset ss
        ∧ (syncToNeighborSince cfg me graph offset).considered = ss := by
    intro hn
    obtain ⟨hpre, hoff⟩ := hdone hn
    refine ⟨?_, ?_, ?_⟩
    · rw [he, hn]; simp [hshort]
    · rw [ho, hoff]
    · rw [hc, hcons, hpre]; rfl
  refine ⟨?_, ?_, ?_⟩
  · cases hl : (sinceLoop cfg me graph ss ⟨offset, [], []⟩).2 with
    | none => exact Or.inl (hend hl).1
    | some e =>
      have herr : (syncToNeighborSince cfg me graph offset).err = some e := by
        rw [he, hl]
      rcases sinceLoop_error cfg me graph ss _ e hl with
        ⟨s, hs, hns, hf, hes⟩ | ⟨s, hs, hist, msg, hm, hes⟩
      · exact Or.inr (Or.inl ⟨s, hs, hns, hf, by rw [herr, hes]⟩)
      · exact Or.inr (Or.inr ⟨s, hs, hist, msg, hm, by rw [herr, hes]⟩)
  · intro heof
    cases hl : (sinceLoop cfg me graph ss ⟨offset, [], []⟩).2 with
    | none => exact (hend hl).2
    | some e =>
      rw [he, hl] at heof
      simp only [Option.some.injEq] at heof
      rcases sinceLoop_error cfg me graph ss _ e hl with
        ⟨s, _, _, _, hes⟩ | ⟨s, _, _, msg, _, hes⟩
      · rw [hes, futureError] at heof; cases heof
      · rw [hes] at heof; cases heof
  · intro hbound hsend
    have hl := sinceLoop_completes cfg me graph ss ⟨offset, [], []⟩ hbound hsend
    exact ⟨(hend hl).1, (hend hl).2.1⟩

theorem short_batch_ends_with_eof_witness :
    cacheReadSnapshotsSinceTopology (peerOfBatch [snapA8, snapA5]) 142 syncLimit
        = ([snapA8, snapA5], none)
      ∧ [snapA8, snapA5].length < syncLimit
      ∧ (syncToNeighborSince cfg3 (peerOfBatch [snapA8, snapA5]) graphA7 142).err
          = some SyncError.EOF
      ∧ (syncToNeighborSince cfg3 (peerOfBatch [snapA8, snapA5]) graphA7 142).offset
          = lastOrderOr 142 [snapA8, snapA5] :=
  ⟨rfl, by decide,
    (short_batch_ends_with_eof cfg3 (peerOfBatch [snapA8, snapA5]) graphA7 142
      [snapA8, snapA5] rfl (by decide)).2.2 (by decide) (fun _ _ => rfl)⟩

/-- Claim C6 fails as stated: with threshold 3 and remote round 7 for node 1, a fetch
returning the single snapshot of node 1 at round 20 (order 150) is shorter than the batch
limit, yet the pass ends with `FUTURE`, not `EOF`, and returns the input offset 142, not
the order 150 of the last snapshot of the fetch. -/
theorem short_batch_future_not_eof :
    cacheReadSnapshotsSinceTopology (peerOfBatch [snapA20]) 142 syncLimit = ([snapA20], none)
      ∧ [snapA20].length < syncLimit
      ∧ (syncToNeighborSince cfg3 (peerOfBatch [snapA20]) graphA7 142).err
          = some (SyncError.FUTURE 1 20 7)
      ∧ (syncToNeighborSince cfg3 (peerOfBatch [snapA20]) graphA7 142).err ≠ some SyncError.EOF
      ∧ (syncToNeighborSince cfg3 (peerOfBatch [snapA20]) graphA7 142).offset = 142
      ∧ lastOrderOr 142 [snapA20] = 150 := by
  refine ⟨rfl, by decide, by decide, by decide, by decide, by decide⟩

/-- Claim C9: when `ReadSnapshotsSinceTopology` returns no snapshot for the offset,
`syncToNeighborSince` returns `EOF`, calls the sender for nothing and returns the offset
unchanged, and a second run with the same graph and the returned offset gives the same
result. -/
theorem empty_fetch_immediate_eof (cfg : Config) (me : Peer) (graph : RoundGraph)
    (offset : Nat)
    (hfetch : cacheReadSnapshotsSinceTopology me offset syncLimit = ([], none)) :
    syncToNeighborSince cfg me graph offset = ⟨offset, some SyncError.EOF, [], []⟩
      ∧ syncToNeighborSince cfg me graph (syncToNeighborSince cfg me graph offset).offset
          = syncToNeighborSince cfg me graph offset := by
  have h : syncToNeighborSince cfg me graph offset = ⟨offset, some SyncError.EOF, [], []⟩ := by
    unfold syncToNeighborSince
    rw [hfetch]
    simp [sinceLoop, syncLimit]
  refine ⟨h, ?_⟩
  rw [h]
  simp only
  exact h

theorem empty_fetch_immediate_eof_witness :
    cacheReadSnapshotsSinceTopology (peerOfBatch []) 142 syncLimit = ([], none)
      ∧ syncToNeighborSince cfg3 (peerOfBatch []) graphA7 142
          = ⟨142, some SyncError.EOF, [], []⟩ :=
  ⟨rfl, (empty_fetch_immediate_eof cfg3 (peerOfBatch []) graphA7 142 rfl).1⟩

/-! ### Order of offsets and sends -/

theorem since_call_ordered (cfg : Config) (me : Peer) (graph : RoundGraph) (offset : Nat)
    (h : strictlyAfter offset (cacheReadSnapshotsSinceTopology me offset syncLimit).1) :
    offset ≤ (syncToNeighborSince cfg me graph offset).offset
      ∧ (∀ x, (syncToNeighborSince cfg me graph offset).considered.getLast? = some x →
          (syncToNeighborSince cfg me graph offset).offset ≤ x.TopologicalOrder)
      ∧ (∀ c ∈ (syncToNeighborSince cfg me graph offset).sends,
          offset ≤ c.offset ∧ c.offset < c.snapshot.TopologicalOrder)
      ∧ ((syncToNeighborSince cfg me graph offset).sends.map (fun c => c.snapshot)).Sublist
          (cacheReadSnapshotsSinceTopology me offset syncLimit).1
      ∧ ((syncToNeighborSince cfg me graph offset).err = none →
          ∀ c ∈ (syncToNeighborSince cfg me graph offset).sends,
            c.snapshot.TopologicalOrder ≤ (syncToNeighborSince cfg me graph offset).offset) := by
  rcases hfetch : cacheReadSnapshotsSinceTopology me offset syncLimit with ⟨ss, e⟩
  rw [hfetch] at h
  simp only at h
  cases e with
  | some msg =>
    rw [since_of_fetch_error cfg me graph offset ss msg hfetch]
    simp
  | none =>
    obtain ⟨ho, hs, hc, he⟩ := since_of_fetch cfg me graph offset ss hfetch
    obtain ⟨pre, new, hp, hcons, hsends, hsub, _, hdone, _, hcond⟩ :=
      sinceLoop_trace cfg me graph ss ⟨offset, [], []⟩
    obtain ⟨hmono, hlast, hcalls, hfin⟩ := hcond h
    simp only [List.nil_append] at hcons hsends hmono hcalls
    rw [ho, hs, hc, he, hcons, hsends]
    refine ⟨hmono, hlast, hcalls, hsub.trans hp.sublist, ?_⟩
    intro hnone
    cases hl : (sinceLoop cfg me graph ss ⟨offset, [], []⟩).2 with
    | none => exact hfin hl
    | some e2 => rw [hl] at hnone; simp at hnone

theorem streamingLoop_trace (cfg : Config) (graph : RoundGraph) :
    ∀ (envs : List LoopEnv) (offset : Nat) (calls : List PassResult),
      (∀ e ∈ envs, readsStrictlyAfter e.me) →
      ∃ new : List PassResult,
        (streamingLoop cfg graph envs offset calls).calls = calls ++ new
        ∧ List.Chain (fun a b => a ≤ b) offset (new.map (fun r => r.offset))
        ∧ offset ≤ (streamingLoop cfg graph envs offset calls).offset
        ∧ (∀ c ∈ allSends new, offset ≤ c.offset ∧ c.offset < c.snapshot.TopologicalOrder)
        ∧ (allSends new).Pairwise
            (fun a b => a.snapshot.TopologicalOrder < b.snapshot.TopologicalOrder) := by
  intro envs
  induction envs with
  | nil =>
    intro offset calls _
    exact ⟨[], by simp [streamingLoop], by simp, by simp [streamingLoop], by simp [allSends],
      by simp [allSends]⟩
  | cons e rest ih =>
    intro offset calls henv
    have hrest : ∀ x ∈ rest, readsStrictlyAfter x.me :=
      fun x hx => henv x (List.mem_cons_of_mem _ hx)
    have hme : readsStrictlyAfter e.me := henv e (List.mem_cons_self _ _)
    obtain ⟨hmono, _, hcalls, hsub, hfin⟩ :=
      since_call_ordered cfg e.me graph offset (hme offset syncLimit)
    have hpair : (syncToNeighborSince cfg e.me graph offset).sends.Pairwise
        (fun a b => a.snapshot.TopologicalOrder < b.snapshot.TopologicalOrder) := by
      have h1 := (hme offset syncLimit).2.sublist hsub
      rw [List.pairwise_map] at h1
      exact h1
    rw [streamingLoop]
    by_cases hcond : (!e.meClosing && !e.pClosing && decide (offset > 0)) = true
    · rw [if_pos hcond]
      cases herr : (syncToNeighborSince cfg e.me graph offset).err with
      | some err =>
        refine ⟨[syncToNeighborSince cfg e.me graph offset], by simp [herr], ?_, by simp [herr],
          ?_, ?_⟩
        · simp only [List.map_cons, List.map_nil, List.chain_cons, List.Chain.nil, and_true]
          exact hmono
        · intro c hc
          simp only [allSends, List.append_nil] at hc
          exact hcalls c hc
        · simp only [allSends, List.append_nil]
          exact hpair
      | none =>
        obtain ⟨new, hnew, hchain, hoff, hafter, hsorted⟩ :=
          ih (syncToNeighborSince cfg e.me graph offset).offset
            (calls ++ [syncToNeighborSince cfg e.me graph offset]) hrest
        refine ⟨syncToNeighborSince cfg e.me graph offset :: new, ?_, ?_, ?_, ?_, ?_⟩
        · simp only [herr]
          rw [hnew]
          simp
        · simp only [List.map_cons, List.chain_cons]
          exact ⟨hmono, hchain⟩
        · simp only [herr]
          omega
        · intro c hc
          simp only [allSends, List.mem_append] at hc
          rcases hc with hc | hc
          · exact hcalls c hc
          · have := hafter c hc
            exact ⟨by omega, this.2⟩
        · simp only [allSends]
          rw [List.pairwise_append]
          refine ⟨hpair, hsorted, ?_⟩
          intro a ha b hb
          have h1 := hfin herr a ha
          have h2 := hafter b hb
          omega
    · rw [if_neg hcond]
      exact ⟨[], by simp, by simp, by simp, by simp [allSends], by simp [allSends]⟩

theorem peerOfLog_readsStrictlyAfter (log : List SnapshotWithTopologicalOrder)
    (hlog : log.Pairwise (fun a b => a.TopologicalOrder < b.TopologicalOrder)) :
    readsStrictlyAfter (peerOfLog log) := by
  intro offset limit
  refine ⟨?_, ?_⟩
  · intro s hs
    have hs2 := List.mem_of_mem_take hs
    simpa using (List.mem_filter.1 hs2).2
  · exact (hlog.sublist (List.filter_sublist _)).sublist (List.take_sublist _ _)

/-- Claim C7: when `ReadSnapshotsSinceTopology` returns snapshots strictly after the
requested offset in increasing `TopologicalOrder`, a call of `syncToNeighborSince`,
whatever error it returns, returns an offset at least its input offset and at most the
`TopologicalOrder` of the last snapshot its loop entered; and in the streaming loop of
`syncToNeighborLoop` the offsets returned by the successive calls form a non-decreasing
chain starting at the initial offset, the loop variable ending at or above it. -/
theorem offset_non_decreasing (cfg : Config) (graph : RoundGraph) (me : Peer) (offset : Nat)
    (envs : List LoopEnv) (start : Nat)
    (hcall : strictlyAfter offset (cacheReadSnapshotsSinceTopology me offset syncLimit).1)
    (henvs : ∀ e ∈ envs, readsStrictlyAfter e.me) :
    offset ≤ (syncToNeighborSince cfg me graph offset).offset
      ∧ (∀ x, (syncToNeighborSince cfg me graph offset).considered.getLast? = some x →
          (syncToNeighborSince cfg me graph offset).offset ≤ x.TopologicalOrder)
      ∧ List.Chain (fun a b => a ≤ b) start
          ((streamingLoop cfg graph envs start []).calls.map (fun r => r.offset))
      ∧ start ≤ (streamingLoop cfg graph envs start []).offset := by
  obtain ⟨h1, h2, _⟩ := since_call_ordered cfg me graph offset hcall
  obtain ⟨new, hnew, hchain, hoff, _⟩ := streamingLoop_trace cfg graph envs start [] henvs
  rw [hnew]
  exact ⟨h1, h2, by simpa using hchain, hoff⟩

theorem offset_non_decreasing_witness :
    strictlyAfter 142
        (cacheReadSnapshotsSinceTopology (peerOfLog exampleLog) 142 syncLimit).1
      ∧ (∀ e ∈ exampleEnvs, readsStrictlyAfter e.me)
      ∧ 142 ≤ (syncToNeighborSince cfg3 (peerOfLog exampleLog) graphA7 142).offset
      ∧ (syncToNeighborSince cfg3 (peerOfLog exampleLog) graphA7 142).offset = 144
      ∧ (streamingLoop cfg3 graphA7 exampleEnvs 142 []).calls.map (fun r => r.offset) = [144] := by
  have hlog : exampleLog.Pairwise (fun a b => a.TopologicalOrder < b.TopologicalOrder) := by
    decide
  have hcall : strictlyAfter 142
      (cacheReadSnapshotsSinceTopology (peerOfLog exampleLog) 142 syncLimit).1 :=
    peerOfLog_readsStrictlyAfter exampleLog hlog 142 syncLimit
  have henvs : ∀ e ∈ exampleEnvs, readsStrictlyAfter e.me := by
    intro e he
    simp only [exampleEnvs, List.mem_cons, List.mem_singleton, List.not_mem_nil, or_false,
      or_self] at he
    subst he
    exact peerOfLog_readsStrictlyAfter exampleLog hlog
  exact ⟨hcall, henvs,
    (offset_non_decreasing cfg3 graphA7 (peerOfLog exampleLog) 142 exampleEnvs 142
      hcall henvs).1, by decide, by decide⟩

/-- Claim C8: when `ReadSnapshotsSinceTopology` returns snapshots strictly after the
requested offset in increasing `TopologicalOrder`, every snapshot `syncToNeighborSince`
passes to the sender has a `TopologicalOrder` above the value `offset` holds at that call;
the snapshots sent by one call form a subsequence of the fetched sequence, in
non-decreasing (indeed increasing) order; and so do all the snapshots sent by the
successive calls of one run of the streaming loop. -/
theorem sends_above_offset_in_order (cfg : Config) (graph : RoundGraph) (me : Peer)
    (offset : Nat) (envs : List LoopEnv) (start : Nat)
    (hcall : strictlyAfter offset (cacheReadSnapshotsSinceTopology me offset syncLimit).1)
    (henvs : ∀ e ∈ envs, readsStrictlyAfter e.me) :
    (∀ c ∈ (syncToNeighborSince cfg me graph offset).sends,
        c.offset < c.snapshot.TopologicalOrder)
      ∧ ((syncToNeighborSince cfg me graph offset).sends.map (fun c => c.snapshot)).Sublist
          (cacheReadSnapshotsSinceTopology me offset syncLimit).1
      ∧ (syncToNeighborSince cfg me graph offset).sends.Pairwise
          (fun a b => a.snapshot.TopologicalOrder ≤ b.snapshot.TopologicalOrder)
      ∧ (∀ c ∈ allSends (streamingLoop cfg graph envs start []).calls,
          c.offset < c.snapshot.TopologicalOrder ∧ start < c.snapshot.TopologicalOrder)
      ∧ (allSends (streamingLoop cfg graph envs start []).calls).Pairwise
          (fun a b => a.snapshot.TopologicalOrder ≤ b.snapshot.TopologicalOrder)
      ∧ (allSends (streamingLoop cfg graph envs start []).calls).Pairwise
          (fun a b => a.snapshot.TopologicalOrder < b.snapshot.TopologicalOrder) := by
  obtain ⟨_, _, h1, h2, _⟩ := since_call_ordered cfg me graph offset hcall
  obtain ⟨new, hnew, _, _, hafter, hsorted⟩ := streamingLoop_trace cfg graph envs start [] henvs
  have hpair : (syncToNeighborSince cfg me graph offset).sends.Pairwise
      (fun a b => a.snapshot.TopologicalOrder < b.snapshot.TopologicalOrder) := by
    have h3 := hcall.2.sublist h2
    rw [List.pairwise_map] at h3
    exact h3
  rw [hnew]
  simp only [List.nil_append]
  refine ⟨fun c hc => (h1 c hc).2, h2, hpair.imp (fun h => Nat.le_of_lt h), ?_,
    hsorted.imp (fun h => Nat.le_of_lt h), hsorted⟩
  intro c hc
  have := hafter c hc
  exact ⟨this.2, by omega⟩

theorem sends_above_offset_in_order_witness :
    strictlyAfter 142
        (cacheReadSnapshotsSinceTopology (peerOfLog exampleLog) 142 syncLimit).1
      ∧ (∀ e ∈ exampleEnvs, readsStrictlyAfter e.me)
      ∧ (∀ c ∈ (syncToNeighborSince cfg3 (peerOfLog exampleLog) graphA7 142).sends,
          c.offset < c.snapshot.TopologicalOrder)
      ∧ allSends (streamingLoop cfg3 graphA7 exampleEnvs 142 []).calls = [⟨snapA8, 142⟩] := by
  have hlog : exampleLog.Pairwise (fun a b => a.TopologicalOrder < b.TopologicalOrder) := by
    decide
  have hcall : strictlyAfter 142
      (cacheReadSnapshotsSinceTopology (peerOfLog exampleLog) 142 syncLimit).1 :=
    peerOfLog_readsStrictlyAfter exampleLog hlog 142 syncLimit
  have henvs : ∀ e ∈ exampleEnvs, readsStrictlyAfter e.me := by
    intro e he
    simp only [exampleEnvs, List.mem_cons, List.mem_singleton, List.not_mem_nil, or_false,
      or_self] at he
    subst he
    exact peerOfLog_readsStrictlyAfter exampleLog hlog
  exact ⟨hcall, henvs,
    (sends_above_offset_in_order cfg3 graphA7 (peerOfLog exampleLog) 142 exampleEnvs 142
      hcall henvs).1, by decide⟩

/-! ### The head-round top-up -/

theorem headRoundLoop_runs (me : Peer) (nodeId : Hash) (localFinal bound : Nat)
    (hbound : bound + 1 < u64) :
    ∀ (n i fuel : Nat) (tr : HeadTrace), i + n = bound + 1 → n + 1 ≤ fuel →
      headRoundLoop me nodeId localFinal bound fuel i tr
        = some ⟨tr.requests ++ (List.range' i n).map
                  (fun k => ⟨nodeId, k, decide (k ≤ localFinal)⟩),
                tr.sent ++ (List.range' i n).flatMap
                  (fun k => (me.handle.ReadSnapshotsForNodeRound nodeId k).1.map
                    (fun s => s.Snapshot))⟩ := by
  intro n
  induction n with
  | zero =>
    intro i fuel tr hi hfuel
    obtain ⟨f, rfl⟩ : ∃ f, fuel = f + 1 := ⟨fuel - 1, by omega⟩
    rw [headRoundLoop, if_neg (by omega)]
    simp
  | succ n ih =>
    intro i fuel tr hi hfuel
    obtain ⟨f, rfl⟩ : ∃ f, fuel = f + 1 := ⟨fuel - 1, by omega⟩
    have hmod : (i + 1) % u64 = i + 1 := Nat.mod_eq_of_lt (by omega)
    rw [headRoundLoop, if_pos (by omega)]
    simp only [hmod]
    rw [ih (i + 1) f _ (by omega) (by omega)]
    simp [List.range'_succ, cacheReadSnapshotsForNodeRound, List.flatMap_cons]

theorem headRoundLoop_never_ends (me : Peer) (nodeId : Hash) (localFinal : Nat) :
    ∀ (fuel i : Nat) (tr : HeadTrace), i < u64 →
      headRoundLoop me nodeId localFinal (u64 - 1) fuel i tr = none := by
  intro fuel
  induction fuel with
  | zero => intro i tr _; rfl
  | succ f ih =>
    intro i tr hi
    rw [headRoundLoop, if_pos (by omega)]
    exact ih _ _ (Nat.mod_lt _ (by decide))

/-- Claim C10, as the code has it: for a node N with remote and local rounds remoteFinal
and localFinal (0 if unknown), `syncHeadRoundToRemote` reads no round and sends nothing
when remoteFinal > localFinal; otherwise, when remoteFinal + Threshold + 2 is below
`2^64 - 1`, it returns after reading exactly the rounds remoteFinal, ...,
remoteFinal + Threshold + 2 of N, each once and in increasing order, and sending every
snapshot those reads return, in that order, and nothing else. -/
theorem head_top_up_reads_window (cfg : Config) (me : Peer) (local_ remote : RoundGraph)
    (nodeId : Hash) (fuel : Nat)
    (hfits : remoteRoundOf remote nodeId + cfg.SnapshotReferenceThreshold + 3 < u64)
    (hfuel : cfg.SnapshotReferenceThreshold + 4 ≤ fuel) :
    (remoteRoundOf remote nodeId > remoteRoundOf local_ nodeId →
        syncHeadRoundToRemote cfg me local_ remote nodeId fuel = some ⟨[], []⟩)
      ∧ (remoteRoundOf remote nodeId ≤ remoteRoundOf local_ nodeId →
        syncHeadRoundToRemote cfg me local_ remote nodeId fuel
          = some (headRoundTrace me nodeId (remoteRoundOf local_ nodeId)
              (remoteRoundOf remote nodeId) cfg.SnapshotReferenceThreshold)) := by
  refine ⟨?_, ?_⟩
  · intro hgt
    unfold syncHeadRoundToRemote
    simp only [hgt, if_true]
  · intro hle
    have hmod : (remoteRoundOf remote nodeId + cfg.SnapshotReferenceThreshold + 2) % u64
        = remoteRoundOf remote nodeId + cfg.SnapshotReferenceThreshold + 2 :=
      Nat.mod_eq_of_lt (by omega)
    unfold syncHeadRoundToRemote
    simp only [hmod]
    rw [if_neg (by omega)]
    rw [headRoundLoop_runs me nodeId _ _ (by omega) (cfg.SnapshotReferenceThreshold + 3)
      (remoteRoundOf remote nodeId) fuel ⟨[], []⟩ (by omega) (by omega)]
    simp [headRoundTrace]

theorem head_top_up_reads_window_witness :
    remoteRoundOf graphA7 1 + cfg3.SnapshotReferenceThreshold + 3 < u64
      ∧ cfg3.SnapshotReferenceThreshold + 4 ≤ 7
      ∧ remoteRoundOf graphA7 1 ≤ remoteRoundOf (graphOf [⟨1, 10⟩, ⟨2, 5⟩]) 1
      ∧ syncHeadRoundToRemote cfg3 scenarioPeer (graphOf [⟨1, 10⟩, ⟨2, 5⟩]) graphA7 1 7
          = some ⟨[⟨1, 7, true⟩, ⟨1, 8, true⟩, ⟨1, 9, true⟩, ⟨1, 10, true⟩, ⟨1, 11, false⟩,
                    ⟨1, 12, false⟩], [⟨1, 9, 0⟩]⟩ :=
  ⟨by decide, by decide, by decide,
    ((head_top_up_reads_window cfg3 scenarioPeer (graphOf [⟨1, 10⟩, ⟨2, 5⟩]) graphA7 1 7
      (by decide) (by decide)).2 (by decide)).trans (by decide)⟩

/-- Claim C10 fails as stated: with threshold 3 and both the remote and the local round of
node 1 equal to `2^64 - 1`, remoteFinal does not exceed localFinal and the ledger holds a
snapshot of node 1 at round remoteFinal, but the loop bound remoteFinal + 3 + 2 wraps to
4 in `uint64`, so `syncHeadRoundToRemote` reads no round and sends nothing. -/
theorem head_top_up_reads_nothing_on_overflow :
    remoteRoundOf graphAMax 1 ≤ remoteRoundOf graphAMax 1
      ∧ (maxRoundPeer.handle.ReadSnapshotsForNodeRound 1 (remoteRoundOf graphAMax 1)).1
          = [snapAMax]
      ∧ syncHeadRoundToRemote cfg3 maxRoundPeer graphAMax graphAMax 1 10 = some ⟨[], []⟩
      ∧ syncHeadRoundToRemote cfg3 maxRoundPeer graphAMax graphAMax 1 10
          ≠ some (headRoundTrace maxRoundPeer 1 (remoteRoundOf graphAMax 1)
              (remoteRoundOf graphAMax 1) cfg3.SnapshotReferenceThreshold) := by
  refine ⟨by decide, by decide, by decide, by decide⟩

/-! ### The wait for a sync point -/

theorem getSyncPointOffsetLoop_pushes :
    ∀ (pushes : List (Peer × List SyncPoint)) (st : Option RoundGraph × Nat),
      getSyncPointOffsetLoop (pushEvents pushes ++ [SyncEvent.timeout]) st
        = some (pushes.foldl (fun acc p => getSyncPointOffsetPush p.1 p.2 acc) st) := by
  intro pushes
  induction pushes with
  | nil => intro st; rfl
  | cons p rest ih =>
    intro st
    simp only [pushEvents, List.map_cons, List.cons_append, getSyncPointOffsetLoop,
      List.foldl_cons]
    exact ih _

theorem lastPositive_append (offsets : List Nat) (o : Nat) :
    lastPositive (offsets ++ [o]) = if 0 < o then o else lastPositive offsets := by
  unfold lastPositive
  rw [List.reverse_append, List.reverse_singleton, List.singleton_append, List.find?_cons]
  by_cases h : 0 < o
  · simp [h]
  · simp [h]

theorem foldl_push_eq (pushes : List (Peer × List SyncPoint)) :
    pushes.foldl (fun acc p => getSyncPointOffsetPush p.1 p.2 acc) (none, 0)
      = (pushes.getLast?.map (fun p => graphOf p.2), lastPositive (pushes.map pushOffset)) := by
  induction pushes using List.reverseRecOn with
  | nil => rfl
  | append_singleton ps p ih =>
    rw [List.foldl_append, ih]
    simp only [List.foldl_cons, List.foldl_nil, List.getLast?_append, List.getLast?_singleton,
      List.map_append, List.map_cons, List.map_nil, lastPositive_append]
    simp [getSyncPointOffsetPush, pushOffset]

/-- Claim C11, as the code has it: for every finite sequence of round-graph pushes received
before the timeout fires (no shutdown), `getSyncPointOffset` returns the graph of the last
push together with the offset of the most recent push whose comparison against the local
graph gave a positive offset (zero when no push did); so the offset is the one computed
for the last push whenever that one is positive, and the result is (no graph, 0) when no
push arrived. -/
theorem sync_point_keeps_last_positive_offset (pushes : List (Peer × List SyncPoint)) :
    getSyncPointOffset (pushEvents pushes ++ [SyncEvent.timeout])
        = some (pushes.getLast?.map (fun p => graphOf p.2),
            lastPositive (pushes.map pushOffset))
      ∧ (∀ p, pushes.getLast? = some p → 0 < pushOffset p →
          lastPositive (pushes.map pushOffset) = pushOffset p)
      ∧ (pushes = [] →
          getSyncPointOffset (pushEvents pushes ++ [SyncEvent.timeout]) = some (none, 0)) := by
  have h : getSyncPointOffset (pushEvents pushes ++ [SyncEvent.timeout])
      = some (pushes.getLast?.map (fun p => graphOf p.2),
          lastPositive (pushes.map pushOffset)) := by
    unfold getSyncPointOffset
    rw [getSyncPointOffsetLoop_pushes, foldl_push_eq]
  refine ⟨h, ?_, ?_⟩
  · intro p hp hpos
    obtain ⟨ps, rfl⟩ : ∃ ps, pushes = ps ++ [p] := by
      rcases List.eq_nil_or_concat pushes with hnil | ⟨ps, q, hq⟩
      · subst hnil; simp at hp
      · subst hq
        have hq : q = p := by
          simpa [List.getLast?_append, Option.or] using hp
        subst hq
        exact ⟨ps, by simp⟩
    rw [List.map_append, List.map_cons, List.map_nil, lastPositive_append, if_pos hpos]
  · intro hnil
    subst hnil
    rfl

/-- Claim C11 fails as stated: with local graph {1:10, 2:5} and node 1 holding at round 9
a snapshot of order 142, a first push {1:7} gives offset 142 and a second push {1:11}
yields no candidate (its comparison gives 0), yet `getSyncPointOffset` returns offset 142
at the timeout, not the 0 computed for the last push. -/
theorem sync_point_offset_not_reset :
    pushOffset (scenarioLocalPeer, [⟨1, 7⟩]) = 142
      ∧ pushOffset (scenarioLocalPeer, [⟨1, 11⟩]) = 0
      ∧ candidates scenarioLocalPeer scenarioLocalPeer.handle.BuildGraph [⟨1, 11⟩] = []
      ∧ (getSyncPointOffset [SyncEvent.push scenarioLocalPeer [⟨1, 7⟩],
            SyncEvent.push scenarioLocalPeer [⟨1, 11⟩], SyncEvent.timeout]).map Prod.snd
          = some 142 := by
  refine ⟨by decide, by decide, by decide, by decide⟩

theorem sync_point_keeps_last_positive_offset_witness :
    [(scenarioLocalPeer, ([⟨1, 7⟩] : List SyncPoint))].getLast?
        = some (scenarioLocalPeer, [⟨1, 7⟩])
      ∧ 0 < pushOffset (scenarioLocalPeer, [⟨1, 7⟩])
      ∧ lastPositive ([(scenarioLocalPeer, ([⟨1, 7⟩] : List SyncPoint))].map pushOffset)
          = pushOffset (scenarioLocalPeer, [⟨1, 7⟩])
      ∧ (getSyncPointOffset (pushEvents [(scenarioLocalPeer, [⟨1, 7⟩])]
            ++ [SyncEvent.timeout])).map Prod.snd = some 142 :=
  ⟨rfl, by decide,
    (sync_point_keeps_last_positive_offset [(scenarioLocalPeer, [⟨1, 7⟩])]).2.1
      (scenarioLocalPeer, [⟨1, 7⟩]) rfl (by decide),
    by decide⟩

/-! ### Nodes whose remote round equals the local round -/

theorem compareLoop_cons_congr (me : Peer) (rf : RoundGraph) (l : SyncPoint)
    (rest1 rest2 : List SyncPoint)
    (h : ∀ o, compareLoop me rf rest1 o = compareLoop me rf rest2 o) (offset : Nat) :
    compareLoop me rf (l :: rest1) offset = compareLoop me rf (l :: rest2) offset := by
  rw [compareLoop, compareLoop]
  cases rf l.NodeId with
  | none => exact h offset
  | some r =>
    simp only
    split
    · exact h offset
    · split
      · rfl
      · exact h offset
      · split
        · exact h _
        · exact h offset

theorem compareLoop_filter_equalRound (me : Peer) (remote : List SyncPoint) :
    ∀ (local_ : List SyncPoint) (offset : Nat),
      (∀ l ∈ local_, equalRound remote l = true → ∀ r, graphOf remote l.NodeId = some r →
        me.handle.ReadSnapshotsForNodeRound l.NodeId ((r.Number + 2) % u64) = ([], none)) →
      compareLoop me (graphOf remote) local_ offset
        = compareLoop me (graphOf remote)
            (local_.filter (fun l => !equalRound remote l)) offset := by
  intro local_
  induction local_ with
  | nil => intro offset _; rfl
  | cons l rest ih =>
    intro offset h
    have hrest : ∀ x ∈ rest, equalRound remote x = true → ∀ r,
        graphOf remote x.NodeId = some r →
        me.handle.ReadSnapshotsForNodeRound x.NodeId ((r.Number + 2) % u64) = ([], none) :=
      fun x hx => h x (List.mem_cons_of_mem _ hx)
    by_cases heq : equalRound remote l = true
    · rw [List.filter_cons_of_neg (by simp [heq])]
      rw [← ih offset hrest]
      have hl := h l (List.mem_cons_self _ _) heq
      rw [compareLoop]
      unfold equalRound at heq
      cases hr : graphOf remote l.NodeId with
      | none => rfl
      | some r =>
        rw [hr] at heq
        have hnum : r.Number = l.Number := by simpa using heq
        have hgt : ¬ r.Number > l.Number := by omega
        simp only [hgt, if_false, cacheReadSnapshotsForNodeRound, hl r hr]
    · rw [List.filter_cons_of_pos (by simp [heq])]
      exact compareLoop_cons_congr me (graphOf remote) l rest _ (fun o => ih o hrest) offset

/-- Claim C12, as the code has it: in `compareRoundGraphAndGetTopologicalOffset` a local
node whose remote round equals its local round is probed like every node whose remote
round does not exceed the local one; it contributes nothing when the ledger returns no
snapshot (and no error) for it at round remoteRound+2: for every local graph, remote graph
and ledger with that property the result equals the result obtained with every such node
removed from the local graph. -/
theorem equal_round_node_without_snapshot_contributes_nothing (me : Peer)
    (local_ remote : List SyncPoint)
    (hempty : ∀ l ∈ local_, equalRound remote l = true → ∀ r,
      graphOf remote l.NodeId = some r →
      me.handle.ReadSnapshotsForNodeRound l.NodeId ((r.Number + 2) % u64) = ([], none)) :
    compareRoundGraphAndGetTopologicalOffset me local_ remote
      = compareRoundGraphAndGetTopologicalOffset me
          (local_.filter (fun l => !equalRound remote l)) remote := by
  unfold compareRoundGraphAndGetTopologicalOffset
  exact compareLoop_filter_equalRound me remote local_ 0 hempty

/-- The witness of the specification for claim C12: local {1:10, 2:5}, remote {1:7, 2:5},
first snapshot of node 1 at round 9 of order 142 and nothing in the ledger for node 2 at
round 7: the result is 142, with or without node 2 in the local graph. -/
theorem equal_round_node_without_snapshot_contributes_nothing_witness :
    (∀ l ∈ ([⟨1, 10⟩, ⟨2, 5⟩] : List SyncPoint), equalRound [⟨1, 7⟩, ⟨2, 5⟩] l = true → ∀ r,
        graphOf [⟨1, 7⟩, ⟨2, 5⟩] l.NodeId = some r →
        scenarioLocalPeer.handle.ReadSnapshotsForNodeRound l.NodeId ((r.Number + 2) % u64)
          = ([], none))
      ∧ compareRoundGraphAndGetTopologicalOffset scenarioLocalPeer [⟨1, 10⟩, ⟨2, 5⟩]
          [⟨1, 7⟩, ⟨2, 5⟩] = (142, none)
      ∧ compareRoundGraphAndGetTopologicalOffset scenarioLocalPeer [⟨1, 10⟩]
          [⟨1, 7⟩, ⟨2, 5⟩] = (142, none) := by
  have h : ∀ l ∈ ([⟨1, 10⟩, ⟨2, 5⟩] : List SyncPoint),
      equalRound [⟨1, 7⟩, ⟨2, 5⟩] l = true → ∀ r,
        graphOf [⟨1, 7⟩, ⟨2, 5⟩] l.NodeId = some r →
        scenarioLocalPeer.handle.ReadSnapshotsForNodeRound l.NodeId ((r.Number + 2) % u64)
          = ([], none) := by
    intro l hl heq r hr
    simp only [List.mem_cons, List.mem_singleton, List.not_mem_nil, or_false] at hl
    rcases hl with rfl | rfl
    · exact absurd heq (by decide)
    · have h2 : graphOf [⟨1, 7⟩, ⟨2, 5⟩] 2 = some ⟨2, 5⟩ := by decide
      have : r = ⟨2, 5⟩ := Option.some.inj (hr.symm.trans h2)
      subst this
      decide
  exact ⟨h,
    (equal_round_node_without_snapshot_contributes_nothing scenarioLocalPeer
      [⟨1, 10⟩, ⟨2, 5⟩] [⟨1, 7⟩, ⟨2, 5⟩] h).trans (by decide), by decide⟩

/-- Claim C12 fails as stated: with local {1:10, 2:5}, remote {1:7, 2:5}, the first snapshot
of node 1 at round 9 of order 142 and a snapshot of node 2 at round 7 of order 100, node 2
(remote round equal to local round) is probed at round 7 and the result is 100, while
with node 2 removed from the local graph it is 142. -/
theorem equal_round_node_contributes :
    equalRound [⟨1, 7⟩, ⟨2, 5⟩] ⟨2, 5⟩ = true
      ∧ compareRoundGraphAndGetTopologicalOffset equalRoundPeer [⟨1, 10⟩, ⟨2, 5⟩]
          [⟨1, 7⟩, ⟨2, 5⟩] = (100, none)
      ∧ ([⟨1, 10⟩, ⟨2, 5⟩] : List SyncPoint).filter (fun l => !equalRound [⟨1, 7⟩, ⟨2, 5⟩] l)
          = [⟨1, 10⟩]
      ∧ compareRoundGraphAndGetTopologicalOffset equalRoundPeer [⟨1, 10⟩]
          [⟨1, 7⟩, ⟨2, 5⟩] = (142, none) := by
  refine ⟨by decide, by decide, by decide, by decide⟩

/-! ### A failed send -/

theorem lastOrderOr_lt_of_strictlyAfter (offset : Nat)
    (pre post : List SnapshotWithTopologicalOrder) (s : SnapshotWithTopologicalOrder)
    (h : strictlyAfter offset (pre ++ s :: post)) :
    lastOrderOr offset pre < s.TopologicalOrder := by
  obtain ⟨h1, h2⟩ := h
  unfold lastOrderOr
  cases hl : pre.getLast? with
  | none =>
    simp only
    exact h1 s (by simp)
  | some x =>
    simp only
    have hx : x ∈ pre := List.mem_of_getLast?_eq_some hl
    rw [List.pairwise_append] at h2
    exact h2.2.2 x hx s (List.mem_cons_self _ _)

/-- Claim C16: when `SendSnapshotFinalizationMessage` fails for a snapshot `s` that the loop
of `syncToNeighborSince` reaches and hands to the sender, the pass returns that error at
once; the calls of the sender are those made for the snapshots before `s` followed by the
failed one (none for a later snapshot of the batch), and the returned offset is the value
reached after the preceding snapshot (the input offset when `s` is the first), which under
the contract of the ledger is below the `TopologicalOrder` of `s`. -/
theorem send_failure_returned_at_once (cfg : Config) (me : Peer) (graph : RoundGraph)
    (offset : Nat) (pre post : List SnapshotWithTopologicalOrder)
    (s : SnapshotWithTopologicalOrder) (err : String)
    (hfetch : cacheReadSnapshotsSinceTopology me offset syncLimit = (pre ++ s :: post, none))
    (hreach : (sinceLoop cfg me graph pre ⟨offset, [], []⟩).2 = none)
    (hns : ¬ isStale graph s) (hnf : ¬ isFuture cfg graph s)
    (hfail : me.SendSnapshotFinalizationMessage
      (sentSnapshots (sinceLoop cfg me graph pre ⟨offset, [], []⟩).1.sends) s.Snapshot
        = some err) :
    syncToNeighborSince cfg me graph offset
        = ⟨lastOrderOr offset pre, some (SyncError.external err),
            (sinceLoop cfg me graph pre ⟨offset, [], []⟩).1.sends
              ++ [⟨s, lastOrderOr offset pre⟩],
            (sinceLoop cfg me graph pre ⟨offset, [], []⟩).1.considered ++ [s]⟩
      ∧ ((syncToNeighborSince cfg me graph offset).sends.map (fun c => c.snapshot)).Sublist
          (pre ++ [s])
      ∧ (strictlyAfter offset (pre ++ s :: post) →
          (syncToNeighborSince cfg me graph offset).offset < s.TopologicalOrder) := by
  obtain ⟨pre2, new, _, _, hsends, hsub, _, hdone, _, _⟩ :=
    sinceLoop_trace cfg me graph pre ⟨offset, [], []⟩
  obtain ⟨hpre2, hoff⟩ := hdone hreach
  rw [hpre2] at hsub
  simp only at hoff
  have hloop : sinceLoop cfg me graph (pre ++ s :: post) ⟨offset, [], []⟩
      = (⟨lastOrderOr offset pre,
            (sinceLoop cfg me graph pre ⟨offset, [], []⟩).1.sends
              ++ [⟨s, lastOrderOr offset pre⟩],
            (sinceLoop cfg me graph pre ⟨offset, [], []⟩).1.considered ++ [s]⟩,
          some (SyncError.external err)) := by
    rw [sinceLoop_append cfg me graph (s :: post) pre _ hreach]
    rcases sinceLoop_cons_cases cfg me graph s post
        (sinceLoop cfg me graph pre ⟨offset, [], []⟩).1 with
      ⟨hst, _⟩ | ⟨_, hf, _⟩ | ⟨_, _, err2, he, heq⟩ | ⟨_, _, he, _⟩
    · exact absurd hst hns
    · exact absurd hf hnf
    · rw [hfail] at he
      have : err = err2 := Option.some.inj he
      subst this
      rw [heq, hoff]
    · rw [hfail] at he; simp at he
  obtain ⟨ho, hs, hc, he⟩ := since_of_fetch cfg me graph offset _ hfetch
  rw [hloop] at ho hs hc he
  simp only at ho hs hc he
  have hres : syncToNeighborSince cfg me graph offset
      = ⟨lastOrderOr offset pre, some (SyncError.external err),
          (sinceLoop cfg me graph pre ⟨offset, [], []⟩).1.sends
            ++ [⟨s, lastOrderOr offset pre⟩],
          (sinceLoop cfg me graph pre ⟨offset, [], []⟩).1.considered ++ [s]⟩ := by
    cases hr : syncToNeighborSince cfg me graph offset with
    | mk o e sd cd =>
      rw [hr] at ho hs hc he
      simp only at ho hs hc he
      rw [ho, hs, hc, he]
  refine ⟨hres, ?_, ?_⟩
  · rw [hres]
    simp only [hsends, List.nil_append, List.map_append, List.map_cons, List.map_nil]
    exact List.Sublist.append hsub (List.Sublist.refl _)
  · intro hctr
    rw [hres]
    exact lastOrderOr_lt_of_strictlyAfter offset pre post s hctr

theorem send_failure_returned_at_once_witness :
    cacheReadSnapshotsSinceTopology (peerFailingSecondSend [snapA8, snapA10, snapA5]) 142
        syncLimit = ([snapA8] ++ snapA10 :: [snapA5], none)
      ∧ (sinceLoop cfg3 (peerFailingSecondSend [snapA8, snapA10, snapA5]) graphA7 [snapA8]
          ⟨142, [], []⟩).2 = none
      ∧ ¬ isStale graphA7 snapA10 ∧ ¬ isFuture cfg3 graphA7 snapA10
      ∧ syncToNeighborSince cfg3 (peerFailingSecondSend [snapA8, snapA10, snapA5]) graphA7 142
          = ⟨143, some (SyncError.external "send failed"),
              [⟨snapA8, 142⟩, ⟨snapA10, 143⟩], [snapA8, snapA10]⟩ :=
  ⟨rfl, by decide, by decide, by decide,
    (send_failure_returned_at_once cfg3 (peerFailingSecondSend [snapA8, snapA10, snapA5])
      graphA7 142 [snapA8] [snapA5] snapA10 "send failed" rfl (by decide) (by decide)
      (by decide) (by decide)).1.trans (by decide)⟩

/-! ### Progress of the streaming loop -/

theorem remainingAfter_lt (log : List SnapshotWithTopologicalOrder)
    (x : SnapshotWithTopologicalOrder) (offset : Nat) (hx : x ∈ log)
    (hlt : offset < x.TopologicalOrder) :
    remainingAfter log x.TopologicalOrder < remainingAfter log offset := by
  unfold remainingAfter
  induction log with
  | nil => exact absurd hx (List.not_mem_nil x)
  | cons a tl ih =>
    have hmono : List.countP (fun s => decide (x.TopologicalOrder < s.TopologicalOrder)) tl
        ≤ List.countP (fun s => decide (offset < s.TopologicalOrder)) tl := by
      apply List.countP_mono_left
      intro s _ hs
      simp only [decide_eq_true_eq] at hs ⊢
      omega
    simp only [List.countP_cons, decide_eq_true_eq]
    rcases List.mem_cons.1 hx with rfl | hmem
    · rw [if_neg (by omega), if_pos hlt]
      omega
    · have := ih hmem
      by_cases ha : x.TopologicalOrder < a.TopologicalOrder
      · rw [if_pos ha, if_pos (by omega)]
        omega
      · rw [if_neg ha]
        omega

theorem since_no_error (cfg : Config) (me : Peer) (graph : RoundGraph) (offset : Nat)
    (h : (syncToNeighborSince cfg me graph offset).err = none) :
    (cacheReadSnapshotsSinceTopology me offset syncLimit).2 = none
      ∧ syncLimit ≤ (cacheReadSnapshotsSinceTopology me offset syncLimit).1.length
      ∧ (syncToNeighborSince cfg me graph offset).offset
          = lastOrderOr offset (cacheReadSnapshotsSinceTopology me offset syncLimit).1 := by
  rcases hfetch : cacheReadSnapshotsSinceTopology me offset syncLimit with ⟨ss, e⟩
  cases e with
  | some msg =>
    rw [since_of_fetch_error cfg me graph offset ss msg hfetch] at h
    simp at h
  | none =>
    obtain ⟨ho, _, _, he⟩ := since_of_fetch cfg me graph offset ss hfetch
    obtain ⟨pre, new, _, _, _, _, _, hdone, _, _⟩ :=
      sinceLoop_trace cfg me graph ss ⟨offset, [], []⟩
    rw [he] at h
    cases hl : (sinceLoop cfg me graph ss ⟨offset, [], []⟩).2 with
    | some e2 => rw [hl] at h; simp at h
    | none =>
      rw [hl] at h
      simp only at h
      by_cases hlen : ss.length < syncLimit
      · rw [if_pos hlen] at h; simp at h
      · refine ⟨rfl, by simpa using hlen, ?_⟩
        rw [ho]
        exact (hdone hl).2

theorem since_no_error_advances (cfg : Config) (me : Peer) (graph : RoundGraph) (offset : Nat)
    (hc : strictlyAfter offset (cacheReadSnapshotsSinceTopology me offset syncLimit).1)
    (h : (syncToNeighborSince cfg me graph offset).err = none) :
    ∃ x ∈ (cacheReadSnapshotsSinceTopology me offset syncLimit).1,
      (syncToNeighborSince cfg me graph offset).offset = x.TopologicalOrder
        ∧ offset < x.TopologicalOrder := by
  obtain ⟨_, hlen, hoff⟩ := since_no_error cfg me graph offset h
  cases hl : (cacheReadSnapshotsSinceTopology me offset syncLimit).1.getLast? with
  | none =>
    rw [List.getLast?_eq_none_iff] at hl
    rw [hl] at hlen
    simp [syncLimit] at hlen
  | some x =>
    have hx := List.mem_of_getLast?_eq_some hl
    refine ⟨x, hx, ?_, hc.1 x hx⟩
    rw [hoff]
    unfold lastOrderOr
    rw [hl]

theorem since_error_kind (cfg : Config) (me : Peer) (graph : RoundGraph) (offset : Nat)
    (e : SyncError)
    (hread : (cacheReadSnapshotsSinceTopology me offset syncLimit).2 = none)
    (h : (syncToNeighborSince cfg me graph offset).err = some e) :
    e = SyncError.EOF
      ∨ (∃ s, e = futureError graph s)
      ∨ (∃ msg, e = SyncError.external msg
          ∧ ∃ hist x, me.SendSnapshotFinalizationMessage hist x = some msg) := by
  rcases hfetch : cacheReadSnapshotsSinceTopology me offset syncLimit with ⟨ss, e0⟩
  rw [hfetch] at hread
  simp only at hread
  subst hread
  obtain ⟨_, _, _, he⟩ := since_of_fetch cfg me graph offset ss hfetch
  rw [he] at h
  cases hl : (sinceLoop cfg me graph ss ⟨offset, [], []⟩).2 with
  | none =>
    rw [hl] at h
    simp only at h
    by_cases hlen : ss.length < syncLimit
    · rw [if_pos hlen] at h
      exact Or.inl (Option.some.inj h).symm
    · rw [if_neg hlen] at h; simp at h
  | some e2 =>
    rw [hl] at h
    simp only [Option.some.injEq] at h
    subst h
    rcases sinceLoop_error cfg me graph ss _ e2 hl with
      ⟨s, _, _, _, hes⟩ | ⟨s, _, hist, msg, hm, hes⟩
    · exact Or.inr (Or.inl ⟨s, hes⟩)
    · exact Or.inr (Or.inr ⟨msg, hes, hist, s.Snapshot, hm⟩)

theorem passError_cons (e0 : LoopEnv) (envs : List LoopEnv) (graph : RoundGraph)
    (e : SyncError) (h : passError envs graph e) : passError (e0 :: envs) graph e := by
  rcases h with h | h | ⟨msg, hm, en, hen, hrest⟩
  · exact Or.inl h
  · exact Or.inr (Or.inl h)
  · exact Or.inr (Or.inr ⟨msg, hm, en, List.mem_cons_of_mem _ hen, hrest⟩)

theorem streamingLoop_ends (cfg : Config) (graph : RoundGraph)
    (log : List SnapshotWithTopologicalOrder) :
    ∀ (envs : List LoopEnv) (start : Nat) (calls : List PassResult),
      (∀ e ∈ envs, accessorContract e.me ∧ readsFromLog log e.me) →
      remainingAfter log start < envs.length →
      (streamingLoop cfg graph envs start calls).finished = true
        ∧ (streamingLoop cfg graph envs start calls).calls.length
            ≤ calls.length + remainingAfter log start + 1
        ∧ ((∀ e ∈ envs, e.meClosing = false ∧ e.pClosing = false) → 0 < start →
            ∃ r e, (streamingLoop cfg graph envs start calls).calls.getLast? = some r
              ∧ r.err = some e ∧ passError envs graph e) := by
  intro envs
  induction envs with
  | nil => intro start calls _ hlen; simp at hlen
  | cons e rest ih =>
    intro start calls henv hlen
    have hrest : ∀ x ∈ rest, accessorContract x.me ∧ readsFromLog log x.me :=
      fun x hx => henv x (List.mem_cons_of_mem _ hx)
    obtain ⟨hcontract, hlog⟩ := henv e (List.mem_cons_self _ _)
    by_cases hcond : (!e.meClosing && !e.pClosing && decide (start > 0)) = true
    · cases herr : (syncToNeighborSince cfg e.me graph start).err with
      | some err =>
        have hstep : streamingLoop cfg graph (e :: rest) start calls
            = ⟨start, calls ++ [syncToNeighborSince cfg e.me graph start], true⟩ := by
          rw [streamingLoop, if_pos hcond]
          simp only [herr]
        rw [hstep]
        refine ⟨rfl, by simp only [List.length_append, List.length_singleton]; omega, ?_⟩
        intro _ _
        refine ⟨syncToNeighborSince cfg e.me graph start, err, by simp, herr, ?_⟩
        rcases since_error_kind cfg e.me graph start err (hcontract start syncLimit).1 herr with
          h | h | ⟨msg, hm, hist, x, hs⟩
        · exact Or.inl h
        · exact Or.inr (Or.inl h)
        · exact Or.inr (Or.inr ⟨msg, hm, e, List.mem_cons_self _ _, hist, x, hs⟩)
      | none =>
        have hstep : streamingLoop cfg graph (e :: rest) start calls
            = streamingLoop cfg graph rest (syncToNeighborSince cfg e.me graph start).offset
                (calls ++ [syncToNeighborSince cfg e.me graph start]) := by
          rw [streamingLoop, if_pos hcond]
          simp only [herr]
        rw [hstep]
        obtain ⟨x, hx, hoff, hlt⟩ := since_no_error_advances cfg e.me graph start
          (hcontract start syncLimit).2.2 herr
        have hdec := remainingAfter_lt log x start (hlog start syncLimit x hx) hlt
        rw [← hoff] at hdec
        simp only [List.length_cons] at hlen
        obtain ⟨h1, h2, h3⟩ := ih (syncToNeighborSince cfg e.me graph start).offset
          (calls ++ [syncToNeighborSince cfg e.me graph start]) hrest (by omega)
        refine ⟨h1, ?_, ?_⟩
        · simp only [List.length_append, List.length_singleton] at h2
          omega
        · intro hflags _
          obtain ⟨r, err, hr, he, hk⟩ :=
            h3 (fun y hy => hflags y (List.mem_cons_of_mem _ hy)) (by omega)
          exact ⟨r, err, hr, he, passError_cons e rest graph err hk⟩
    · rw [streamingLoop, if_neg hcond]
      refine ⟨rfl, by simp only; omega, ?_⟩
      intro hflags hpos
      obtain ⟨hf1, hf2⟩ := hflags e (List.mem_cons_self _ _)
      simp [hf1, hf2, hpos] at hcond

theorem peerOfLog_contract (log : List SnapshotWithTopologicalOrder)
    (hlog : log.Pairwise (fun a b => a.TopologicalOrder < b.TopologicalOrder)) :
    accessorContract (peerOfLog log) ∧ readsFromLog log (peerOfLog log) := by
  refine ⟨?_, ?_⟩
  · intro offset limit
    refine ⟨rfl, ?_, peerOfLog_readsStrictlyAfter log hlog offset limit⟩
    simp only [peerOfLog, List.length_take]
    omega
  · intro offset limit s hs
    exact (List.mem_filter.1 (List.mem_of_mem_take hs)).1

/-- Claim C15: under the accessor contract (`ReadSnapshotsSinceTopology` returns at most
200 snapshots, strictly after the offset, in increasing `TopologicalOrder`) and a finite
log from which every read draws its snapshots, a pass of `syncToNeighborSince` that returns
without error returns an offset strictly above its input; and the streaming loop of
`syncToNeighborLoop` ends after at most one pass more than the snapshots of the log that
lie after the starting offset: with no shutdown requested and a positive starting offset
the last pass returns `EOF`, `FUTURE` or the error of a failed send. -/
theorem streaming_loop_progress_and_end (cfg : Config) (graph : RoundGraph)
    (log : List SnapshotWithTopologicalOrder) (me : Peer) (offset : Nat)
    (envs : List LoopEnv) (start : Nat)
    (hme : accessorContract me)
    (henvs : ∀ e ∈ envs, accessorContract e.me ∧ readsFromLog log e.me)
    (hlen : log.length < envs.length) :
    ((syncToNeighborSince cfg me graph offset).err = none →
        offset < (syncToNeighborSince cfg me graph offset).offset)
      ∧ (streamingLoop cfg graph envs start []).finished = true
      ∧ (streamingLoop cfg graph envs start []).calls.length ≤ remainingAfter log start + 1
      ∧ ((∀ e ∈ envs, e.meClosing = false ∧ e.pClosing = false) → 0 < start →
          ∃ r e, (streamingLoop cfg graph envs start []).calls.getLast? = some r
            ∧ r.err = some e ∧ passError envs graph e) := by
  have hrem : remainingAfter log start ≤ log.length := List.countP_le_length _
  obtain ⟨h1, h2, h3⟩ := streamingLoop_ends cfg graph log envs start [] henvs (by omega)
  refine ⟨?_, h1, by simpa using h2, h3⟩
  intro herr
  obtain ⟨x, _, hoff, hlt⟩ := since_no_error_advances cfg me graph offset
    (hme offset syncLimit).2.2 herr
  omega

theorem streaming_loop_progress_and_end_witness :
    accessorContract (peerOfLog exampleLog)
      ∧ (∀ e ∈ exampleEnvs3, accessorContract e.me ∧ readsFromLog exampleLog e.me)
      ∧ exampleLog.length < exampleEnvs3.length
      ∧ (streamingLoop cfg3 graphA7 exampleEnvs3 142 []).finished = true
      ∧ (streamingLoop cfg3 graphA7 exampleEnvs3 142 []).calls.map (fun r => r.err)
          = [some SyncError.EOF] := by
  have hlog : exampleLog.Pairwise (fun a b => a.TopologicalOrder < b.TopologicalOrder) := by
    decide
  have hme := peerOfLog_contract exampleLog hlog
  have henvs : ∀ e ∈ exampleEnvs3, accessorContract e.me ∧ readsFromLog exampleLog e.me := by
    intro e he
    simp only [exampleEnvs3, List.mem_cons, List.mem_singleton, List.not_mem_nil, or_false,
      or_self] at he
    subst he
    exact hme
  exact ⟨hme.1, henvs, by decide,
    (streaming_loop_progress_and_end cfg3 graphA7 exampleLog (peerOfLog exampleLog) 142
      exampleEnvs3 142 hme.1 henvs (by decide)).2.1, by decide⟩

/-! ### The per-peer loop -/

theorem syncCycle_effects_are_sends (cfg : Config) (fuel : Nat) (c : Cycle) :
    ∀ x ∈ (syncCycle cfg fuel c).1, ∃ s, x = Effect.send s := by
  have hstream : ∀ calls, ∀ x ∈ streamEffects calls, ∃ s, x = Effect.send s := by
    intro calls x hx
    obtain ⟨c, _, hc⟩ := List.mem_map.1 hx
    exact ⟨_, hc.symm⟩
  have htop : ∀ traces, ∀ x ∈ topEffects traces, ∃ s, x = Effect.send s := by
    intro traces x hx
    obtain ⟨tr, _, hx2⟩ := List.mem_flatMap.1 hx
    obtain ⟨s, _, hs⟩ := List.mem_map.1 hx2
    exact ⟨s, hs.symm⟩
  intro x hx
  unfold syncCycle at hx
  split at hx
  · simp at hx
  · split at hx
    · simp at hx
    · simp only at hx
      split at hx
      · exact hstream _ x hx
      · split at hx
        · exact hstream _ x hx
        · rcases List.mem_append.1 hx with h | h
          · exact hstream _ x h
          · exact htop _ x h

theorem syncToNeighborLoop_effects (cfg : Config) (fuel : Nat) :
    ∀ (cycles : List Cycle) (eff : List Effect),
      ∃ mid : List Effect, (∀ x ∈ mid, ∃ s, x = Effect.send s)
        ∧ ((syncToNeighborLoop cfg fuel cycles eff).exited = true →
            (syncToNeighborLoop cfg fuel cycles eff).effects
              = eff ++ mid ++ [Effect.timerStop, Effect.closeStn])
        ∧ ((syncToNeighborLoop cfg fuel cycles eff).exited = false →
            (syncToNeighborLoop cfg fuel cycles eff).effects = eff ++ mid) := by
  intro cycles
  induction cycles with
  | nil =>
    intro eff
    exact ⟨[], by simp, by simp [syncToNeighborLoop], by simp [syncToNeighborLoop]⟩
  | cons c rest ih =>
    intro eff
    by_cases hopen : (!c.meClosing && !c.pClosing) = true
    · rcases hcyc : syncCycle cfg fuel c with ⟨e, b⟩
      have hsends : ∀ x ∈ e, ∃ s, x = Effect.send s := by
        have := syncCycle_effects_are_sends cfg fuel c
        rw [hcyc] at this
        exact this
      cases b with
      | true =>
        have hstep : syncToNeighborLoop cfg fuel (c :: rest) eff
            = syncToNeighborLoop cfg fuel rest (eff ++ e) := by
          rw [syncToNeighborLoop, if_pos hopen, hcyc]
        obtain ⟨mid, hmid, h1, h2⟩ := ih (eff ++ e)
        rw [hstep]
        refine ⟨e ++ mid, ?_, ?_, ?_⟩
        · intro x hx
          rcases List.mem_append.1 hx with h | h
          · exact hsends x h
          · exact hmid x h
        · intro hex
          rw [h1 hex]
          simp
        · intro hex
          rw [h2 hex]
          simp
      | false =>
        have hstep : syncToNeighborLoop cfg fuel (c :: rest) eff = ⟨eff ++ e, false⟩ := by
          rw [syncToNeighborLoop, if_pos hopen, hcyc]
        rw [hstep]
        exact ⟨e, hsends, by simp, by simp⟩
    · have hstep : syncToNeighborLoop cfg fuel (c :: rest) eff
          = ⟨eff ++ [Effect.timerStop, Effect.closeStn], true⟩ := by
        rw [syncToNeighborLoop, if_neg hopen]
      rw [hstep]
      exact ⟨[], by simp, by simp, by simp⟩

/-- Claim C14: on every run of `syncToNeighborLoop` that returns, whatever the cycles before
(exit seen at the loop head at once, after a wait for a graph, after a cycle skipped for
want of a gossip session, after streaming or after the top-up), the effects are sends
followed by the deferred `timer.Stop()` and then `close(p.stn)`: the completion channel is
closed exactly once, as the last effect; and a run that has not returned has not closed
it. -/
theorem completion_channel_closed_once_at_exit (cfg : Config) (fuel : Nat)
    (cycles : List Cycle) :
    ((syncToNeighborLoop cfg fuel cycles []).exited = true →
        (∃ sends : List Effect, (∀ x ∈ sends, ∃ s, x = Effect.send s)
          ∧ (syncToNeighborLoop cfg fuel cycles []).effects
              = sends ++ [Effect.timerStop, Effect.closeStn])
        ∧ (syncToNeighborLoop cfg fuel cycles []).effects.count Effect.closeStn = 1
        ∧ (syncToNeighborLoop cfg fuel cycles []).effects.getLast? = some Effect.closeStn)
      ∧ ((syncToNeighborLoop cfg fuel cycles []).exited = false →
        Effect.closeStn ∉ (syncToNeighborLoop cfg fuel cycles []).effects) := by
  obtain ⟨mid, hmid, h1, h2⟩ := syncToNeighborLoop_effects cfg fuel cycles []
  have hno : Effect.closeStn ∉ mid := by
    intro hmem
    obtain ⟨s, hs⟩ := hmid _ hmem
    cases hs
  refine ⟨?_, ?_⟩
  · intro hex
    have heq := h1 hex
    simp only [List.nil_append] at heq
    refine ⟨⟨mid, hmid, heq⟩, ?_, ?_⟩
    · rw [heq, List.count_append, List.count_eq_zero_of_not_mem hno]
      decide
    · rw [heq]
      simp
  · intro hex
    have heq := h2 hex
    simp only [List.nil_append] at heq
    rw [heq]
    exact hno

theorem completion_channel_closed_once_at_exit_witness :
    (syncToNeighborLoop cfg3 7 [exampleCycle, closingCycle] []).exited = true
      ∧ (syncToNeighborLoop cfg3 7 [exampleCycle, closingCycle] []).effects
          = [Effect.send ⟨1, 8, 0⟩, Effect.send ⟨1, 9, 0⟩, Effect.timerStop, Effect.closeStn]
      ∧ (syncToNeighborLoop cfg3 7 [exampleCycle, closingCycle] []).effects.count
          Effect.closeStn = 1 :=
  ⟨by decide, by decide,
    ((completion_channel_closed_once_at_exit cfg3 7 [exampleCycle, closingCycle]).1
      (by decide)).2.1⟩

theorem getSyncPointOffsetLoop_closing (more : List SyncEvent) :
    ∀ (pushes : List (Peer × List SyncPoint)) (st : Option RoundGraph × Nat),
      getSyncPointOffsetLoop (pushEvents pushes ++ SyncEvent.closing :: more) st
        = some (none, 0) := by
  intro pushes
  induction pushes with
  | nil => intro st; rfl
  | cons p rest ih =>
    intro st
    simp only [pushEvents, List.map_cons, List.cons_append, getSyncPointOffsetLoop]
    exact ih _

theorem streamingLoop_zero_offset (cfg : Config) (graph : RoundGraph) (e : LoopEnv)
    (rest : List LoopEnv) (calls : List PassResult) :
    streamingLoop cfg graph (e :: rest) 0 calls = ⟨0, calls, true⟩ := by
  rw [streamingLoop, if_neg (by simp)]

theorem syncCycle_closing (cfg : Config) (fuel : Nat) (c : Cycle)
    (h : getSyncPointOffset c.events = some (none, 0)) :
    syncCycle cfg fuel c = ([], true) := by
  unfold syncCycle
  rw [h]
  simp only
  by_cases hg : (!c.gossip) = true
  · rw [if_pos hg]
  · rw [if_neg hg, streamingLoop_zero_offset]
    simp [streamEffects, allSends]

theorem streamingLoop_closing (cfg : Config) (graph : RoundGraph) (e : LoopEnv)
    (rest : List LoopEnv) (offset : Nat) (calls : List PassResult)
    (h : e.meClosing = true ∨ e.pClosing = true) :
    streamingLoop cfg graph (e :: rest) offset calls = ⟨offset, calls, true⟩ := by
  rw [streamingLoop, if_neg]
  rcases h with h | h <;> simp [h]

theorem syncCycle_flag_at_streaming (cfg : Config) (fuel : Nat) (c : Cycle) (g : RoundGraph)
    (offset : Nat) (hgossip : c.gossip = true)
    (hget : getSyncPointOffset c.events = some (some g, offset))
    (hflag : c.streamFirst.meClosing = true ∨ c.streamFirst.pClosing = true) :
    syncCycle cfg fuel c
      = (topEffects (toppingUp cfg c.top g fuel).1, (toppingUp cfg c.top g fuel).2) := by
  unfold syncCycle
  rw [hget]
  simp only [hgossip, Bool.not_true, Bool.false_eq_true, if_false, Option.getD_some]
  rw [streamingLoop_closing cfg g c.streamFirst c.streamRest offset [] hflag]
  simp [streamEffects, allSends]

/-- Claim C18, as the code has it: a shutdown flag found set at the head of
`syncToNeighborLoop` ends the loop with no send (only the deferred `timer.Stop()` and
`close(p.stn)` follow); a flag found set inside `getSyncPointOffset` makes that call return
no graph and offset 0, even after graphs were pushed earlier in the cycle, so that the
cycle performs neither streaming nor top-up (it has no effect), and, the flag staying set,
the loop exits at its next head, again with no send. A flag first found set at the
condition of the streaming loop ends that loop without a further call of
`syncToNeighborSince`, but the cycle, having obtained a graph, still performs the top-up:
its effects are exactly the sends of the top-up. -/
theorem shutdown_observed_no_send (cfg : Config) (fuel : Nat) (c0 c c2 : Cycle)
    (rest rest2 : List Cycle) (eff : List Effect) (pushes : List (Peer × List SyncPoint))
    (more : List SyncEvent)
    (hhead : c0.meClosing = true ∨ c0.pClosing = true)
    (hopen : c.meClosing = false ∧ c.pClosing = false)
    (hinside : c.events = pushEvents pushes ++ SyncEvent.closing :: more)
    (hstays : c2.meClosing = true ∨ c2.pClosing = true) :
    syncToNeighborLoop cfg fuel (c0 :: rest) eff
        = ⟨eff ++ [Effect.timerStop, Effect.closeStn], true⟩
      ∧ getSyncPointOffset c.events = some (none, 0)
      ∧ syncCycle cfg fuel c = ([], true)
      ∧ syncToNeighborLoop cfg fuel (c :: c2 :: rest2) eff
          = ⟨eff ++ [Effect.timerStop, Effect.closeStn], true⟩
      ∧ (∀ (graph : RoundGraph) (e : LoopEnv) (envs : List LoopEnv) (offset : Nat)
          (calls : List PassResult), (e.meClosing = true ∨ e.pClosing = true) →
          streamingLoop cfg graph (e :: envs) offset calls = ⟨offset, calls, true⟩)
      ∧ (∀ (c3 : Cycle) (g : RoundGraph) (offset : Nat), c3.gossip = true →
          getSyncPointOffset c3.events = some (some g, offset) →
          (c3.streamFirst.meClosing = true ∨ c3.streamFirst.pClosing = true) →
          syncCycle cfg fuel c3
            = (topEffects (toppingUp cfg c3.top g fuel).1,
                (toppingUp cfg c3.top g fuel).2)) := by
  have hclosed : ∀ (x : Cycle) (xs : List Cycle) (ef : List Effect),
      (x.meClosing = true ∨ x.pClosing = true) →
      syncToNeighborLoop cfg fuel (x :: xs) ef
        = ⟨ef ++ [Effect.timerStop, Effect.closeStn], true⟩ := by
    intro x xs ef hx
    rw [syncToNeighborLoop, if_neg]
    rcases hx with hx | hx <;> simp [hx]
  have hget : getSyncPointOffset c.events = some (none, 0) := by
    unfold getSyncPointOffset
    rw [hinside]
    exact getSyncPointOffsetLoop_closing more pushes _
  have hcyc := syncCycle_closing cfg fuel c hget
  refine ⟨hclosed c0 rest eff hhead, hget, hcyc, ?_,
    fun graph e envs offset calls h => streamingLoop_closing cfg graph e envs offset calls h,
    fun c3 g offset h1 h2 h3 => syncCycle_flag_at_streaming cfg fuel c3 g offset h1 h2 h3⟩
  rw [syncToNeighborLoop, if_pos (by simp [hopen.1, hopen.2]), hcyc]
  simp only [List.append_nil]
  exact hclosed c2 rest2 eff hstays

theorem shutdown_observed_no_send_witness :
    (closingCycle.meClosing = true ∨ closingCycle.pClosing = true)
      ∧ (closingInsideCycle.meClosing = false ∧ closingInsideCycle.pClosing = false)
      ∧ closingInsideCycle.events
          = pushEvents [(scenarioLocalPeer, [⟨1, 7⟩])] ++ SyncEvent.closing :: []
      ∧ syncToNeighborLoop cfg3 7 [closingInsideCycle, closingCycle] []
          = ⟨[Effect.timerStop, Effect.closeStn], true⟩ :=
  ⟨Or.inl rfl, ⟨rfl, rfl⟩, rfl,
    (shutdown_observed_no_send cfg3 7 closingCycle closingInsideCycle closingCycle [] [] []
      [(scenarioLocalPeer, [⟨1, 7⟩])] [] (Or.inl rfl) ⟨rfl, rfl⟩ rfl (Or.inl rfl)).2.2.2.1⟩

/-- Claim C18 fails as stated: in a cycle where the peer pushed {1:7} and the local
shutdown flag is first found set at the condition of the streaming loop (line 120),
streaming is skipped but the top-up still runs and sends the snapshot of node 1 at round 9;
the loop, finding the flag still set at its next head, exits only after that send. -/
theorem shutdown_seen_at_streaming_still_sends :
    flagAtStreamCycle.streamFirst.meClosing = true
      ∧ (getSyncPointOffset flagAtStreamCycle.events).map Prod.snd = some 142
      ∧ syncCycle cfg3 7 flagAtStreamCycle = ([Effect.send ⟨1, 9, 0⟩], true)
      ∧ syncToNeighborLoop cfg3 7 [flagAtStreamCycle, closingCycle] []
          = ⟨[Effect.send ⟨1, 9, 0⟩, Effect.timerStop, Effect.closeStn], true⟩ := by
  refine ⟨rfl, by decide, by decide, by decide⟩

/-! ### The top-up and failed reads -/

theorem headRoundLoop_withoutReadErrors (me : Peer) (nodeId : Hash) (localFinal bound : Nat) :
    ∀ (fuel i : Nat) (tr : HeadTrace),
      headRoundLoop me nodeId localFinal bound fuel i tr
        = headRoundLoop (withoutReadErrors me) nodeId localFinal bound fuel i tr := by
  intro fuel
  induction fuel with
  | zero => intro i tr; rfl
  | succ f ih =>
    intro i tr
    rw [headRoundLoop, headRoundLoop]
    by_cases h : i ≤ bound
    · rw [if_pos h, if_pos h]
      exact ih _ _
    · rw [if_neg h, if_neg h]

theorem syncHeadRoundToRemote_withoutReadErrors (cfg : Config) (me : Peer)
    (local_ remote : RoundGraph) (nodeId : Hash) (fuel : Nat) :
    syncHeadRoundToRemote cfg me local_ remote nodeId fuel
      = syncHeadRoundToRemote cfg (withoutReadErrors me) local_ remote nodeId fuel := by
  unfold syncHeadRoundToRemote
  simp only [headRoundLoop_withoutReadErrors me]

theorem toppingUpLoop_withoutReadErrors (cfg : Config) (me : Peer)
    (local_ graph : RoundGraph) (fuel : Nat) :
    ∀ (nodes : List Hash) (done : List HeadTrace),
      toppingUpLoop cfg me local_ graph fuel nodes done
        = toppingUpLoop cfg (withoutReadErrors me) local_ graph fuel nodes done := by
  intro nodes
  induction nodes with
  | nil => intro done; rfl
  | cons n rest ih =>
    intro done
    rw [toppingUpLoop, toppingUpLoop, ← syncHeadRoundToRemote_withoutReadErrors]
    cases syncHeadRoundToRemote cfg me local_ graph n fuel with
    | none => rfl
    | some tr => exact ih _

theorem syncHeadRoundToRemote_eq_topUpTrace (cfg : Config) (me : Peer)
    (local_ remote : RoundGraph) (nodeId : Hash) (fuel : Nat)
    (hfits : remoteRoundOf remote nodeId + cfg.SnapshotReferenceThreshold + 3 < u64)
    (hfuel : cfg.SnapshotReferenceThreshold + 4 ≤ fuel) :
    syncHeadRoundToRemote cfg me local_ remote nodeId fuel
      = some (topUpTrace cfg me local_ remote nodeId) := by
  unfold syncHeadRoundToRemote topUpTrace
  by_cases hgt : remoteRoundOf remote nodeId > remoteRoundOf local_ nodeId
  · simp only [hgt, if_true]
  · have hmod : (remoteRoundOf remote nodeId + cfg.SnapshotReferenceThreshold + 2) % u64
        = remoteRoundOf remote nodeId + cfg.SnapshotReferenceThreshold + 2 :=
      Nat.mod_eq_of_lt (by omega)
    simp only [hmod]
    rw [if_neg hgt, if_neg hgt]
    rw [headRoundLoop_runs me nodeId _ _ (by omega) (cfg.SnapshotReferenceThreshold + 3)
      (remoteRoundOf remote nodeId) fuel ⟨[], []⟩ (by omega) (by omega)]
    simp [headRoundTrace]

theorem toppingUpLoop_all_nodes (cfg : Config) (me : Peer) (local_ graph : RoundGraph)
    (fuel : Nat) (hfuel : cfg.SnapshotReferenceThreshold + 4 ≤ fuel) :
    ∀ (nodes : List Hash) (done : List HeadTrace),
      (∀ n ∈ nodes, remoteRoundOf graph n + cfg.SnapshotReferenceThreshold + 3 < u64) →
      toppingUpLoop cfg me local_ graph fuel nodes done
        = (done ++ nodes.map (topUpTrace cfg me local_ graph), true) := by
  intro nodes
  induction nodes with
  | nil => intro done _; simp [toppingUpLoop]
  | cons n rest ih =>
    intro done h
    rw [toppingUpLoop, syncHeadRoundToRemote_eq_topUpTrace cfg me local_ graph n fuel
      (h n (List.mem_cons_self _ _)) hfuel]
    simp only
    rw [ih _ (fun x hx => h x (List.mem_cons_of_mem _ hx))]
    simp

theorem flatMap_filter_ne {α : Type} (f : Nat → List α) (k : Nat) (hk : f k = []) :
    ∀ l : List Nat, l.flatMap f = (l.filter (fun i => decide (i ≠ k))).flatMap f := by
  intro l
  induction l with
  | nil => rfl
  | cons a tl ih =>
    by_cases ha : a = k
    · subst ha
      rw [List.flatMap_cons, hk, List.filter_cons_of_neg (by simp), List.nil_append, ih]
    · rw [List.flatMap_cons, List.filter_cons_of_pos (by simpa using ha), List.flatMap_cons, ih]

/-- Claim C17, as the code has it: the head-round top-up is best-effort. In
`syncHeadRoundToRemote` the error of a read is discarded and never stops the pass: the
function does exactly what it does when every read returns the same snapshots without
error, so the snapshots a failed read returns are sent (none when it returns none), and so
does the top-up step over the membership list. When remoteFinal + Threshold + 2 is below
`2^64 - 1` and remoteFinal does not exceed localFinal, every round of the window is
requested, whatever reads fail, and the sends are the snapshots of all the reads, a round
whose read returned no snapshot left out; when that bound holds for every node of the
membership list, the top-up step processes every node of the list, in order. -/
theorem top_up_continues_after_fetch_error (cfg : Config) (me : Peer)
    (local_ remote graph : RoundGraph) (nodeId : Hash) :
    (∀ fuel, syncHeadRoundToRemote cfg me local_ remote nodeId fuel
        = syncHeadRoundToRemote cfg (withoutReadErrors me) local_ remote nodeId fuel)
      ∧ (∀ fuel, toppingUp cfg me graph fuel = toppingUp cfg (withoutReadErrors me) graph fuel)
      ∧ (∀ fuel, remoteRoundOf remote nodeId + cfg.SnapshotReferenceThreshold + 3 < u64 →
          cfg.SnapshotReferenceThreshold + 4 ≤ fuel →
          remoteRoundOf remote nodeId ≤ remoteRoundOf local_ nodeId →
          ∃ tr, syncHeadRoundToRemote cfg me local_ remote nodeId fuel = some tr
            ∧ tr.requests.map (fun c => c.number)
                = List.range' (remoteRoundOf remote nodeId) (cfg.SnapshotReferenceThreshold + 3)
            ∧ tr.sent
                = (List.range' (remoteRoundOf remote nodeId)
                    (cfg.SnapshotReferenceThreshold + 3)).flatMap
                    (fun i => (me.handle.ReadSnapshotsForNodeRound nodeId i).1.map
                      (fun s => s.Snapshot))
            ∧ ∀ k, (me.handle.ReadSnapshotsForNodeRound nodeId k).1 = [] →
                tr.sent
                  = ((List.range' (remoteRoundOf remote nodeId)
                      (cfg.SnapshotReferenceThreshold + 3)).filter
                        (fun i => decide (i ≠ k))).flatMap
                      (fun i => (me.handle.ReadSnapshotsForNodeRound nodeId i).1.map
                        (fun s => s.Snapshot)))
      ∧ (∀ fuel, (∀ n ∈ me.handle.ReadAllNodes,
            remoteRoundOf graph n + cfg.SnapshotReferenceThreshold + 3 < u64) →
          cfg.SnapshotReferenceThreshold + 4 ≤ fuel →
          toppingUp cfg me graph fuel
            = (me.handle.ReadAllNodes.map
                (topUpTrace cfg me (graphOf me.handle.BuildGraph) graph), true)) := by
  refine ⟨?_, ?_, ?_, ?_⟩
  · intro f
    exact syncHeadRoundToRemote_withoutReadErrors cfg me local_ remote nodeId f
  · intro f
    unfold toppingUp
    exact toppingUpLoop_withoutReadErrors cfg me _ graph f _ []
  · intro fuel hfits hfuel hle
    have hsent : (topUpTrace cfg me local_ remote nodeId).sent
        = (List.range' (remoteRoundOf remote nodeId)
            (cfg.SnapshotReferenceThreshold + 3)).flatMap
            (fun i => (me.handle.ReadSnapshotsForNodeRound nodeId i).1.map
              (fun s => s.Snapshot)) := by
      unfold topUpTrace
      rw [if_neg (by omega)]
      rfl
    refine ⟨_, syncHeadRoundToRemote_eq_topUpTrace cfg me local_ remote nodeId fuel hfits hfuel,
      ?_, hsent, ?_⟩
    · unfold topUpTrace
      rw [if_neg (by omega)]
      simp [headRoundTrace, Function.comp_def]
    · intro k hk
      rw [hsent]
      exact flatMap_filter_ne _ k (by rw [hk]; rfl) _
  · intro fuel hall hfuel
    unfold toppingUp
    simp only
    rw [toppingUpLoop_all_nodes cfg me _ graph fuel hfuel _ [] hall]
    simp

theorem top_up_continues_after_fetch_error_witness :
    remoteRoundOf (graphOf [⟨1, 7⟩, ⟨2, 7⟩]) 2 + cfg3.SnapshotReferenceThreshold + 3 < u64
      ∧ cfg3.SnapshotReferenceThreshold + 4 ≤ 7
      ∧ remoteRoundOf (graphOf [⟨1, 7⟩, ⟨2, 7⟩]) 2
          ≤ remoteRoundOf (graphOf failingPeer.handle.BuildGraph) 2
      ∧ failingPeer.handle.ReadSnapshotsForNodeRound 2 9 = ([], some "lookup failed")
      ∧ (∃ tr, syncHeadRoundToRemote cfg3 failingPeer (graphOf failingPeer.handle.BuildGraph)
            (graphOf [⟨1, 7⟩, ⟨2, 7⟩]) 2 7 = some tr
          ∧ tr.requests.map (fun c => c.number) = [7, 8, 9, 10, 11, 12])
      ∧ (∀ n ∈ failingPeer.handle.ReadAllNodes,
          remoteRoundOf (graphOf [⟨1, 7⟩, ⟨2, 7⟩]) n + cfg3.SnapshotReferenceThreshold + 3 < u64)
      ∧ toppingUp cfg3 failingPeer (graphOf [⟨1, 7⟩, ⟨2, 7⟩]) 7
          = (failingPeer.handle.ReadAllNodes.map
              (topUpTrace cfg3 failingPeer (graphOf failingPeer.handle.BuildGraph)
                (graphOf [⟨1, 7⟩, ⟨2, 7⟩])), true)
      ∧ (toppingUp cfg3 failingPeer (graphOf [⟨1, 7⟩, ⟨2, 7⟩]) 7).1.map
            (fun tr => tr.requests.map (fun c => c.number))
          = [[7, 8, 9, 10, 11, 12], [7, 8, 9, 10, 11, 12]] := by
  have h := top_up_continues_after_fetch_error cfg3 failingPeer
    (graphOf failingPeer.handle.BuildGraph) (graphOf [⟨1, 7⟩, ⟨2, 7⟩])
    (graphOf [⟨1, 7⟩, ⟨2, 7⟩]) 2
  obtain ⟨tr, h1, h2, _⟩ := h.2.2.1 7 (by decide) (by decide) (by decide)
  exact ⟨by decide, by decide, by decide, by decide, ⟨tr, h1, h2.trans (by decide)⟩,
    by decide, h.2.2.2 7 (by decide) (by decide), by decide⟩

/-- Claim C17 fails as stated: a read that fails is not thereby without sends. With
threshold 3, remote round 7 and local round 10 for node 1, the read of node 1 at round 9
returns a snapshot together with an error, and `syncHeadRoundToRemote` sends that snapshot
(the rounds 7 to 12 are all requested). And with remote and local round `2^64 - 6` for
node 1, where the read at that round fails, the loop bound is `2^64 - 1`, the top-up of
node 1 never returns, and node 2 of the membership list is never processed. -/
theorem failed_read_snapshots_are_sent :
    (errorWithSnapshotPeer.handle.ReadSnapshotsForNodeRound 1 9).2 = some "read failed"
      ∧ syncHeadRoundToRemote cfg3 errorWithSnapshotPeer
            (graphOf errorWithSnapshotPeer.handle.BuildGraph) graphA7 1 7
          = some ⟨[⟨1, 7, true⟩, ⟨1, 8, true⟩, ⟨1, 9, true⟩, ⟨1, 10, true⟩, ⟨1, 11, false⟩,
                    ⟨1, 12, false⟩], [⟨1, 9, 0⟩]⟩
      ∧ (wrapPeer.handle.ReadSnapshotsForNodeRound 1 18446744073709551610).2
          = some "read failed"
      ∧ wrapPeer.handle.ReadAllNodes = [1, 2]
      ∧ ∀ fuel, toppingUp cfg3 wrapPeer wrapGraph fuel = ([], false) := by
  refine ⟨by decide, by decide, by decide, rfl, ?_⟩
  intro fuel
  have hbound : (remoteRoundOf wrapGraph 1 + cfg3.SnapshotReferenceThreshold + 2) % u64
      = u64 - 1 := by decide
  have hle : ¬ remoteRoundOf wrapGraph 1 > remoteRoundOf (graphOf wrapPeer.handle.BuildGraph) 1 := by
    decide
  have hhead : syncHeadRoundToRemote cfg3 wrapPeer (graphOf wrapPeer.handle.BuildGraph)
      wrapGraph 1 fuel = none := by
    unfold syncHeadRoundToRemote
    simp only
    rw [if_neg hle, hbound]
    exact headRoundLoop_never_ends wrapPeer 1 _ fuel _ _ (by decide)
  have hnodes : wrapPeer.handle.ReadAllNodes = [1, 2] := rfl
  unfold toppingUp
  simp only [hnodes]
  rw [toppingUpLoop, hhead]

end Mixin.Network

namespace Mixin.Polygon

/-! ### Hexadecimal decoding -/

theorem fromHexChar_some (c a : Nat) (h : fromHexChar c = some a) : isHex c ∧ a < 16 := by
  unfold fromHexChar at h
  unfold isHex isLowerHex isUpperHex
  split_ifs at h with h1 h2 h3
  · simp only [Option.some.injEq] at h; omega
  · simp only [Option.some.injEq] at h; omega
  · simp only [Option.some.injEq] at h; omega

theorem fromHexChar_of_isHex (c : Nat) (h : isHex c) : ∃ a, fromHexChar c = some a := by
  unfold isHex isLowerHex isUpperHex at h
  unfold fromHexChar
  split_ifs with h1 h2 h3
  · exact ⟨_, rfl⟩
  · exact ⟨_, rfl⟩
  · exact ⟨_, rfl⟩
  · omega

theorem hexDecodeString_ok :
    ∀ (n : Nat) (l b : List Nat), l.length ≤ n → hexDecodeString l = (b, none) →
      (∀ c ∈ l, isHex c) ∧ l.length = 2 * b.length := by
  intro n
  induction n with
  | zero =>
    intro l b hl h
    have : l = [] := List.length_eq_zero.1 (by omega)
    subst this
    simp only [hexDecodeString, Prod.mk.injEq] at h
    obtain ⟨rfl, _⟩ := h
    simp
  | succ n ih =>
    intro l b hl h
    match l, hl, h with
    | [], _, h =>
      simp only [hexDecodeString, Prod.mk.injEq] at h
      obtain ⟨rfl, _⟩ := h
      simp
    | [p], _, h =>
      simp only [hexDecodeString] at h
      cases hp : fromHexChar p with
      | none => rw [hp] at h; simp at h
      | some a => rw [hp] at h; simp at h
    | p :: q :: rest, hl, h =>
      simp only [hexDecodeString] at h
      cases hp : fromHexChar p with
      | none => rw [hp] at h; simp at h
      | some a =>
        cases hq : fromHexChar q with
        | none => rw [hp, hq] at h; simp at h
        | some d =>
          rw [hp, hq] at h
          simp only [Prod.mk.injEq] at h
          obtain ⟨hb, he⟩ := h
          have hrest : hexDecodeString rest = ((hexDecodeString rest).1, none) := by
            rw [← he]
          simp only [List.length_cons] at hl
          obtain ⟨h1, h2⟩ := ih rest _ (by omega) hrest
          refine ⟨?_, ?_⟩
          · intro c hc
            simp only [List.mem_cons] at hc
            rcases hc with rfl | rfl | hc
            · exact (fromHexChar_some _ _ hp).1
            · exact (fromHexChar_some _ _ hq).1
            · exact h1 c hc
          · rw [← hb]
            simp only [List.length_cons]
            omega

theorem hexDecodeString_of_isHex :
    ∀ (n : Nat) (l : List Nat), l.length = 2 * n → (∀ c ∈ l, isHex c) →
      ∃ b, hexDecodeString l = (b, none) ∧ b.length = n := by
  intro n
  induction n with
  | zero =>
    intro l hl _
    have : l = [] := List.length_eq_zero.1 (by omega)
    subst this
    exact ⟨[], rfl, rfl⟩
  | succ n ih =>
    intro l hl h
    match l, hl, h with
    | [], hl, _ => simp at hl
    | [p], hl, _ => simp at hl; omega
    | p :: q :: rest, hl, h =>
      simp only [List.length_cons] at hl
      obtain ⟨a, ha⟩ := fromHexChar_of_isHex p (h p (by simp))
      obtain ⟨d, hd⟩ := fromHexChar_of_isHex q (h q (by simp))
      obtain ⟨b, hb, hlen⟩ := ih rest (by omega)
        (fun c hc => h c (List.mem_cons_of_mem _ (List.mem_cons_of_mem _ hc)))
      refine ⟨(a * 16 + d) :: b, ?_, by simp [hlen]⟩
      simp only [hexDecodeString, ha, hd, hb]

/-! ### `strings.ToLower` on ASCII strings -/

theorem map_lowerByte_eq_self (s : List Nat) (h : ∀ c ∈ s, ¬ (65 ≤ c ∧ c ≤ 90)) :
    s.map lowerByte = s := by
  induction s with
  | nil => rfl
  | cons c tl ih =>
    rw [List.map_cons, ih (fun d hd => h d (List.mem_cons_of_mem _ hd))]
    have hc := h c (List.mem_cons_self _ _)
    simp only [lowerByte, if_neg hc]

theorem ToLower_ascii (x : Externals) (s : List Nat) (h : ∀ c ∈ s, c < 128) :
    ToLower x s = s.map lowerByte := by
  unfold ToLower
  rw [if_pos (by simpa using h)]
  by_cases hu : s.any (fun c => decide (65 ≤ c ∧ c ≤ 90)) = true
  · rw [if_pos hu]
  · rw [if_neg hu]
    symm
    apply map_lowerByte_eq_self
    intro c hc hcu
    apply hu
    rw [List.any_eq_true]
    exact ⟨c, hc, by simpa using hcu⟩

theorem eq_map_lowerByte_iff (s : List Nat) :
    s = s.map lowerByte ↔ ∀ c ∈ s, ¬ (65 ≤ c ∧ c ≤ 90) := by
  constructor
  · intro h
    induction s with
    | nil => intro c hc; exact absurd hc (List.not_mem_nil c)
    | cons a tl ih =>
      rw [List.map_cons] at h
      have h1 : a = lowerByte a := (List.cons.inj h).1
      have h2 : tl = tl.map lowerByte := (List.cons.inj h).2
      intro c hc
      rcases List.mem_cons.1 hc with rfl | hc
      · intro hu
        unfold lowerByte at h1
        rw [if_pos hu] at h1
        omega
      · exact ih h2 c hc
  · intro h
    exact (map_lowerByte_eq_self s h).symm

/-! ### `VerifyAssetKey` -/

theorem VerifyAssetKey_eq_none_iff (x : Externals) (k : List Nat) :
    VerifyAssetKey x k = none ↔
      k.length = 42 ∧ k.take 2 = bytesOf "0x" ∧ k = ToLower x k
        ∧ ∃ b, hexDecodeString (k.drop 2) = (b, none) ∧ b.length = 20 := by
  have hpre : HasPrefix k (bytesOf "0x") = true ↔ k.take 2 = bytesOf "0x" := by
    unfold HasPrefix
    simp only [decide_eq_true_eq]
    exact Iff.rfl
  unfold VerifyAssetKey
  by_cases h1 : k.length ≠ 42
  · rw [if_pos h1]
    simp only [reduceCtorEq, false_iff, not_and]
    intro h; exact absurd h h1
  · rw [if_neg h1]
    by_cases h2 : (!HasPrefix k (bytesOf "0x")) = true
    · rw [if_pos h2]
      simp only [reduceCtorEq, false_iff, not_and]
      intro _ h
      rw [← hpre] at h
      simp [h] at h2
    · rw [if_neg h2]
      have h2' : k.take 2 = bytesOf "0x" := by
        rw [← hpre]
        simpa using h2
      by_cases h3 : k ≠ ToLower x k
      · rw [if_pos h3]
        simp only [reduceCtorEq, false_iff, not_and]
        intro _ _ h; exact absurd h h3
      · rw [if_neg h3]
        have h1' : k.length = 42 := by omega
        have h3' : k = ToLower x k := by
          by_contra hne; exact h3 hne
        rcases hd : hexDecodeString (k.drop 2) with ⟨b, e⟩
        cases e with
        | some e =>
          simp only [reduceCtorEq, false_iff, not_and, not_exists]
          intro _ _ _ b2 hb2
          simp at hb2
        | none =>
          simp only
          by_cases h4 : b.length ≠ 20
          · rw [if_pos h4]
            simp only [reduceCtorEq, false_iff, not_and, not_exists]
            intro _ _ _ b2 hb2
            simp only [Prod.mk.injEq, and_true] at hb2
            rw [← hb2]
            exact h4
          · rw [if_neg h4]
            simp only [true_iff]
            exact ⟨h1', h2', h3', b, rfl, by omega⟩

theorem take_drop_ascii (k : List Nat) (hpre : k.take 2 = bytesOf "0x")
    (hrest : ∀ c ∈ k.drop 2, isHex c) :
    ∀ c ∈ k, c < 128 ∧ (c = 48 ∨ c = 120 ∨ isHex c) := by
  intro c hc
  rw [← List.take_append_drop 2 k, List.mem_append] at hc
  rcases hc with hc | hc
  · rw [hpre] at hc
    have : c = 48 ∨ c = 120 := by
      simpa [bytesOf] using hc
    rcases this with rfl | rfl
    · exact ⟨by decide, Or.inl rfl⟩
    · exact ⟨by decide, Or.inr (Or.inl rfl)⟩
  · have := hrest c hc
    refine ⟨?_, Or.inr (Or.inr this)⟩
    unfold isHex isLowerHex isUpperHex at this
    omega

theorem VerifyAssetKey_accepts_iff (x : Externals) (k : List Nat) :
    VerifyAssetKey x k = none ↔ lowerHexKey k := by
  rw [VerifyAssetKey_eq_none_iff]
  unfold lowerHexKey
  constructor
  · rintro ⟨hlen, hpre, hlow, b, hb, _⟩
    refine ⟨hlen, hpre, ?_⟩
    obtain ⟨hhex, _⟩ := hexDecodeString_ok _ _ b (Nat.le_refl _) hb
    have hascii := take_drop_ascii k hpre hhex
    rw [ToLower_ascii x k (fun c hc => (hascii c hc).1), eq_map_lowerByte_iff] at hlow
    intro c hc
    have hk : c ∈ k := List.mem_of_mem_drop hc
    have h1 := hhex c hc
    have h2 := hlow c hk
    unfold isHex isUpperHex at h1
    rcases h1 with h1 | h1
    · exact h1
    · exact absurd ⟨h1.1, by omega⟩ h2
  · rintro ⟨hlen, hpre, hrest⟩
    have hhex : ∀ c ∈ k.drop 2, isHex c := fun c hc => Or.inl (hrest c hc)
    have hascii := take_drop_ascii k hpre hhex
    refine ⟨hlen, hpre, ?_, ?_⟩
    · rw [ToLower_ascii x k (fun c hc => (hascii c hc).1), eq_map_lowerByte_iff]
      intro c hc
      rw [← List.take_append_drop 2 k, List.mem_append] at hc
      rcases hc with hc | hc
      · rw [hpre] at hc
        have : c = 48 ∨ c = 120 := by simpa [bytesOf] using hc
        omega
      · have := hrest c hc
        unfold isLowerHex at this
        omega
    · exact hexDecodeString_of_isHex 20 (k.drop 2) (by simp [hlen]) hhex

/-- Claim C19: `VerifyAssetKey` accepts a string if and only if it is exactly 42 bytes
long, starts with "0x" and its remaining 40 bytes are all lower-case hexadecimal digits
(0-9, a-f); every other string is rejected with an error, in particular every key that
contains an upper-case hexadecimal digit. -/
theorem verify_asset_key_accepts_lower_hex (x : Externals) (k : List Nat) :
    (VerifyAssetKey x k = none ↔ lowerHexKey k)
      ∧ (¬ lowerHexKey k → ∃ e, VerifyAssetKey x k = some e)
      ∧ ((∃ c ∈ k, isUpperHex c) → ∃ e, VerifyAssetKey x k = some e) := by
  have hiff := VerifyAssetKey_accepts_iff x k
  have hrej : ¬ lowerHexKey k → ∃ e, VerifyAssetKey x k = some e := by
    intro hn
    cases hv : VerifyAssetKey x k with
    | none => exact absurd (hiff.1 hv) hn
    | some e => exact ⟨e, rfl⟩
  refine ⟨hiff, hrej, ?_⟩
  rintro ⟨c, hc, hup⟩
  apply hrej
  rintro ⟨_, hpre, hrest⟩
  rw [← List.take_append_drop 2 k, List.mem_append] at hc
  unfold isUpperHex at hup
  rcases hc with hc | hc
  · rw [hpre] at hc
    have : c = 48 ∨ c = 120 := by simpa [bytesOf] using hc
    omega
  · have := hrest c hc
    unfold isLowerHex at this
    omega

theorem verify_asset_key_accepts_lower_hex_witness :
    lowerHexKey nativeAssetKey
      ∧ VerifyAssetKey sampleExternals nativeAssetKey = none
      ∧ (∃ c ∈ bytesOf "0x000000000000000000000000000000000000101A", isUpperHex c)
      ∧ ∃ e, VerifyAssetKey sampleExternals
          (bytesOf "0x000000000000000000000000000000000000101A") = some e := by
  have hkey : lowerHexKey nativeAssetKey := by
    refine ⟨by decide, by decide, ?_⟩
    unfold isLowerHex
    decide
  have hup : ∃ c ∈ bytesOf "0x000000000000000000000000000000000000101A", isUpperHex c :=
    ⟨65, by decide, by unfold isUpperHex; decide⟩
  exact ⟨hkey, (verify_asset_key_accepts_lower_hex sampleExternals nativeAssetKey).1.2 hkey,
    hup, (verify_asset_key_accepts_lower_hex sampleExternals
      (bytesOf "0x000000000000000000000000000000000000101A")).2.2 hup⟩

/-! ### `GenerateAssetId` -/

theorem nativeAssetKey_accepted (x : Externals) : VerifyAssetKey x nativeAssetKey = none := by
  rw [VerifyAssetKey_accepts_iff]
  refine ⟨by decide, by decide, ?_⟩
  unfold isLowerHex
  decide

theorem GenerateAssetId_of_accepted (x : Externals) (k : List Nat)
    (h : VerifyAssetKey x k = none) : ∃ v, GenerateAssetId x k = Except.ok v := by
  unfold GenerateAssetId
  rw [h]
  simp only
  by_cases hn : k = nativeAssetKey
  · rw [if_pos hn]
    exact ⟨_, rfl⟩
  · rw [if_neg hn]
    have hlen := x.md5Sum_length (PolygonChainBase ++ k)
    cases h6 : (x.md5Sum (PolygonChainBase ++ k))[6]? with
    | none =>
      rw [List.getElem?_eq_none_iff] at h6
      omega
    | some b6 =>
      simp only
      cases h8 : ((x.md5Sum (PolygonChainBase ++ k)).set 6 ((b6 &&& 0x0f) ||| 0x30))[8]? with
      | none =>
        rw [List.getElem?_eq_none_iff, List.length_set] at h8
        omega
      | some b8 => exact ⟨_, rfl⟩

/-- Claim C13: `GenerateAssetId` halts (panics) if and only if `VerifyAssetKey` rejects the
asset key, the panic carrying the key; for every key `VerifyAssetKey` accepts it returns a
hash without halting (the MD5 digest has 16 bytes, so the indices 6 and 8 are in range),
and for the native key 0x0000000000000000000000000000000000001010 that hash is
`PolygonChainId`. -/
theorem generate_asset_id_panics_iff_rejected (x : Externals) (k : List Nat) :
    ((∃ p, GenerateAssetId x k = Except.error p) ↔ VerifyAssetKey x k ≠ none)
      ∧ (VerifyAssetKey x k ≠ none → GenerateAssetId x k = Except.error (Panic.value k))
      ∧ (VerifyAssetKey x k = none → ∃ v, GenerateAssetId x k = Except.ok v)
      ∧ GenerateAssetId x nativeAssetKey = Except.ok (PolygonChainId x) := by
  have hrej : VerifyAssetKey x k ≠ none → GenerateAssetId x k = Except.error (Panic.value k) := by
    intro hne
    unfold GenerateAssetId
    cases hv : VerifyAssetKey x k with
    | none => exact absurd hv hne
    | some e => rfl
  refine ⟨⟨?_, fun hne => ⟨_, hrej hne⟩⟩, hrej, GenerateAssetId_of_accepted x k, ?_⟩
  · rintro ⟨p, hp⟩ hnone
    obtain ⟨v, hv⟩ := GenerateAssetId_of_accepted x k hnone
    rw [hv] at hp
    cases hp
  · unfold GenerateAssetId
    rw [nativeAssetKey_accepted x]
    simp

theorem generate_asset_id_panics_iff_rejected_witness :
    VerifyAssetKey sampleExternals (bytesOf "0x1010") ≠ none
      ∧ GenerateAssetId sampleExternals (bytesOf "0x1010")
          = Except.error (Panic.value (bytesOf "0x1010"))
      ∧ VerifyAssetKey sampleExternals nativeAssetKey = none
      ∧ ∃ v, GenerateAssetId sampleExternals nativeAssetKey = Except.ok v :=
  ⟨by decide,
    (generate_asset_id_panics_iff_rejected sampleExternals (bytesOf "0x1010")).2.1 (by decide),
    by decide,
    (generate_asset_id_panics_iff_rejected sampleExternals nativeAssetKey).2.2.1 (by decide)⟩

/-! ### Addresses -/

theorem hextable_digit : ∀ n, n < 16 → fromHexChar (hextable.getD n 0) = some n := by
  decide

theorem hextable_digit_upper :
    ∀ n, n < 16 → hextable.getD n 0 > 57 → fromHexChar (hextable.getD n 0 - 32) = some n := by
  decide

theorem hexEncode_length (a : List Nat) : (hexEncode a).length = 2 * a.length := by
  induction a with
  | nil => rfl
  | cons v rest ih => simp only [hexEncode, List.length_cons, ih]; omega

theorem checksumLoop_length (hash : List Nat) :
    ∀ (l : List Nat) (i : Nat), (checksumLoop hash i l).length = l.length := by
  intro l
  induction l with
  | nil => intro i; rfl
  | cons c rest ih => intro i; simp only [checksumLoop, List.length_cons, ih]

theorem checksum_digit (n : Nat) (hn : n < 16) (P : Prop) [Decidable P] :
    fromHexChar (if hextable.getD n 0 > 57 ∧ P then hextable.getD n 0 - 32
      else hextable.getD n 0) = some n := by
  by_cases h : hextable.getD n 0 > 57 ∧ P
  · rw [if_pos h]
    exact hextable_digit_upper n hn h.1
  · rw [if_neg h]
    exact hextable_digit n hn

theorem decode_checksumLoop (hash : List Nat) :
    ∀ (a : List Nat) (i : Nat), (∀ v ∈ a, v < 256) →
      hexDecodeString (checksumLoop hash i (hexEncode a)) = (a, none) := by
  intro a
  induction a with
  | nil => intro i _; rfl
  | cons v rest ih =>
    intro i h
    have hv : v < 256 := h v (List.mem_cons_self _ _)
    have hrest := ih (i + 1 + 1) (fun w hw => h w (List.mem_cons_of_mem _ hw))
    simp only [hexEncode, checksumLoop, hexDecodeString]
    rw [checksum_digit (v / 16) (by omega), checksum_digit (v % 16) (Nat.mod_lt _ (by decide))]
    simp only [hrest]
    congr 2
    omega

theorem addressHex_take (a : List Nat) : (addressHex a).take 2 = bytesOf "0x" := by
  unfold addressHex
  rw [List.take_append_of_le_length (by decide)]
  decide

theorem addressHex_drop (a : List Nat) : (addressHex a).drop 2 = hexEncode a := by
  unfold addressHex
  have h : (bytesOf "0x").length = 2 := by decide
  rw [← h, List.drop_left]

theorem Hex_eq (x : Externals) (a : List Nat) :
    Hex x a = bytesOf "0x" ++ checksumLoop (x.keccak256 (hexEncode a)) 2 (hexEncode a) := by
  unfold Hex checksumHex
  simp only [addressHex_take, addressHex_drop]

theorem Hex_take (x : Externals) (a : List Nat) : (Hex x a).take 2 = bytesOf "0x" := by
  rw [Hex_eq, List.take_append_of_le_length (by decide)]
  decide

theorem Hex_drop (x : Externals) (a : List Nat) :
    (Hex x a).drop 2 = checksumLoop (x.keccak256 (hexEncode a)) 2 (hexEncode a) := by
  rw [Hex_eq]
  have h : (bytesOf "0x").length = 2 := by decide
  rw [← h, List.drop_left]

theorem Hex_length (x : Externals) (a : List Nat) : (Hex x a).length = 2 + 2 * a.length := by
  rw [Hex_eq, List.length_append, checksumLoop_length, hexEncode_length]
  rfl

theorem Hex_decode (x : Externals) (a : List Nat) (h : ∀ v ∈ a, v < 256) :
    hexDecodeString ((Hex x a).drop 2) = (a, none) := by
  rw [Hex_drop]
  exact decode_checksumLoop _ a 2 h

theorem copyToAddress_of_length (a : List Nat) (h : a.length = 20) : copyToAddress a = a := by
  unfold copyToAddress AddressLength
  rw [List.take_append_of_le_length (by omega), List.take_of_length_le (by omega)]

theorem trimSpaceRight_of_plain (x : Externals) (c : Nat) (rest : List Nat)
    (h1 : c < 128) (h2 : asciiSpace c = false) :
    trimSpaceRight x (c :: rest) = (c :: rest).reverse := by
  rw [trimSpaceRight, if_neg (by omega), h2]
  simp

theorem TrimSpace_of_plain (x : Externals) (s : List Nat)
    (h : ∀ c ∈ s, c < 128 ∧ asciiSpace c = false) : TrimSpace x s = s := by
  cases s with
  | nil => rfl
  | cons c rest =>
    obtain ⟨h1, h2⟩ := h c (List.mem_cons_self _ _)
    rw [TrimSpace, if_neg (by omega), h2]
    simp only [Bool.false_eq_true, if_false]
    cases hr : (c :: rest).reverse with
    | nil => simp at hr
    | cons d tl =>
      have hd : d ∈ c :: rest := by
        rw [← List.mem_reverse, hr]
        exact List.mem_cons_self _ _
      obtain ⟨h3, h4⟩ := h d hd
      rw [trimSpaceRight_of_plain x d tl h3 h4, ← hr, List.reverse_reverse]

theorem isHex_plain (c : Nat) (h : c = 48 ∨ c = 120 ∨ isHex c) :
    c < 128 ∧ asciiSpace c = false := by
  unfold isHex isLowerHex isUpperHex at h
  unfold asciiSpace
  refine ⟨by omega, ?_⟩
  simp only [decide_eq_false_iff_not]
  omega

theorem formatAddress_of_decoded (x : Externals) (s b : List Nat) (hlen : 2 ≤ s.length)
    (hb : hexDecodeString (s.drop 2) = (b, none)) :
    formatAddress x s = Except.ok (Hex x (copyToAddress b), none) := by
  unfold formatAddress
  rw [if_neg (by omega), hb]

theorem formatAddress_of_error (x : Externals) (s b : List Nat) (e : HexError)
    (hlen : 2 ≤ s.length) (hb : hexDecodeString (s.drop 2) = (b, some e)) :
    formatAddress x s = Except.ok ([], some e) := by
  unfold formatAddress
  rw [if_neg (by omega), hb]

theorem VerifyAddress_accepts_iff (x : Externals) (s : List Nat) :
    VerifyAddress x s = Except.ok none ↔
      TrimSpace x s = s ∧ s.length = 42 ∧ s.take 2 = bytesOf "0x"
        ∧ ∃ b, hexDecodeString (s.drop 2) = (b, none) ∧ b.length = 20
            ∧ Hex x (copyToAddress b) = s := by
  have hpre : HasPrefix s (bytesOf "0x") = true ↔ s.take 2 = bytesOf "0x" := by
    unfold HasPrefix
    simp only [decide_eq_true_eq]
    exact Iff.rfl
  unfold VerifyAddress
  by_cases h0 : TrimSpace x s ≠ s
  · rw [if_pos h0]
    simp only [Except.ok.injEq, reduceCtorEq, false_iff, not_and]
    intro h; exact absurd h h0
  · rw [if_neg h0]
    have h0' : TrimSpace x s = s := by
      by_contra hne; exact h0 hne
    by_cases h1 : s.length ≠ 42
    · rw [if_pos h1]
      simp only [Except.ok.injEq, reduceCtorEq, false_iff, not_and]
      intro _ h; exact absurd h h1
    · rw [if_neg h1]
      have h1' : s.length = 42 := by omega
      by_cases h2 : (!HasPrefix s (bytesOf "0x")) = true
      · rw [if_pos h2]
        simp only [Except.ok.injEq, reduceCtorEq, false_iff, not_and]
        intro _ _ h
        rw [← hpre] at h
        simp [h] at h2
      · rw [if_neg h2]
        have h2' : s.take 2 = bytesOf "0x" := by
          rw [← hpre]
          simpa using h2
        rcases hd : hexDecodeString (s.drop 2) with ⟨b, e⟩
        cases e with
        | some e =>
          rw [formatAddress_of_error x s b e (by omega) hd]
          simp only [Except.ok.injEq, reduceCtorEq, false_iff, not_and, not_exists]
          intro _ _ _ b2 hb2
          simp at hb2
        | none =>
          rw [formatAddress_of_decoded x s b (by omega) hd]
          simp only
          by_cases h3 : Hex x (copyToAddress b) ≠ s
          · rw [if_pos h3]
            simp only [Except.ok.injEq, reduceCtorEq, false_iff, not_and, not_exists]
            intro _ _ _ b2 hb2 _ hform
            simp only [Prod.mk.injEq, and_true] at hb2
            rw [← hb2] at hform
            exact h3 hform
          · rw [if_neg h3]
            have h3' : Hex x (copyToAddress b) = s := by
              by_contra hne; exact h3 hne
            by_cases h4 : b.length ≠ 20
            · rw [if_pos h4]
              simp only [Except.ok.injEq, reduceCtorEq, false_iff, not_and, not_exists]
              intro _ _ _ b2 hb2 hlen
              simp only [Prod.mk.injEq, and_true] at hb2
              rw [← hb2] at hlen
              exact absurd hlen h4
            · rw [if_neg h4]
              simp only [true_iff]
              exact ⟨h0', h1', h2', b, rfl, by omega, h3'⟩

theorem Hex_plain (x : Externals) (a : List Nat) (h : ∀ v ∈ a, v < 256) :
    ∀ c ∈ Hex x a, c < 128 ∧ asciiSpace c = false := by
  have hhex : ∀ c ∈ (Hex x a).drop 2, isHex c :=
    (hexDecodeString_ok _ _ a (Nat.le_refl _) (Hex_decode x a h)).1
  intro c hc
  exact isHex_plain c (take_drop_ascii (Hex x a) (Hex_take x a) hhex c hc).2

/-- Claim C20: for every 20-byte address `a`, and whatever digest Keccak-256 produces,
`Address.Hex(a)` is "0x" followed by 40 hexadecimal characters that `hex.DecodeString`
(which reads both cases) decodes back to `a`; formatting it again gives the same string,
and `VerifyAddress` accepts it. Conversely every string `VerifyAddress` accepts is 42
bytes long, starts with "0x" and is the checksum-cased form of the 20 bytes it decodes
to. -/
theorem address_hex_round_trip (x : Externals) (a : List Nat)
    (hlen : a.length = 20) (hbytes : ∀ v ∈ a, v < 256) :
    ((Hex x a).length = 42 ∧ (Hex x a).take 2 = bytesOf "0x"
        ∧ (∀ c ∈ (Hex x a).drop 2, isHex c)
        ∧ hexDecodeString ((Hex x a).drop 2) = (a, none))
      ∧ formatAddress x (Hex x a) = Except.ok (Hex x a, none)
      ∧ VerifyAddress x (Hex x a) = Except.ok none
      ∧ (∀ s, VerifyAddress x s = Except.ok none →
          s.length = 42 ∧ s.take 2 = bytesOf "0x"
            ∧ ∃ b, hexDecodeString (s.drop 2) = (b, none) ∧ b.length = 20 ∧ s = Hex x b) := by
  have hl : (Hex x a).length = 42 := by rw [Hex_length, hlen]
  have hdec := Hex_decode x a hbytes
  have hhex : ∀ c ∈ (Hex x a).drop 2, isHex c :=
    (hexDecodeString_ok _ _ a (Nat.le_refl _) hdec).1
  have hform : formatAddress x (Hex x a) = Except.ok (Hex x a, none) := by
    rw [formatAddress_of_decoded x (Hex x a) a (by omega) hdec,
      copyToAddress_of_length a hlen]
  refine ⟨⟨hl, Hex_take x a, hhex, hdec⟩, hform, ?_, ?_⟩
  · rw [VerifyAddress_accepts_iff]
    refine ⟨TrimSpace_of_plain x _ (Hex_plain x a hbytes), hl, Hex_take x a, a, hdec, hlen, ?_⟩
    rw [copyToAddress_of_length a hlen]
  · intro s hs
    rw [VerifyAddress_accepts_iff] at hs
    obtain ⟨_, h1, h2, b, hb, hbl, hf⟩ := hs
    refine ⟨h1, h2, b, hb, hbl, ?_⟩
    rw [copyToAddress_of_length b hbl] at hf
    exact hf.symm

theorem address_hex_round_trip_witness :
    (List.replicate 20 171).length = 20
      ∧ (∀ v ∈ List.replicate 20 171, v < 256)
      ∧ Hex sampleExternals (List.replicate 20 171)
          = bytesOf "0xABABABABABABABABABABABABABABABABABABABAB"
      ∧ VerifyAddress sampleExternals (Hex sampleExternals (List.replicate 20 171))
          = Except.ok none :=
  ⟨by decide, by decide, by decide,
    (address_hex_round_trip sampleExternals (List.replicate 20 171) (by decide)
      (by decide)).2.2.1⟩

end Mixin.Polygon
